import Mathlib

/-!
Verification development for the `lfw-import` harvester.

The service ingests product, supplier, pricing, ingredient, allergen and
picture data from the LocalFoodWorks API into an RDF triple store.  This file
gives a shallow embedding of the reconciliation core of `app.js`
(the current revision of the service): the triple store is a list of triples,
SPARQL `INSERT DATA` prepends triples, `DELETE ... WHERE` filters by a
predicate allowlist, `SELECT ... LIMIT 1` / `bindings[0]` is a deterministic
first-match scan, and `uuid()` is a mint counter carried in the state.
Fallible steps (the unit converter throwing) run in `Except`, with the error
carrying the state at the moment of the throw, mirroring that JavaScript
exceptions leave already-committed writes in place.

External collaborators declared out of scope by the service (HTTP fetching,
the DOMPurify sanitizer, MIME detection, file storage) are modelled as
explicit parameters or deterministic stubs, as noted at each definition.
-/

namespace Veeakker

/-- Internal URIs minted by the service.  Each constructor corresponds to one
URI template of the source: `product n` is `http://veeakker.be/products/<uuid n>`,
`identifier n` is `http://data.redpencil.io/identifiers/<uuid n>`,
`supplier n` is `http://veeakker.be/suppliers/<uuid n>`,
`priceSpec n` is `http://veeakker.be/price-specifications/<uuid n>`,
`quantVal n` is `http://veeakker.be/quantitative-values/<uuid n>`,
`offering n` is `http://veeakker.be/offerings/<uuid n>`,
`typeAndQuantity n` is `http://veeakker.be/type-and-quantities/<uuid n>`,
`file n` is `http://veeakker.be/files/<uuid n>`,
`share n e` is `share://<uuid n>.<e>`,
`job n` is `http://veeakker.be/lfw-jobs/<uuid n>`, and
`ext u` is any other URI (external URLs, classes, labels, statuses),
written literally.  The templates are pairwise non-overlapping, which the
inductive presentation records as constructor disjointness. -/
inductive Node where
  | product (n : Nat)
  | identifier (n : Nat)
  | supplier (n : Nat)
  | priceSpec (n : Nat)
  | quantVal (n : Nat)
  | offering (n : Nat)
  | typeAndQuantity (n : Nat)
  | file (n : Nat)
  | share (n : Nat) (e : String)
  | job (n : Nat)
  | ext (uri : String)
deriving DecidableEq

/-- An RDF object term: a URI, a string literal (`sparqlEscapeString`),
a decimal (`sparqlEscapeDecimal`), a boolean (`sparqlEscapeBool`) or a
datetime (`sparqlEscapeDateTime`, modelled as a clock tick). -/
inductive Obj where
  | node (u : Node)
  | str (s : String)
  | dec (q : ℚ)
  | boolv (b : Bool)
  | time (t : Nat)
deriving DecidableEq

/-- One triple of the store.  Predicates are kept as their prefixed names
exactly as written in the source queries (`a` is SPARQL shorthand for
`rdf:type`). -/
structure Triple where
  s : Node
  p : String
  o : Obj
deriving DecidableEq

/-- State threaded through the service: the triple store (all graphs
conflated), the `uuid()` mint counter, the log of URLs passed to
`downloadShareFile` (most recent first), and the wall clock read by
`new Date()`. -/
structure St where
  store : List Triple
  ctr : Nat
  downloads : List String
  now : Nat
deriving DecidableEq

/-- `uuid()`: returns a fresh identifier and advances the mint counter. -/
def St.mint (st : St) : Nat × St := (st.ctr, { st with ctr := st.ctr + 1 })

/-- `INSERT DATA`: the inserted triples join the graph.  The model prepends
them; a graph is read through membership, so list position is irrelevant to
the store's set semantics. -/
def insertData (ts : List Triple) (db : List Triple) : List Triple := ts ++ db

/-- `DELETE { u ?p ?o } WHERE { VALUES ?p { preds } u ?p ?o }`: drop every
triple of subject `u` whose predicate is in the allowlist. -/
def deleteProps (u : Node) (preds : List String) (db : List Triple) : List Triple :=
  db.filter (fun t => decide ¬(t.s = u ∧ t.p ∈ preds))

/-- The delete-then-insert property-group update the source repeats for every
entity kind: one `update` call holding a `DELETE ... WHERE` on the predicate
allowlist followed by an `INSERT DATA` of the fresh values. -/
def replaceGroup (u : Node) (preds : List String) (ts : List Triple) (db : List Triple) :
    List Triple :=
  insertData ts (deleteProps u preds db)

/-- `SELECT ?x WHERE { u p ?x } LIMIT 1` followed by `bindings[0].x`: the
object of the first matching triple. -/
def firstObj (db : List Triple) (u : Node) (p : String) : Option Obj :=
  db.findSome? (fun t => if t.s = u ∧ t.p = p then some t.o else none)

/-- `bindings[0].x.value` used as a URI: a URI binding is returned as is, any
other term's lexical value is wrapped as an external URI. -/
def Obj.asNode : Obj → Node
  | .node u => u
  | .str s => .ext s
  | .dec _ => .ext ""
  | .boolv _ => .ext ""
  | .time _ => .ext ""

/-! ## Payload types (the JSDoc typedefs of the source) -/

/-- `money` object of a price. -/
structure Money where
  amount : ℚ
deriving DecidableEq

/-- `measurementUnitPrice` / `orderUnitPrice` payload. -/
structure PriceSpecPayload where
  money : Money
  unitOfMeasurement : String
deriving DecidableEq

/-- `pricing.consumerPrice` payload. -/
structure ConsumerPrice where
  measurementUnitPrice : PriceSpecPayload
  orderUnitPrice : PriceSpecPayload
deriving DecidableEq

/-- `pricing` payload. -/
structure PricingPayload where
  consumerPrice : ConsumerPrice
  measurementUnitVsOrderUnitRatio : ℚ
deriving DecidableEq

/-- Item of the `ingredients` array of a product detail. -/
structure Ingredient where
  position : Int
  name : String
deriving DecidableEq

/-- Nested `allergen` object. -/
structure Allergen where
  id : Int
  name : String
deriving DecidableEq

/-- Item of the `allergens` array of a product detail. -/
structure AllergenEntry where
  allergen : Allergen
deriving DecidableEq

/-- `SupplierInfo` typedef: the structured supplier of a product detail. -/
structure SupplierInfo where
  name : String
  description : String
  emailAddress : String
  image : String
deriving DecidableEq

/-- The `supplier` field of a product: a bare name string on a listing
(`ProductListed`), a structured object on a detail (`ProductDetail`). -/
inductive SupplierField where
  | name (s : String)
  | info (i : SupplierInfo)
deriving DecidableEq

/-- `Product` payload (`BaseProduct` of the JSDoc typedefs; optional fields
that only the detail payload carries are `Option`s, and a JavaScript string
field that may be absent or empty is `none` or `some ""`). -/
structure Product where
  id : Int
  name : String
  supplier : SupplierField
  description : Option String
  bio : Bool
  canBeOrderedAsFractionOfOrderUnit : Bool
  pricing : PricingPayload
  ingredients : Option (List Ingredient)
  allergens : Option (List AllergenEntry)
  image : Option String
deriving DecidableEq

/-- `SupplierSummary` roster item. -/
structure SupplierSummary where
  id : Int
  name : String
deriving DecidableEq

/-- A page of `visible-products`: its `content` array and `last` flag. -/
structure Page where
  content : List Product
  last : Bool
deriving DecidableEq

/-- The upstream API, an out-of-scope collaborator: the supplier roster
(`ensureSuppliersPage`), the catalog pages in order (`ensurePage 0, 1, ...`)
and the product-detail fetch (`ensureProductPage`, a function of the external
product id). -/
structure Upstream where
  suppliers : List SupplierSummary
  pages : List Page
  detail : Int → Product

/-- JavaScript truthiness of an optional string field (absent and `""` are
falsy). -/
def truthyOpt : Option String → Bool
  | some s => decide ¬(s = "")
  | none => false

/-- Errors thrown during a run carry the state at the moment of the throw:
JavaScript exceptions do not roll back writes already committed. -/
abbrev Err := String × St

/-- Lift the unit converter's `Except String` into the stateful error type. -/
def convErr (r : Except String String) (st : St) : Except Err String :=
  match r with
  | .ok v => .ok v
  | .error e => .error (e, st)

/-! ## The reconciliation core, function by function -/

/-- `convertLfwUnitToCEFACT`: maps the three supported LFW unit codes to
CEFACT codes and throws on anything else. -/
def convertLfwUnitToCEFACT (unit : String) : Except String String :=
  match unit with
  | "l" => .ok "LTR"
  | "kg" => .ok "KGM"
  | "stk" => .ok "C62"
  | u => .error ("Could not translate unit " ++ u)

/-- `IGNORED_ORGANIZATIONS`. -/
def IGNORED_ORGANIZATIONS : List String := ["Pintafish (VLB)"]

/-- `IGNORED_ORGANIZATIONS.includes(product.supplier)`: JavaScript
`Array.includes` compares with `===`, so a structured supplier object never
equals a string entry of the list — only a bare name string can match. -/
def supplierIgnored : SupplierField → Bool
  | .name s => decide (s ∈ IGNORED_ORGANIZATIONS)
  | .info _ => false

/-- The find-or-create pattern shared by the five sub-resource resolvers:
query `owner relPred ?x LIMIT 1`; if found return the binding, else mint a
fresh URI and insert the owner edge plus type and uuid triples. -/
def findOrCreate (owner : Node) (relPred : String) (typeName : String)
    (mk : Nat → Node) (st : St) : Node × St :=
  match firstObj st.store owner relPred with
  | some o => (o.asNode, st)
  | none =>
    let (n, st) := st.mint
    let u := mk n
    (u, { st with store := (insertData
      [ ⟨owner, relPred, .node u⟩,
        ⟨u, "a", .node (.ext typeName)⟩,
        ⟨u, "mu:uuid", .str (toString n)⟩ ] st.store) })

/-- `ensureSingleUnitPriceResource`. -/
def ensureSingleUnitPriceResource (productUri : Node) (st : St) : Node × St :=
  findOrCreate productUri "veeakker:singleUnitPrice" "gr:UnitPriceSpecification"
    Node.priceSpec st

/-- `ensureTargetUnitResource`. -/
def ensureTargetUnitResource (productUri : Node) (st : St) : Node × St :=
  findOrCreate productUri "veeakker:targetUnit" "gr:QuantitativeValue"
    Node.quantVal st

/-- `ensureOffering`. -/
def ensureOffering (productUri : Node) (st : St) : Node × St :=
  findOrCreate productUri "veeakker:offerings" "gr:Offering" Node.offering st

/-- `ensureOfferingTypeAndQuantity`. -/
def ensureOfferingTypeAndQuantity (offeringUri : Node) (st : St) : Node × St :=
  findOrCreate offeringUri "gr:includesObject" "gr:TypeAndQuantityNode"
    Node.typeAndQuantity st

/-- `ensureOfferingUnitPrice`. -/
def ensureOfferingUnitPrice (offeringUri : Node) (st : St) : Node × St :=
  findOrCreate offeringUri "gr:hasPriceSpecification" "gr:UnitPriceSpecification"
    Node.priceSpec st

/-- `OfferingResources` typedef. -/
structure OfferingResources where
  offering : Node
  typeAndQuantity : Node
  unitPrice : Node
deriving DecidableEq

/-- `ensureOfferingResources`. -/
def ensureOfferingResources (productUri : Node) (st : St) : OfferingResources × St :=
  let r1 := ensureOffering productUri st
  let r2 := ensureOfferingTypeAndQuantity r1.1 r1.2
  let r3 := ensureOfferingUnitPrice r1.1 r2.2
  (⟨r1.1, r2.1, r3.1⟩, r3.2)

/-- `ensureProductDefaultPricing`.  Note two faithful details: the update
string for the single-unit price is built (calling the unit converter, which
may throw) before the update executes, so a conversion failure leaves the two
just-ensured sub-resources committed but both value groups untouched; and the
delete allowlist of the single-unit price names `gr:hascurrencyValue`
(lowercase `c`) while the insert writes `gr:hasCurrencyValue`. -/
def ensureProductDefaultPricing (product : Product) (productUri : Node) (st : St) :
    Except Err St := do
  let consumerPrice := product.pricing.consumerPrice
  let priceSpecification := consumerPrice.measurementUnitPrice
  let euros := priceSpecification.money.amount
  let unitOfMeasurement := priceSpecification.unitOfMeasurement
  let sres := ensureSingleUnitPriceResource productUri st
  let singleUnitPriceResource := sres.1
  let tres := ensureTargetUnitResource productUri sres.2
  let targetUnitResource := tres.1
  let st := tres.2
  let cefact ← convErr (convertLfwUnitToCEFACT unitOfMeasurement) st
  let st : St := { st with store :=
    (replaceGroup singleUnitPriceResource
      ["gr:hasUnitOfMeasurement", "gr:hascurrencyValue"]
      [ ⟨singleUnitPriceResource, "gr:hasUnitOfMeasurement", .str cefact⟩,
        ⟨singleUnitPriceResource, "gr:hasCurrencyValue", .dec euros⟩ ] st.store) }
  let targetUnitMeasurementUnit ←
    convErr (convertLfwUnitToCEFACT consumerPrice.measurementUnitPrice.unitOfMeasurement) st
  let targetUnitMeasurementAmount := product.pricing.measurementUnitVsOrderUnitRatio
  let st : St := { st with store :=
    (replaceGroup targetUnitResource
      ["gr:hasUnitOfMeasurement", "gr:hasValue"]
      [ ⟨targetUnitResource, "gr:hasUnitOfMeasurement", .str targetUnitMeasurementUnit⟩,
        ⟨targetUnitResource, "gr:hasValue", .dec targetUnitMeasurementAmount⟩ ] st.store) }
  return st

/-- `ensureProductOffers`.  The offering unit-price group is written before
the converter runs for the type-and-quantity group, so a conversion failure
here would leave the unit-price group committed (it cannot fail in practice:
`ensureProductDefaultPricing` already converted the same field). -/
def ensureProductOffers (product : Product) (productUri : Node) (st : St) :
    Except Err (OfferingResources × St) := do
  let ores := ensureOfferingResources productUri st
  let offering := ores.1
  let st := ores.2
  let euros := product.pricing.consumerPrice.orderUnitPrice.money.amount
  let st : St := { st with store :=
    (replaceGroup offering.unitPrice ["gr:hasUnitOfMeasurement", "gr:hasCurrencyValue"]
      [ ⟨offering.unitPrice, "gr:hasUnitOfMeasurement", .str "C62"⟩,
        ⟨offering.unitPrice, "gr:hasCurrencyValue", .dec euros⟩ ] st.store) }
  let amount := product.pricing.measurementUnitVsOrderUnitRatio
  let unit ←
    convErr (convertLfwUnitToCEFACT product.pricing.consumerPrice.measurementUnitPrice.unitOfMeasurement) st
  let st : St := { st with store :=
    (replaceGroup offering.typeAndQuantity
      ["gr:amountOfThisGood", "gr:hasUnitOfMeasurement", "gr:typeOfGood"]
      [ ⟨offering.typeAndQuantity, "gr:amountOfThisGood", .dec amount⟩,
        ⟨offering.typeAndQuantity, "gr:hasUnitOfMeasurement", .str unit⟩ ] st.store) }
  return (offering, st)

/-- `purify.sanitize`, an out-of-scope collaborator (DOMPurify); modelled as
the identity on strings. -/
def sanitize (s : String) : String := s

/-- The `<ul>` rendering shared by ingredients and allergens. -/
def ulHtml (items : List String) : String :=
  "<ul>" ++ String.join (items.map (fun s => "\n  <li>" ++ s ++ "</li>")) ++ "\n</ul>"

/-- Ingredient text: sort ascending by `position`, take names, sanitize,
render as an HTML list. -/
def ingredientsHtml (l : List Ingredient) : String :=
  ulHtml (((l.mergeSort (fun a b => a.position ≤ b.position)).map (fun i => i.name)).map sanitize)

/-- `ensureProductIngredients`: one update that always deletes the stored
`food:ingredientListAsText` and re-inserts it only when the payload has an
`ingredients` field. -/
def ensureProductIngredients (product : Product) (productUri : Node) (st : St) : St :=
  let base := deleteProps productUri ["food:ingredientListAsText"] st.store
  match product.ingredients with
  | some l =>
    { st with store :=
        (insertData [⟨productUri, "food:ingredientListAsText", .str (ingredientsHtml l)⟩] base) }
  | none => { st with store := base }

/-- Allergen text: project the nested `allergen` objects, sort ascending by
allergen id, take names, sanitize, render. -/
def allergensHtml (l : List AllergenEntry) : String :=
  ulHtml ((((l.map (fun e => e.allergen)).mergeSort (fun a b => a.id ≤ b.id)).map
    (fun a => a.name)).map sanitize)

/-- `ensureProductAllergens`: same delete-then-conditional-insert pattern on
`veeakker:allergensAsText`. -/
def ensureProductAllergens (product : Product) (productUri : Node) (st : St) : St :=
  let base := deleteProps productUri ["veeakker:allergensAsText"] st.store
  match product.allergens with
  | some l =>
    { st with store :=
        (insertData [⟨productUri, "veeakker:allergensAsText", .str (allergensHtml l)⟩] base) }
  | none => { st with store := base }

/-! ## Picture sync -/

/-- Predicate allowlist of the share-node delete block of
`ensureProductPicture`. -/
def sharePreds : List String :=
  ["dct:source", "nfo:fileName", "dct:format", "nfo:fileSize",
   "dbpedia:fileExtension", "dct:created"]

/-- Predicate allowlist of the file-node delete block of
`ensureProductPicture` (note: no `dct:source`). -/
def filePreds : List String :=
  ["nfo:fileName", "dct:format", "nfo:fileSize", "dbpedia:fileExtension", "dct:created"]

/-- The `ASK` of `ensureProductPicture`: does some current thumbnail of the
product record `url` as its `dct:source`? -/
def hasThumbSource (db : List Triple) (productUri : Node) (url : String) : Bool :=
  db.any (fun t =>
    decide (t.s = productUri ∧ t.p = "veeakker:thumbnail") &&
    (match t.o with
     | .node pic => decide (Triple.mk pic "dct:source" (Obj.node (.ext url)) ∈ db)
     | _ => false))

/-- Is `subj` a physical share resource of some current thumbnail of the
product (`?share nie:dataSource ?thumbnail` with
`product veeakker:thumbnail ?thumbnail`)? -/
def isThumbShare (db : List Triple) (productUri : Node) (subj : Node) : Bool :=
  db.any (fun e =>
    decide (e.s = subj ∧ e.p = "nie:dataSource") &&
    (match e.o with
     | .node th => decide (Triple.mk productUri "veeakker:thumbnail" (Obj.node th) ∈ db)
     | _ => false))

/-- First delete block: share-node properties in the allowlist, where the
`WHERE` is evaluated against the state at the start of the block. -/
def picDeleteShare (productUri : Node) (db : List Triple) : List Triple :=
  db.filter (fun t => decide ¬(t.p ∈ sharePreds ∧ isThumbShare db productUri t.s = true))

/-- Second delete block.  Its `DELETE` template is `?file ?p ?o.` but the
`WHERE` clause binds `?s` (`<product> veeakker:thumbnail ?s. ?s ?p ?o.`) and
never `?file`; per SPARQL 1.1 Update a template quad containing a variable
unbound in a solution is skipped for that solution, so the block deletes
nothing and the old logical-file node keeps every property in `filePreds`. -/
def picDeleteFile (productUri : Node) (db : List Triple) : List Triple := db

/-- Third delete block: the thumbnail edge itself. -/
def picDeleteEdge (productUri : Node) (db : List Triple) : List Triple :=
  db.filter (fun t => decide ¬(t.s = productUri ∧ t.p = "veeakker:thumbnail"))

/-- `url.match(/[^X]+$/)[0]` for a separator `X`: the trailing segment.
Total where the source throws: on a URL that ends in the separator the
regex has no match and `[0]` raises a TypeError, while this returns the
empty trailing segment; every result below uses URLs with a proper
extension, where the two agree. -/
def lastSeg (sep : String) (s : String) : String := (s.splitOn sep).getLastD s

/-- `mime.getType`, an out-of-scope collaborator; modelled as a deterministic
function of the stored path. -/
def mimeGetType (path : String) : String := "mime/" ++ path

/-- The `INSERT DATA` block of a fresh thumbnail: the logical file and the
physical share pair.  Faithful detail: the file URI reuses the share
resource's uuid (`files/${shareResourceUuid}` in the source) while its
`mu:uuid` is the separately minted file uuid. -/
def newPictureBlock (productUri : Node) (url : String) (shareN fileN : Nat) (now : Nat) :
    List Triple :=
  let extension := lastSeg "." url
  let fileName := lastSeg "/" url
  let shareFileName := toString shareN ++ "." ++ extension
  let fileUri := Node.file shareN
  let shareUri := Node.share shareN extension
  let mimetype := mimeGetType ("/share/" ++ shareFileName)
  [ ⟨productUri, "veeakker:thumbnail", .node fileUri⟩,
    ⟨fileUri, "a", .node (.ext "nfo:FileDataObject")⟩,
    ⟨fileUri, "dct:source", .node (.ext url)⟩,
    ⟨fileUri, "mu:uuid", .str (toString fileN)⟩,
    ⟨fileUri, "nfo:fileName", .str fileName⟩,
    ⟨fileUri, "dct:format", .str mimetype⟩,
    ⟨fileUri, "dbpedia:fileExtension", .str extension⟩,
    ⟨fileUri, "dct:created", .time now⟩,
    ⟨shareUri, "a", .node (.ext "nfo:FileDataObject")⟩,
    ⟨shareUri, "mu:uuid", .str (toString shareN)⟩,
    ⟨shareUri, "nie:dataSource", .node fileUri⟩,
    ⟨shareUri, "nfo:fileName", .str fileName⟩,
    ⟨shareUri, "dct:format", .str mimetype⟩,
    ⟨shareUri, "dbpedia:fileExtension", .str extension⟩,
    ⟨shareUri, "dct:created", .time now⟩ ]

/-- `ensureProductPicture`: no-op when the stored thumbnail source equals the
payload image URL; otherwise delete the old thumbnail subgraph (three
sequential delete blocks) and, when an image URL is present, download once
and insert the fresh pair. -/
def ensureProductPicture (product : Product) (productUri : Node) (st : St) : St :=
  let currentPictureIsCorrect :=
    truthyOpt product.image && hasThumbSource st.store productUri (product.image.getD "")
  if currentPictureIsCorrect then st
  else
    let st : St := { st with store :=
      (picDeleteEdge productUri (picDeleteFile productUri (picDeleteShare productUri st.store))) }
    if truthyOpt product.image then
      let url := product.image.getD ""
      let (shareN, st) := st.mint
      let (fileN, st) := st.mint
      { st with
        store := insertData (newPictureBlock productUri url shareN fileN st.now) st.store,
        downloads := url :: st.downloads }
    else st

/-! ## Identity resolution -/

/-- One candidate binding of the identity query of `ensureProductMeta`: the
scanned triple must be an `adms:identifier` edge whose subject is typed
`schema:Product` and whose object is an `adms:Identifier` carrying the wanted
`skos:notation` and the source-system `dct:creator`. -/
def metaHit (db : List Triple) (idStr : String) (t : Triple) : Option (Node × Node) :=
  if t.p = "adms:identifier" then
    match t.o with
    | .node iu =>
      if Triple.mk t.s "a" (Obj.node (.ext "schema:Product")) ∈ db
          ∧ Triple.mk iu "a" (Obj.node (.ext "adms:Identifier")) ∈ db
          ∧ Triple.mk iu "skos:notation" (Obj.str idStr) ∈ db
          ∧ Triple.mk iu "dct:creator" (Obj.node (.ext "https://localfoodworks.eu/")) ∈ db
      then some (t.s, iu) else none
    | _ => none
  else none

/-- The identity query of `ensureProductMeta` with `bindings[0]`: first
matching (product, identifier) pair. -/
def findProductMeta (db : List Triple) (idStr : String) : Option (Node × Node) :=
  db.findSome? (metaHit db idStr)

/-- The `INSERT DATA` block creating a fresh product identity. -/
def productMetaBlock (np ni : Nat) (idStr : String) : List Triple :=
  [ ⟨Node.product np, "a", .node (.ext "schema:Product")⟩,
    ⟨Node.product np, "mu:uuid", .str (toString np)⟩,
    ⟨Node.product np, "adms:identifier", .node (Node.identifier ni)⟩,
    ⟨Node.identifier ni, "a", .node (.ext "adms:Identifier")⟩,
    ⟨Node.identifier ni, "mu:uuid", .str (toString ni)⟩,
    ⟨Node.identifier ni, "skos:notation", .str idStr⟩,
    ⟨Node.identifier ni, "dct:creator", .node (.ext "https://localfoodworks.eu/")⟩,
    ⟨Node.identifier ni, "dct:title", .str ("LFW " ++ idStr)⟩ ]

/-- `ensureProductMeta`: find the product by its external id notation, or
mint a product and identifier pair. -/
def ensureProductMeta (product : Product) (st : St) : (Node × Node) × St :=
  let idStr := toString product.id
  match findProductMeta st.store idStr with
  | some pr => (pr, st)
  | none =>
    let (np, st) := st.mint
    let (ni, st) := st.mint
    ((Node.product np, Node.identifier ni),
     { st with store := insertData (productMetaBlock np ni idStr) st.store })

/-! ## Base info, job connection, supplier linking -/

/-- Predicate allowlist of the base-info group. -/
def baseInfoPreds : List String :=
  ["dct:title", "dct:description", "veeakker:hasLabel", "veeakker:plu", "veeakker:sortIndex",
   "veeakker:lfwProductCanBeOrderedByFractionOfOrderUnit"]

/-- The `INSERT DATA` triples of the base-info group (`product.name || ""`
is `product.name` for a string field; the description and bio label are
inserted only when truthy). -/
def baseInfoTriples (product : Product) (productUri : Node) : List Triple :=
  [ ⟨productUri, "dct:title", .str product.name⟩ ]
  ++ (match product.description with
      | some d => if d = "" then [] else [⟨productUri, "dct:description", .str d⟩]
      | none => [])
  ++ [ ⟨productUri, "veeakker:hasLabel", .node (.ext "http://veeakker.be/labels/lfw")⟩ ]
  ++ (if product.bio
      then [⟨productUri, "veeakker:hasLabel", .node (.ext "http://veeakker.be/labels/bio")⟩]
      else [])
  ++ [ ⟨productUri, "veeakker:plu", .dec ((1000000 + product.id : Int) : ℚ)⟩,
       ⟨productUri, "veeakker:sortIndex", .dec ((1000000 + product.id : Int) : ℚ)⟩,
       ⟨productUri, "veeakker:lfwProductCanBeOrderedByFractionOfOrderUnit",
         .boolv product.canBeOrderedAsFractionOfOrderUnit⟩ ]

/-- `ensureBaseProductInfo`. -/
def ensureBaseProductInfo (product : Product) (productUri : Node) (st : St) : St :=
  { st with store :=
      (replaceGroup productUri baseInfoPreds (baseInfoTriples product productUri) st.store) }

/-- `ensureProductJobConnection`: purely additive provenance edge. -/
def ensureProductJobConnection (productUri jobUri : Node) (st : St) : St :=
  { st with store := insertData [⟨productUri, "prov:wasGeneratedBy", .node jobUri⟩] st.store }

/-- The supplier lookup of `loadProductSupplier`: first subject carrying the
given `gr:name`. -/
def findSupplierByName (db : List Triple) (name : String) : Option Node :=
  db.findSome? (fun t => if t.p = "gr:name" ∧ t.o = Obj.str name then some t.s else none)

/-- `loadProductSupplier`: resolve the supplier by exact name, replace its
email/description pair and add the `gr:offers` edge; silent no-op when no
supplier matches. -/
def loadProductSupplier (offeringUri : Node) (supplier : SupplierInfo) (st : St) : St :=
  match findSupplierByName st.store supplier.name with
  | some supplierUri =>
    let description := sanitize (supplier.description.replace "\n" "<br />")
    { st with store :=
        (replaceGroup supplierUri ["schema:email", "dct:description"]
          [ ⟨supplierUri, "schema:email", .str supplier.emailAddress⟩,
            ⟨supplierUri, "dct:description", .str description⟩,
            ⟨supplierUri, "gr:offers", .node offeringUri⟩ ] st.store) }
  | none => st

/-! ## loadProduct -/

/-- Options of `loadProduct`. -/
structure LoadOptions where
  external : Bool
  job : Option Node
deriving DecidableEq

/-- `loadProduct`: optionally swap in the detail payload, resolve identity,
then — unless the supplier field matches the ignore list — run every
reconciliation sub-step in order. -/
def loadProduct (detail : Int → Product) (product0 : Product) (options : LoadOptions)
    (st : St) : Except Err St :=
  let product := if options.external then detail product0.id else product0
  let mres := ensureProductMeta product st
  let meta := mres.1
  if supplierIgnored product.supplier then .ok mres.2
  else do
    let st := match options.job with
      | some j => ensureProductJobConnection meta.1 j mres.2
      | none => mres.2
    let st := ensureBaseProductInfo product meta.1 st
    let st ← ensureProductDefaultPricing product meta.1 st
    let ores ← ensureProductOffers product meta.1 st
    let offeringResources := ores.1
    let st := ensureProductIngredients product meta.1 ores.2
    let st := ensureProductAllergens product meta.1 st
    let st := ensureProductPicture product meta.1 st
    match product.supplier with
    | .info i => .ok (loadProductSupplier offeringResources.offering i st)
    | .name _ => .ok st

/-! ## Supplier loading -/

/-- One candidate binding of the supplier existence `ASK` (and of the bulk
update's join): an `adms:identifier` edge from a `gr:BusinessEntity` to an
identifier carrying the source-system creator and the wanted notation.  The
`ASK` does not require the identifier to be typed. -/
def bizHit (db : List Triple) (idStr : String) (t : Triple) : Option (Node × Node) :=
  if t.p = "adms:identifier" then
    match t.o with
    | .node iu =>
      if Triple.mk t.s "a" (Obj.node (.ext "gr:BusinessEntity")) ∈ db
          ∧ Triple.mk iu "dct:creator" (Obj.node (.ext "https://localfoodworks.eu/")) ∈ db
          ∧ Triple.mk iu "skos:notation" (Obj.str idStr) ∈ db
      then some (t.s, iu) else none
    | _ => none
  else none

/-- The existence `ASK` of `loadSuppliers` phase 1. -/
def hasSupplier (db : List Triple) (idStr : String) : Bool :=
  (db.findSome? (bizHit db idStr)).isSome

/-- The `INSERT DATA` block creating a fresh supplier identity. -/
def supplierBlock (ns ni : Nat) (idStr : String) : List Triple :=
  [ ⟨Node.supplier ns, "a", .node (.ext "gr:BusinessEntity")⟩,
    ⟨Node.supplier ns, "mu:uuid", .str (toString ns)⟩,
    ⟨Node.supplier ns, "adms:identifier", .node (Node.identifier ni)⟩,
    ⟨Node.identifier ni, "a", .node (.ext "adms:Identifier")⟩,
    ⟨Node.identifier ni, "mu:uuid", .str (toString ni)⟩,
    ⟨Node.identifier ni, "skos:notation", .str idStr⟩,
    ⟨Node.identifier ni, "dct:creator", .node (.ext "https://localfoodworks.eu/")⟩,
    ⟨Node.identifier ni, "dct:title", .str ("LFW Supplier ID " ++ idStr)⟩ ]

/-- Phase 1 of `loadSuppliers`: per roster item, create the supplier entity
unless one with that external id already exists. -/
def ensureSupplierEntities (sups : List SupplierSummary) (st : St) : St :=
  sups.foldl (fun st sup =>
    if hasSupplier st.store (toString sup.id) then st
    else
      let (ns, st) := st.mint
      let (ni, st) := st.mint
      { st with store := insertData (supplierBlock ns ni (toString sup.id)) st.store }) st

/-- Does `su` match a roster external id in the bulk update's join? -/
def supplierMatches (db : List Triple) (idStr : String) (su : Node) : Bool :=
  db.any (fun t => decide (t.s = su) && (bizHit db idStr t).isSome)

/-- The `INSERT` instantiations of the bulk name update: for each roster row,
for each matching supplier subject, its new `gr:name`. -/
def nameInserts (sups : List SupplierSummary) (db : List Triple) : List Triple :=
  (sups.map (fun sup =>
    ((db.map (fun t => t.s)).filter (fun su => supplierMatches db (toString sup.id) su)).map
      (fun su => Triple.mk su "gr:name" (Obj.str sup.name)))).flatten

/-- Phase 2 of `loadSuppliers`: one batched `DELETE ... INSERT ... WHERE`
that drops every existing name of every roster-matched supplier (the
`OPTIONAL` old name) and inserts the current roster names. -/
def bulkNames (sups : List SupplierSummary) (db : List Triple) : List Triple :=
  insertData (nameInserts sups db)
    (db.filter (fun t =>
      decide ¬(t.p = "gr:name" ∧
        sups.any (fun sup => supplierMatches db (toString sup.id) t.s) = true)))

/-- `loadSuppliers`. -/
def loadSuppliers (sups : List SupplierSummary) (st : St) : St :=
  let st := ensureSupplierEntities sups st
  { st with store := bulkNames sups st.store }

/-! ## Page walking and the harvest -/

/-- The inner loop of `loadPages`: each listed product is loaded with the
`external: true` detail re-fetch and the current job. -/
def loadProducts (detail : Int → Product) (jobUri : Node) (products : List Product)
    (st : St) : Except Err St :=
  match products with
  | [] => .ok st
  | p :: rest => do
    let st ← loadProduct detail p { external := true, job := some jobUri } st
    loadProducts detail jobUri rest st

/-- `loadPages`: walk pages 0, 1, 2, ... until a page's `last` flag is true.
Walking past the provided pages is a fetch failure of the collaborator. -/
def loadPages (detail : Int → Product) (jobUri : Node) (pages : List Page) (st : St) :
    Except Err St :=
  match pages with
  | [] => .error ("page out of range", st)
  | page :: rest => do
    let st ← loadProducts detail jobUri page.content st
    if page.last then .ok st else loadPages detail jobUri rest st

/-- One harvest pass over the store contents: suppliers first, then all
pages (the body of the harvest between the job status transitions). -/
def harvestNoJob (up : Upstream) (jobUri : Node) (st : St) : Except Err St := do
  let st := loadSuppliers up.suppliers st
  loadPages up.detail jobUri up.pages st

/-! ## The job controller -/

/-- The status replacement shared by `startJob`, `finishJob` and `errorJob`:
`DELETE WHERE { job adms:status ?s }` then insert the one new status. -/
def replaceStatus (jobUri : Node) (statusUri : String) (db : List Triple) : List Triple :=
  insertData [⟨jobUri, "adms:status", .node (.ext statusUri)⟩]
    (db.filter (fun t => decide ¬(t.s = jobUri ∧ t.p = "adms:status")))

/-- `startJob`. -/
def startJob (jobUri : Node) (st : St) : St :=
  { st with store := replaceStatus jobUri "http://veeakker.be/lfw-job-statusses/running" st.store }

/-- `finishJob`. -/
def finishJob (jobUri : Node) (st : St) : St :=
  { st with store := replaceStatus jobUri "http://veeakker.be/lfw-job-statusses/finished" st.store }

/-- `errorJob`. -/
def errorJob (jobUri : Node) (st : St) : St :=
  { st with store := replaceStatus jobUri "http://veeakker.be/lfw-job-statusses/error" st.store }

/-- `createLoadJob`. -/
def createLoadJob (st : St) : Node × St :=
  let (n, st) := st.mint
  (Node.job n, { st with store := (insertData
    [ ⟨Node.job n, "a", .node (.ext "veeakker:LfwFetchJob")⟩,
      ⟨Node.job n, "mu:uuid", .str (toString n)⟩,
      ⟨Node.job n, "dct:created", .time st.now⟩ ] st.store) })

/-- Result of one `POST /harvest` request (after authorization). -/
structure HarvestOutcome where
  jobUri : Node
  ok : Bool
  st : St

/-- The authorized body of `app.post('/harvest')`: create the job, start it,
run the harvest, finish on success; on any throw, mark the job errored on the
state left by the partial run. -/
def postHarvest (up : Upstream) (st0 : St) : HarvestOutcome :=
  match createLoadJob st0 with
  | (jobUri, st) =>
    match harvestNoJob up jobUri (startJob jobUri st) with
    | .ok s => ⟨jobUri, true, finishJob jobUri s⟩
    | .error (_, s) => ⟨jobUri, false, errorJob jobUri s⟩

/-! ## Basic store lemmas -/

theorem mem_insertData {t : Triple} {ts db : List Triple} :
    t ∈ insertData ts db ↔ t ∈ ts ∨ t ∈ db := by
  simp [insertData]

theorem mem_deleteProps {t : Triple} {u : Node} {preds : List String} {db : List Triple} :
    t ∈ deleteProps u preds db ↔ t ∈ db ∧ ¬(t.s = u ∧ t.p ∈ preds) := by
  simp only [deleteProps, List.mem_filter, decide_eq_true_eq]

theorem mem_replaceGroup {t : Triple} {u : Node} {preds : List String}
    {ts db : List Triple} :
    t ∈ replaceGroup u preds ts db ↔ t ∈ ts ∨ (t ∈ db ∧ ¬(t.s = u ∧ t.p ∈ preds)) := by
  simp only [replaceGroup, insertData, List.mem_append, mem_deleteProps]

/-- Objects attached to a subject through a given predicate, in store order. -/
def propObjs (db : List Triple) (u : Node) (p : String) : List Obj :=
  (db.filter (fun t => decide (t.s = u ∧ t.p = p))).map (fun t => t.o)

/-- The job-status objects of a job node. -/
def statusObjs (db : List Triple) (jobUri : Node) : List Obj :=
  propObjs db jobUri "adms:status"

theorem statusObjs_replaceStatus (jobUri : Node) (statusUri : String) (db : List Triple) :
    statusObjs (replaceStatus jobUri statusUri db) jobUri = [Obj.node (.ext statusUri)] := by
  unfold statusObjs propObjs replaceStatus insertData
  rw [List.filter_append]
  rw [List.filter_filter]
  have h1 : List.filter
      (fun t => decide (t.s = jobUri ∧ t.p = "adms:status"))
      [Triple.mk jobUri "adms:status" (Obj.node (.ext statusUri))]
      = [Triple.mk jobUri "adms:status" (Obj.node (.ext statusUri))] := by
    simp
  have h2 : List.filter
      (fun t => decide (t.s = jobUri ∧ t.p = "adms:status")
        && decide ¬(t.s = jobUri ∧ t.p = "adms:status")) db = [] := by
    apply List.filter_eq_nil_iff.mpr
    intro t _
    by_cases h : t.s = jobUri ∧ t.p = "adms:status" <;> simp [h]
  rw [h1, h2]
  simp

/-! ## C8: unit conversion totality and fatality -/

/-- C8.  `convertLfwUnitToCEFACT` maps exactly the three supported codes
(`kg ↦ KGM`, `l ↦ LTR`, `stk ↦ C62`) and throws on every other input, with
no silent default. -/
theorem convert_total_on_three_fatal_elsewhere :
    convertLfwUnitToCEFACT "kg" = .ok "KGM" ∧
    convertLfwUnitToCEFACT "l" = .ok "LTR" ∧
    convertLfwUnitToCEFACT "stk" = .ok "C62" ∧
    ∀ u : String, u ≠ "l" → u ≠ "kg" → u ≠ "stk" →
      convertLfwUnitToCEFACT u = .error ("Could not translate unit " ++ u) := by
  refine ⟨rfl, rfl, rfl, ?_⟩
  intro u h1 h2 h3
  unfold convertLfwUnitToCEFACT
  split <;> simp_all

/-- Witness for C8 at the concrete unsupported code `"lb"`. -/
theorem convert_total_on_three_fatal_elsewhere_witness :
    convertLfwUnitToCEFACT "lb" = .error ("Could not translate unit " ++ "lb") :=
  convert_total_on_three_fatal_elsewhere.2.2.2 "lb" (by decide) (by decide) (by decide)

/-! ## C10: every job-status operation leaves exactly one status -/

/-- C10.  After `startJob`, `finishJob` or `errorJob`, the job node carries
exactly one `adms:status` triple — the operation's own status — regardless of
what statuses (including terminal ones) were present before: each operation
deletes every existing status edge and then inserts its new one. -/
theorem job_status_ops_overwrite (st : St) (jobUri : Node) :
    statusObjs (startJob jobUri st).store jobUri
      = [Obj.node (.ext "http://veeakker.be/lfw-job-statusses/running")] ∧
    statusObjs (finishJob jobUri st).store jobUri
      = [Obj.node (.ext "http://veeakker.be/lfw-job-statusses/finished")] ∧
    statusObjs (errorJob jobUri st).store jobUri
      = [Obj.node (.ext "http://veeakker.be/lfw-job-statusses/error")] :=
  ⟨statusObjs_replaceStatus _ _ _, statusObjs_replaceStatus _ _ _,
    statusObjs_replaceStatus _ _ _⟩

/-! ## C7: a harvest that throws leaves the job errored -/

/-- C7.  After the harvest endpoint flow, the job carries exactly one status:
`finished` when every step succeeded and `error` when any step after
`startJob` threw.  In particular a throwing harvest can never leave the job
`finished`, `running` or unset, and the terminal status written by the flow
is the job's final status. -/
theorem harvest_job_status_final (up : Upstream) (st0 : St) :
    statusObjs (postHarvest up st0).st.store (postHarvest up st0).jobUri
      = [Obj.node (.ext (if (postHarvest up st0).ok
          then "http://veeakker.be/lfw-job-statusses/finished"
          else "http://veeakker.be/lfw-job-statusses/error"))] := by
  unfold postHarvest
  rcases h0 : createLoadJob st0 with ⟨jobUri, st⟩
  rcases h1 : harvestNoJob up jobUri (startJob jobUri st) with s | e
  · simp only [h1, finishJob]
    exact statusObjs_replaceStatus _ _ _
  · rcases e with ⟨msg, s⟩
    simp only [h1, errorJob]
    exact statusObjs_replaceStatus _ _ _

/-! ## C6: absent ingredients field means deletion -/

/-- C6.  When the payload has no `ingredients` field, `ensureProductIngredients`
deletes every stored `food:ingredientListAsText` triple of the product and
inserts nothing: the resulting store is exactly the old store with the
ingredient-text triples removed, so no ingredient text remains. -/
theorem ingredients_absent_deletes (product : Product) (productUri : Node) (st : St)
    (habs : product.ingredients = none) :
    (∀ o : Obj, Triple.mk productUri "food:ingredientListAsText" o
        ∉ (ensureProductIngredients product productUri st).store) ∧
    (ensureProductIngredients product productUri st).store
      = deleteProps productUri ["food:ingredientListAsText"] st.store := by
  unfold ensureProductIngredients
  rw [habs]
  refine ⟨?_, rfl⟩
  intro o hmem
  rw [mem_deleteProps] at hmem
  exact hmem.2 ⟨rfl, by simp⟩

/-- Witness for C6: a product with stored ingredient text, re-ingested with
no `ingredients` field, ends with that triple gone. -/
theorem ingredients_absent_deletes_witness :
    Triple.mk (.product 0) "food:ingredientListAsText" (.str "<ul>\n  <li>salt</li>\n</ul>")
      ∉ (ensureProductIngredients
          ⟨7, "Bread", .name "Bakkerij", none, false, false,
            ⟨⟨⟨⟨3⟩, "stk"⟩, ⟨⟨3⟩, "stk"⟩⟩, 1⟩, none, none, none⟩
          (.product 0)
          ⟨[⟨.product 0, "food:ingredientListAsText", .str "<ul>\n  <li>salt</li>\n</ul>"⟩],
            1, [], 0⟩).store :=
  (ingredients_absent_deletes _ _ _ rfl).1 _

/-! ## Result extractors and resolver lemmas -/

/-- The state carried by a run result, successful or aborted. -/
def stOf : Except Err St → St
  | .ok s => s
  | .error (_, s) => s

/-- Did the run succeed? -/
def isOkE {α : Type} : Except Err α → Bool
  | .ok _ => true
  | .error _ => false

theorem findOrCreate_found {owner : Node} {rel : String} {ty : String} {mk : Nat → Node}
    {st : St} {o : Obj} (h : firstObj st.store owner rel = some o) :
    findOrCreate owner rel ty mk st = (o.asNode, st) := by
  unfold findOrCreate
  rw [h]

theorem findOrCreate_store_mono {owner : Node} {rel : String} {ty : String}
    {mk : Nat → Node} {st : St} {t : Triple} (ht : t ∈ st.store) :
    t ∈ (findOrCreate owner rel ty mk st).2.store := by
  unfold findOrCreate
  cases h : firstObj st.store owner rel with
  | some o => simpa using ht
  | none => simp [St.mint, insertData, ht]

/-! ## C9: the lowercase `hascurrencyValue` delete allowlist -/

/-- C9.  When the product's single-unit price-specification node already
carries a `gr:hasCurrencyValue` triple, running `ensureProductDefaultPricing`
with a different price amount leaves the old triple in place alongside the
newly inserted one: the delete allowlist of that update names
`gr:hascurrencyValue` (lowercase `c`), not `gr:hasCurrencyValue`, so old
currency values are never removed. -/
theorem currency_value_accumulates (product : Product) (productUri spec : Node) (st : St)
    (v : ℚ) (cef : String)
    (hfind : firstObj st.store productUri "veeakker:singleUnitPrice" = some (Obj.node spec))
    (hold : Triple.mk spec "gr:hasCurrencyValue" (Obj.dec v) ∈ st.store)
    (hconv : convertLfwUnitToCEFACT
      product.pricing.consumerPrice.measurementUnitPrice.unitOfMeasurement = .ok cef)
    (hne : v ≠ product.pricing.consumerPrice.measurementUnitPrice.money.amount) :
    isOkE (ensureProductDefaultPricing product productUri st) = true ∧
    Triple.mk spec "gr:hasCurrencyValue" (Obj.dec v)
      ∈ (stOf (ensureProductDefaultPricing product productUri st)).store ∧
    Triple.mk spec "gr:hasCurrencyValue"
        (Obj.dec product.pricing.consumerPrice.measurementUnitPrice.money.amount)
      ∈ (stOf (ensureProductDefaultPricing product productUri st)).store := by
  have hold2 : Triple.mk spec "gr:hasCurrencyValue" (Obj.dec v)
      ∈ (ensureTargetUnitResource productUri st).2.store :=
    findOrCreate_store_mono hold
  unfold ensureProductDefaultPricing ensureSingleUnitPriceResource
  rw [findOrCreate_found hfind]
  rcases h2 : ensureTargetUnitResource productUri st with ⟨target, st2⟩
  rw [h2] at hold2
  simp only [hconv, convErr, Obj.asNode, Except.bind, bind]
  rw [h2]
  simp only [pure, Except.pure, stOf, isOkE]
  refine ⟨trivial, ?_, ?_⟩
  · rw [mem_replaceGroup]
    right
    constructor
    · rw [mem_replaceGroup]
      right
      exact ⟨hold2, by rintro ⟨hs, hp⟩; simp at hp⟩
    · rintro ⟨hs, hp⟩; simp at hp
  · rw [mem_replaceGroup]
    right
    constructor
    · rw [mem_replaceGroup]
      left
      simp
    · rintro ⟨hs, hp⟩; simp at hp

/-- Witness for C9: a store whose price specification carries the old value
`2`; re-pricing at `3` leaves both currency values attached. -/
theorem currency_value_accumulates_witness :
    isOkE (ensureProductDefaultPricing
      ⟨7, "Melk", .name "Hoeve", none, false, false, ⟨⟨⟨⟨3⟩, "l"⟩, ⟨⟨3⟩, "l"⟩⟩, 1⟩,
        none, none, none⟩
      (.product 0)
      ⟨[⟨.product 0, "veeakker:singleUnitPrice", .node (.priceSpec 5)⟩,
        ⟨.priceSpec 5, "gr:hasCurrencyValue", .dec 2⟩], 6, [], 0⟩) = true ∧
    Triple.mk (.priceSpec 5) "gr:hasCurrencyValue" (.dec 2)
      ∈ (stOf (ensureProductDefaultPricing
        ⟨7, "Melk", .name "Hoeve", none, false, false, ⟨⟨⟨⟨3⟩, "l"⟩, ⟨⟨3⟩, "l"⟩⟩, 1⟩,
          none, none, none⟩
        (.product 0)
        ⟨[⟨.product 0, "veeakker:singleUnitPrice", .node (.priceSpec 5)⟩,
          ⟨.priceSpec 5, "gr:hasCurrencyValue", .dec 2⟩], 6, [], 0⟩)).store ∧
    Triple.mk (.priceSpec 5) "gr:hasCurrencyValue" (.dec 3)
      ∈ (stOf (ensureProductDefaultPricing
        ⟨7, "Melk", .name "Hoeve", none, false, false, ⟨⟨⟨⟨3⟩, "l"⟩, ⟨⟨3⟩, "l"⟩⟩, 1⟩,
          none, none, none⟩
        (.product 0)
        ⟨[⟨.product 0, "veeakker:singleUnitPrice", .node (.priceSpec 5)⟩,
          ⟨.priceSpec 5, "gr:hasCurrencyValue", .dec 2⟩], 6, [], 0⟩)).store :=
  currency_value_accumulates
    ⟨7, "Melk", .name "Hoeve", none, false, false, ⟨⟨⟨⟨3⟩, "l"⟩, ⟨⟨3⟩, "l"⟩⟩, 1⟩,
      none, none, none⟩
    (.product 0) (.priceSpec 5)
    ⟨[⟨.product 0, "veeakker:singleUnitPrice", .node (.priceSpec 5)⟩,
      ⟨.priceSpec 5, "gr:hasCurrencyValue", .dec 2⟩], 6, [], 0⟩
    2 "LTR" rfl (by simp) rfl (by norm_num)

/-! ## C5: stable identity resolution -/

theorem findProductMeta_block (np ni : Nat) (idStr : String) (db : List Triple) :
    findProductMeta (productMetaBlock np ni idStr ++ db) idStr
      = some (Node.product np, Node.identifier ni) := by
  unfold findProductMeta productMetaBlock
  simp [metaHit, List.findSome?_cons, List.mem_append]

/-- C5.  Identity resolution is stable: two consecutive `ensureProductMeta`
calls for payloads sharing the same external id return the same internal
product URI, whatever the other payload fields are. -/
theorem stable_identity (st : St) (p1 p2 : Product) (hid : p1.id = p2.id) :
    ((ensureProductMeta p2 (ensureProductMeta p1 st).2).1).1
      = ((ensureProductMeta p1 st).1).1 := by
  unfold ensureProductMeta
  rw [hid]
  cases h : findProductMeta st.store (toString p2.id) with
  | some pr => simp [h]
  | none => simp [h, St.mint, insertData, findProductMeta_block]

/-- Witness for C5: two payloads with id `181` but different names, supplier
and pricing resolve to the same fresh product URI. -/
theorem stable_identity_witness :
    ((ensureProductMeta
        ⟨181, "Nieuwe naam", .name "Andere boer", some "nu met beschrijving", true, true,
          ⟨⟨⟨⟨9⟩, "kg"⟩, ⟨⟨9⟩, "kg"⟩⟩, 2⟩, none, none, none⟩
        (ensureProductMeta
          ⟨181, "Pannenkoeken", .name "Het Nijswolkje", none, false, false,
            ⟨⟨⟨⟨3⟩, "stk"⟩, ⟨⟨3⟩, "stk"⟩⟩, 1⟩, none, none, none⟩
          ⟨[], 0, [], 0⟩).2).1).1
      = ((ensureProductMeta
          ⟨181, "Pannenkoeken", .name "Het Nijswolkje", none, false, false,
            ⟨⟨⟨⟨3⟩, "stk"⟩, ⟨⟨3⟩, "stk"⟩⟩, 1⟩, none, none, none⟩
          ⟨[], 0, [], 0⟩).1).1 :=
  stable_identity _ _ _ rfl

/-! ## C3: the ignore list never fires for detail payloads -/

/-- The C3 failing input: the detail payload whose structured supplier is
named exactly as the ignore-list entry. -/
def pintaDetail : Product :=
  ⟨42, "Vis", .info ⟨"Pintafish (VLB)", "beschrijving", "info@pintafish.be", ""⟩,
    none, false, false, ⟨⟨⟨⟨7⟩, "stk"⟩, ⟨⟨7⟩, "stk"⟩⟩, 1⟩, none, none, none⟩

/-- The listing stub `loadPages` would pass for that product. -/
def pintaListed : Product :=
  ⟨42, "Vis", .name "Pintafish (VLB)", none, false, false,
    ⟨⟨⟨⟨7⟩, "stk"⟩, ⟨⟨7⟩, "stk"⟩⟩, 1⟩, none, none, none⟩

/-- The empty deployment state. -/
def emptySt : St := ⟨[], 0, [], 0⟩

/-- C3 evaluated at the failing input.  Loading the product with the
`external` flag set replaces the payload by the detail payload, whose
`supplier` field is the structured object; `IGNORED_ORGANIZATIONS.includes`
compares that object against strings and never matches, so the run succeeds
and writes base-info triples (here `dct:title`) although the supplier name
is on the ignore list — the identity resolution itself does happen. -/
theorem ignored_supplier_detail_payload_still_written :
    isOkE (loadProduct (fun _ => pintaDetail) pintaListed ⟨true, none⟩ emptySt) = true ∧
    Triple.mk (.identifier 1) "skos:notation" (.str "42")
      ∈ (stOf (loadProduct (fun _ => pintaDetail) pintaListed ⟨true, none⟩ emptySt)).store ∧
    Triple.mk (.product 0) "dct:title" (.str "Vis")
      ∈ (stOf (loadProduct (fun _ => pintaDetail) pintaListed ⟨true, none⟩ emptySt)).store ∧
    "Pintafish (VLB)" ∈ IGNORED_ORGANIZATIONS ∧
    supplierIgnored pintaDetail.supplier = false := by
  decide

/-! ## C2: what a unit-conversion abort does and does not write -/

/-- A payload whose unit of measurement is unsupported. -/
def lbProduct : Product :=
  ⟨7, "Koteletten", .name "Hoeve", none, false, false,
    ⟨⟨⟨⟨5⟩, "lb"⟩, ⟨⟨5⟩, "lb"⟩⟩, 1⟩, none, none, none⟩

/-- Counterexample to C2 as stated: on a fresh product the aborted
`loadProduct` has already created the single-unit-price and target-unit
sub-resources (pricing triples of the product) before the converter threw. -/
theorem conversion_abort_writes_scaffolding :
    isOkE (loadProduct (fun _ => lbProduct) lbProduct ⟨false, none⟩ emptySt) = false ∧
    Triple.mk (.product 0) "veeakker:singleUnitPrice" (.node (.priceSpec 2))
      ∈ (stOf (loadProduct (fun _ => lbProduct) lbProduct ⟨false, none⟩ emptySt)).store ∧
    Triple.mk (.priceSpec 2) "a" (.node (.ext "gr:UnitPriceSpecification"))
      ∈ (stOf (loadProduct (fun _ => lbProduct) lbProduct ⟨false, none⟩ emptySt)).store ∧
    Triple.mk (.product 0) "veeakker:targetUnit" (.node (.quantVal 3))
      ∈ (stOf (loadProduct (fun _ => lbProduct) lbProduct ⟨false, none⟩ emptySt)).store := by
  decide

/-- The pricing *value* predicates: the unit/currency/value/amount triples of
the four pricing nodes (including the misspelled delete-allowlist entry). -/
def pricingValuePreds : List String :=
  ["gr:hasUnitOfMeasurement", "gr:hasCurrencyValue", "gr:hascurrencyValue",
   "gr:hasValue", "gr:amountOfThisGood"]

/-- Pricing-value triples are membership-equal between two stores. -/
def vpres (a b : List Triple) : Prop :=
  ∀ s q o, q ∈ pricingValuePreds →
    (Triple.mk s q o ∈ b ↔ Triple.mk s q o ∈ a)

theorem vpres_refl (a : List Triple) : vpres a a := fun _ _ _ _ => Iff.rfl

theorem vpres_trans {a b c : List Triple} (h1 : vpres a b) (h2 : vpres b c) : vpres a c :=
  fun s q o hq => (h2 s q o hq).trans (h1 s q o hq)

theorem vpres_insertData {ts db : List Triple} (h : ∀ t ∈ ts, t.p ∉ pricingValuePreds) :
    vpres db (insertData ts db) := by
  intro s q o hq
  rw [mem_insertData]
  constructor
  · rintro (hts | hdb)
    · exact absurd hq (h _ hts)
    · exact hdb
  · exact Or.inr

theorem vpres_deleteProps {u : Node} {preds : List String} {db : List Triple}
    (h : ∀ q ∈ preds, q ∉ pricingValuePreds) :
    vpres db (deleteProps u preds db) := by
  intro s q o hq
  rw [mem_deleteProps]
  constructor
  · exact fun hx => hx.1
  · intro hx
    exact ⟨hx, fun hc => h _ hc.2 hq⟩

theorem vpres_replaceGroup {u : Node} {preds : List String} {ts db : List Triple}
    (hts : ∀ t ∈ ts, t.p ∉ pricingValuePreds)
    (hpr : ∀ q ∈ preds, q ∉ pricingValuePreds) :
    vpres db (replaceGroup u preds ts db) :=
  vpres_trans (vpres_deleteProps hpr) (vpres_insertData hts)

theorem vpres_findOrCreate {owner : Node} {rel ty : String} {mk : Nat → Node} {st : St}
    (hrel : rel ∉ pricingValuePreds) :
    vpres st.store (findOrCreate owner rel ty mk st).2.store := by
  unfold findOrCreate
  cases h : firstObj st.store owner rel with
  | some o => exact vpres_refl _
  | none =>
    simp only [St.mint]
    apply vpres_insertData
    intro t ht
    simp only [List.mem_cons, List.not_mem_nil, or_false] at ht
    rcases ht with h1 | h1 | h1 <;> subst h1
    · exact hrel
    · simp [pricingValuePreds]
    · simp [pricingValuePreds]

theorem vpres_ensureProductMeta (p : Product) (st : St) :
    vpres st.store (ensureProductMeta p st).2.store := by
  unfold ensureProductMeta
  cases h : findProductMeta st.store (toString p.id) with
  | some pr => simp only [h]; exact vpres_refl _
  | none =>
    simp only [h, St.mint]
    apply vpres_insertData
    intro t ht
    unfold productMetaBlock at ht
    fin_cases ht <;> simp [pricingValuePreds]

theorem vpres_jobConnection (pu j : Node) (st : St) :
    vpres st.store (ensureProductJobConnection pu j st).store := by
  unfold ensureProductJobConnection
  apply vpres_insertData
  intro t ht
  fin_cases ht
  simp [pricingValuePreds]

theorem baseInfoTriples_preds (p : Product) (pu : Node) :
    ∀ t ∈ baseInfoTriples p pu, t.p ∈ baseInfoPreds := by
  intro t ht
  unfold baseInfoTriples at ht
  simp only [List.mem_append, List.mem_cons, List.not_mem_nil, or_false] at ht
  rcases ht with (((h1 | h1) | h1) | h1) | h1 | h1 | h1
  · subst h1; simp [baseInfoPreds]
  · rcases hd : p.description with _ | d
    · rw [hd] at h1; simp at h1
    · rw [hd] at h1
      by_cases he : d = ""
      · simp [he] at h1
      · simp only [he, if_false, List.mem_singleton] at h1
        subst h1; simp [baseInfoPreds]
  · subst h1; simp [baseInfoPreds]
  · by_cases hb : p.bio
    · simp only [hb, if_true, List.mem_singleton] at h1
      subst h1; simp [baseInfoPreds]
    · simp [hb] at h1
  · subst h1; simp [baseInfoPreds]
  · subst h1; simp [baseInfoPreds]
  · subst h1; simp [baseInfoPreds]

theorem vpres_baseInfo (p : Product) (pu : Node) (st : St) :
    vpres st.store (ensureBaseProductInfo p pu st).store := by
  unfold ensureBaseProductInfo
  apply vpres_replaceGroup
  · intro t ht hpv
    have hb := baseInfoTriples_preds p pu t ht
    unfold baseInfoPreds at hb
    unfold pricingValuePreds at hpv
    simp only [List.mem_cons, List.not_mem_nil, or_false] at hb hpv
    rcases hb with h | h | h | h | h | h <;> rcases hpv with h2 | h2 | h2 | h2 | h2 <;>
      rw [h] at h2 <;> simp at h2
  · intro q hq
    unfold baseInfoPreds at hq
    fin_cases hq <;> simp [pricingValuePreds]

/-- If `ensureProductDefaultPricing` aborts, the abort happened while the
first update string was being built, before any delete or insert of pricing
values ran: the error state differs from the input state only by the two
ensured (value-free) sub-resources. -/
theorem defaultPricing_error_vpres (p : Product) (pu : Node) (st : St) (e : Err)
    (herr : ensureProductDefaultPricing p pu st = .error e) :
    vpres st.store e.2.store := by
  unfold ensureProductDefaultPricing at herr
  rcases h1 : ensureSingleUnitPriceResource pu st with ⟨spec, st1⟩
  rw [h1] at herr
  dsimp only at herr
  rcases h2 : ensureTargetUnitResource pu st1 with ⟨target, st2⟩
  rw [h2] at herr
  dsimp only at herr
  have v1 : vpres st.store st1.store := by
    have := @vpres_findOrCreate pu "veeakker:singleUnitPrice" "gr:UnitPriceSpecification"
      Node.priceSpec st (by simp [pricingValuePreds])
    rwa [show findOrCreate pu "veeakker:singleUnitPrice" "gr:UnitPriceSpecification"
      Node.priceSpec st = (spec, st1) from h1] at this
  have v2 : vpres st1.store st2.store := by
    have := @vpres_findOrCreate pu "veeakker:targetUnit" "gr:QuantitativeValue"
      Node.quantVal st1 (by simp [pricingValuePreds])
    rwa [show findOrCreate pu "veeakker:targetUnit" "gr:QuantitativeValue"
      Node.quantVal st1 = (target, st2) from h2] at this
  cases hc : convertLfwUnitToCEFACT p.pricing.consumerPrice.measurementUnitPrice.unitOfMeasurement with
  | ok c =>
    rw [hc] at herr
    simp only [convErr, Except.bind, bind, pure, Except.pure] at herr
    cases herr
  | error m =>
    rw [hc] at herr
    simp only [convErr, Except.bind, bind] at herr
    cases herr
    exact vpres_trans v1 v2

theorem dp_conv_error {p : Product} {pu : Node} {st : St} {m : String}
    (hc : convertLfwUnitToCEFACT p.pricing.consumerPrice.measurementUnitPrice.unitOfMeasurement
      = .error m) :
    ensureProductDefaultPricing p pu st
      = .error (m, (ensureTargetUnitResource pu (ensureSingleUnitPriceResource pu st).2).2) := by
  simp only [ensureProductDefaultPricing, hc, convErr, Except.bind, bind]

theorem dp_ok_conv {p : Product} {pu : Node} {st st' : St}
    (h : ensureProductDefaultPricing p pu st = .ok st') :
    ∃ c, convertLfwUnitToCEFACT
      p.pricing.consumerPrice.measurementUnitPrice.unitOfMeasurement = .ok c := by
  cases hc : convertLfwUnitToCEFACT
      p.pricing.consumerPrice.measurementUnitPrice.unitOfMeasurement with
  | ok c => exact ⟨c, rfl⟩
  | error m => rw [dp_conv_error hc] at h; cases h

theorem offers_conv_ok {p : Product} {pu : Node} {st : St} {c : String}
    (hc : convertLfwUnitToCEFACT p.pricing.consumerPrice.measurementUnitPrice.unitOfMeasurement
      = .ok c) :
    ∃ r, ensureProductOffers p pu st = .ok r := by
  simp only [ensureProductOffers, hc, convErr, Except.bind, bind, pure, Except.pure]
  exact ⟨_, rfl⟩

/-- C2 (amended).  Whenever `loadProduct` aborts with an error — the unit
conversion failure being its only throw site — the pricing *value* triples
(`gr:hasUnitOfMeasurement`, `gr:hasCurrencyValue`, `gr:hascurrencyValue`,
`gr:hasValue`, `gr:amountOfThisGood`, on any node) of the state left behind
are exactly those of the pre-call store: no pricing value was modified,
inserted or deleted by the aborted call.  (The empty single-unit-price and
target-unit scaffolding nodes may have been created before the throw — see
the counterexample `conversion_abort_writes_scaffolding`.) -/
theorem conversion_abort_preserves_value_triples (detail : Int → Product) (p : Product)
    (opts : LoadOptions) (st : St) (e : Err)
    (herr : loadProduct detail p opts st = .error e) :
    ∀ s q o, q ∈ pricingValuePreds →
      (Triple.mk s q o ∈ e.2.store ↔ Triple.mk s q o ∈ st.store) := by
  simp only [loadProduct, Except.bind, bind] at herr
  generalize hP : (if opts.external = true then detail p.id else p) = P at herr
  split at herr
  · exact absurd herr (by simp)
  · cases hj : opts.job with
    | some j =>
      simp only [hj] at herr
      split at herr
      · rename_i e1 heq
        injection herr with h2
        subst h2
        have hdp := defaultPricing_error_vpres _ _ _ _ heq
        have v4 : vpres st.store (ensureProductMeta P st).2.store :=
          vpres_ensureProductMeta _ _
        have v5 := vpres_jobConnection (ensureProductMeta P st).1.1 j
          (ensureProductMeta P st).2
        have v6 := vpres_baseInfo P (ensureProductMeta P st).1.1
          (ensureProductJobConnection (ensureProductMeta P st).1.1 j
            (ensureProductMeta P st).2)
        exact vpres_trans v4 (vpres_trans v5 (vpres_trans v6 hdp))
      · rename_i st4 heq
        rcases dp_ok_conv heq with ⟨c, hc⟩
        rcases @offers_conv_ok P (ensureProductMeta P st).1.1 st4 c hc
          with ⟨r, hoff⟩
        rw [hoff] at herr
        dsimp only at herr
        split at herr <;> exact absurd herr (by simp)
    | none =>
      simp only [hj] at herr
      split at herr
      · rename_i e1 heq
        injection herr with h2
        subst h2
        have hdp := defaultPricing_error_vpres _ _ _ _ heq
        have v4 : vpres st.store (ensureProductMeta P st).2.store :=
          vpres_ensureProductMeta _ _
        have v6 := vpres_baseInfo P (ensureProductMeta P st).1.1
          (ensureProductMeta P st).2
        exact vpres_trans v4 (vpres_trans v6 hdp)
      · rename_i st4 heq
        rcases dp_ok_conv heq with ⟨c, hc⟩
        rcases @offers_conv_ok P (ensureProductMeta P st).1.1 st4 c hc
          with ⟨r, hoff⟩
        rw [hoff] at herr
        dsimp only at herr
        split at herr <;> exact absurd herr (by simp)

/-- Witness for C2 (amended): the `lb` run on a fresh store aborts, and the
error state carries no pricing-value triple the empty store lacked. -/
theorem conversion_abort_preserves_value_triples_witness :
    Triple.mk (.priceSpec 2) "gr:hasCurrencyValue" (.dec 5)
        ∈ (stOf (loadProduct (fun _ => lbProduct) lbProduct ⟨false, none⟩ emptySt)).store
      ↔ Triple.mk (.priceSpec 2) "gr:hasCurrencyValue" (.dec 5) ∈ emptySt.store := by
  cases h : loadProduct (fun _ => lbProduct) lbProduct ⟨false, none⟩ emptySt with
  | ok s =>
    have h1 := conversion_abort_writes_scaffolding.1
    rw [h] at h1
    exact absurd h1 (by simp [isOkE])
  | error e =>
    have h2 := conversion_abort_preserves_value_triples (fun _ => lbProduct) lbProduct
      ⟨false, none⟩ emptySt e h (.priceSpec 2) "gr:hasCurrencyValue" (.dec 5)
      (by simp [pricingValuePreds])
    simpa [stOf] using h2

/-! ## C4: conditional image re-fetch -/

/-- A triple mentions a node when the node is its subject or its object. -/
def mentionsNode (t : Triple) (u : Node) : Prop :=
  t.s = u ∨ t.o = Obj.node u

instance (t : Triple) (u : Node) : Decidable (mentionsNode t u) := by
  unfold mentionsNode
  infer_instance

theorem mem_picDeleteShare {t : Triple} {pu : Node} {db : List Triple} :
    t ∈ picDeleteShare pu db
      ↔ t ∈ db ∧ ¬(t.p ∈ sharePreds ∧ isThumbShare db pu t.s = true) := by
  simp only [picDeleteShare, List.mem_filter, decide_eq_true_eq]

theorem mem_picDeleteEdge {t : Triple} {pu : Node} {db : List Triple} :
    t ∈ picDeleteEdge pu db ↔ t ∈ db ∧ ¬(t.s = pu ∧ t.p = "veeakker:thumbnail") := by
  simp only [picDeleteEdge, List.mem_filter, decide_eq_true_eq]

theorem isThumbShare_true {db : List Triple} {pu sh f : Node}
    (h1 : Triple.mk sh "nie:dataSource" (Obj.node f) ∈ db)
    (h2 : Triple.mk pu "veeakker:thumbnail" (Obj.node f) ∈ db) :
    isThumbShare db pu sh = true := by
  unfold isThumbShare
  rw [List.any_eq_true]
  refine ⟨Triple.mk sh "nie:dataSource" (Obj.node f), h1, ?_⟩
  simp [h2]

theorem newPictureBlock_cases {t : Triple} {pu : Node} {url : String} {a b now : Nat}
    (ht : t ∈ newPictureBlock pu url a b now) :
    (t.s = pu ∧ t.p = "veeakker:thumbnail") ∨ t.s = Node.file a
      ∨ t.s = Node.share a (lastSeg "." url) := by
  simp only [newPictureBlock] at ht
  fin_cases ht <;> simp

theorem newPictureBlock_thumb {t : Triple} {pu : Node} {url : String} {a b now : Nat}
    (ht : t ∈ newPictureBlock pu url a b now) (hp : t.p = "veeakker:thumbnail") :
    t = Triple.mk pu "veeakker:thumbnail" (Obj.node (Node.file a)) := by
  simp only [newPictureBlock] at ht
  fin_cases ht <;> simp_all

theorem filePreds_ne_thumb {q : String} (hq : q ∈ filePreds) : q ≠ "veeakker:thumbnail" := by
  fin_cases hq <;> decide

theorem sharePreds_ne_thumb {q : String} (hq : q ∈ sharePreds) : q ≠ "veeakker:thumbnail" := by
  fin_cases hq <;> decide

/-- The replacement path of `ensureProductPicture`, as one equation: old
subgraph deleted by the three sequential blocks, one download recorded,
fresh pair inserted, two uuids minted. -/
theorem ensureProductPicture_replace {product : Product} {productUri : Node} {st : St}
    {url : String} (him : product.image = some url) (hurl : url ≠ "")
    (hask : hasThumbSource st.store productUri url = false) :
    ensureProductPicture product productUri st =
      { st with
        store := insertData
          (newPictureBlock productUri url st.ctr (st.ctr + 1) st.now)
          (picDeleteEdge productUri
            (picDeleteFile productUri (picDeleteShare productUri st.store))),
        ctr := st.ctr + 2,
        downloads := url :: st.downloads } := by
  unfold ensureProductPicture
  rw [him]
  simp [truthyOpt, hurl, hask, St.mint]

/-- Concrete picture payloads and store for C4. -/
def picProdA : Product :=
  ⟨1, "Kaas", .name "Hoeve", none, false, false,
    ⟨⟨⟨⟨4⟩, "kg"⟩, ⟨⟨4⟩, "kg"⟩⟩, 1⟩, none, none, some "http://img/a.png"⟩

/-- Same product with a changed image URL. -/
def picProdB : Product :=
  ⟨1, "Kaas", .name "Hoeve", none, false, false,
    ⟨⟨⟨⟨4⟩, "kg"⟩, ⟨⟨4⟩, "kg"⟩⟩, 1⟩, none, none, some "http://img/b.png"⟩

/-- A store holding the thumbnail of the old URL: the edge, the logical
file node with its source and file name, and the physical share node. -/
def picSt : St :=
  ⟨[⟨.product 0, "veeakker:thumbnail", .node (.file 9)⟩,
    ⟨.file 9, "dct:source", .node (.ext "http://img/a.png")⟩,
    ⟨.file 9, "nfo:fileName", .str "a.png"⟩,
    ⟨.share 9 "png", "nie:dataSource", .node (.file 9)⟩,
    ⟨.share 9 "png", "nfo:fileName", .str "a.png"⟩], 20, [], 5⟩

/-- C4.  The conditional half of the claim holds, the full-replacement half
does not.  Unchanged URL: `ensureProductPicture` is a strict no-op — no
download, no store write.  Changed URL: exactly one download, the fresh
file/share pair is inserted, the old thumbnail edge and the old share
node's allowlisted properties are removed — but the old logical-file node
keeps its `nfo:fileName` (and the rest of the file allowlist): the second
`DELETE` block templates the unbound variable `?file` while its `WHERE`
binds `?s`, so it deletes nothing, contradicting the claim's "old
logical-file triples are absent afterwards". -/
theorem picture_refetch_stale_file :
    ensureProductPicture picProdA (.product 0) picSt = picSt ∧
    (ensureProductPicture picProdB (.product 0) picSt).downloads
      = ["http://img/b.png"] ∧
    Triple.mk (.product 0) "veeakker:thumbnail" (.node (.file 20))
      ∈ (ensureProductPicture picProdB (.product 0) picSt).store ∧
    Triple.mk (.product 0) "veeakker:thumbnail" (.node (.file 9))
      ∉ (ensureProductPicture picProdB (.product 0) picSt).store ∧
    Triple.mk (.share 9 "png") "nfo:fileName" (.str "a.png")
      ∉ (ensureProductPicture picProdB (.product 0) picSt).store ∧
    Triple.mk (.file 9) "nfo:fileName" (.str "a.png")
      ∈ (ensureProductPicture picProdB (.product 0) picSt).store := by
  refine ⟨rfl, rfl, by decide, by decide, by decide, by decide⟩

/-! ## C1: idempotency of the harvest

The development below proves that re-running `loadSuppliers` followed by
`loadPages` (the claim's harvest, with the same job URI and identical
upstream payloads) on the state left by a first successful run from an empty
store changes no triple and mints no node.  `SetEq` is the "no triple
differs" relation; `Inv` collects the store invariants the first run
establishes (uuid freshness, functionality and inverse functionality of the
ownership edges, identity-match uniqueness); `ProdSat`/`RosterSat` say the
store already reflects a payload, which makes every reconciliation step of
the second run stutter. -/

/-- Two stores hold exactly the same triples. -/
def SetEq (a b : List Triple) : Prop := ∀ t : Triple, t ∈ a ↔ t ∈ b

theorem setEq_refl (a : List Triple) : SetEq a a := fun _ => Iff.rfl

theorem setEq_trans {a b c : List Triple} (h1 : SetEq a b) (h2 : SetEq b c) : SetEq a c :=
  fun t => (h1 t).trans (h2 t)

/-- Executable check of `SetEq`. -/
def storeSetEqB (a b : List Triple) : Bool :=
  a.all (fun t => decide (t ∈ b)) && b.all (fun t => decide (t ∈ a))

theorem storeSetEqB_of {a b : List Triple} (h : SetEq a b) : storeSetEqB a b = true := by
  unfold storeSetEqB
  rw [Bool.and_eq_true, List.all_eq_true, List.all_eq_true]
  constructor
  · intro t ht; exact decide_eq_true ((h t).mp ht)
  · intro t ht; exact decide_eq_true ((h t).mpr ht)

/-- The ownership predicates: functional (an owner has one target) and
inverse functional (a target has one owner edge) in every store the service
builds from scratch. -/
def APreds : List String :=
  ["veeakker:singleUnitPrice", "veeakker:targetUnit", "veeakker:offerings",
   "gr:includesObject", "gr:hasPriceSpecification", "adms:identifier"]

/-- The join pattern of `ensureProductMeta`'s identity query. -/
def ProdMatch (db : List Triple) (idStr : String) (pu iu : Node) : Prop :=
  Triple.mk pu "adms:identifier" (Obj.node iu) ∈ db ∧
  Triple.mk pu "a" (Obj.node (.ext "schema:Product")) ∈ db ∧
  Triple.mk iu "a" (Obj.node (.ext "adms:Identifier")) ∈ db ∧
  Triple.mk iu "skos:notation" (Obj.str idStr) ∈ db ∧
  Triple.mk iu "dct:creator" (Obj.node (.ext "https://localfoodworks.eu/")) ∈ db

/-- The join pattern of the supplier existence `ASK` and of the bulk name
update. -/
def BizMatch (db : List Triple) (idStr : String) (su iu : Node) : Prop :=
  Triple.mk su "adms:identifier" (Obj.node iu) ∈ db ∧
  Triple.mk su "a" (Obj.node (.ext "gr:BusinessEntity")) ∈ db ∧
  Triple.mk iu "dct:creator" (Obj.node (.ext "https://localfoodworks.eu/")) ∈ db ∧
  Triple.mk iu "skos:notation" (Obj.str idStr) ∈ db

/-- The store already reflects a delete-then-insert property group: every
insert triple is present, and every triple of the subject under a delete
predicate is one of the insert triples. -/
def groupSat (db : List Triple) (u : Node) (P : List String) (T : List Triple) : Prop :=
  (∀ t ∈ T, t ∈ db) ∧ (∀ t ∈ db, t.s = u → t.p ∈ P → t ∈ T)

/-- Mint index of a node: `some n` for the URIs built from `uuid()` counter
value `n`, `none` for external URIs. -/
def idx : Node → Option Nat
  | .product n => some n
  | .identifier n => some n
  | .supplier n => some n
  | .priceSpec n => some n
  | .quantVal n => some n
  | .offering n => some n
  | .typeAndQuantity n => some n
  | .file n => some n
  | .share n _ => some n
  | .job n => some n
  | .ext _ => none

/-- Store invariants maintained by every operation of a run that started
from the empty store. -/
structure Inv (st : St) : Prop where
  fresh : ∀ t ∈ st.store, ∀ u : Node, mentionsNode t u → ∀ k, idx u = some k → k < st.ctr
  funA : ∀ p ∈ APreds, ∀ (u : Node) (o1 o2 : Obj),
    Triple.mk u p o1 ∈ st.store → Triple.mk u p o2 ∈ st.store → o1 = o2
  invA : ∀ p1 ∈ APreds, ∀ p2 ∈ APreds, ∀ (u1 u2 v : Node),
    Triple.mk u1 p1 (Obj.node v) ∈ st.store → Triple.mk u2 p2 (Obj.node v) ∈ st.store →
    u1 = u2 ∧ p1 = p2
  notF : ∀ (iu : Node) (v1 v2 : Obj), Triple.mk iu "skos:notation" v1 ∈ st.store →
    Triple.mk iu "skos:notation" v2 ∈ st.store → v1 = v2
  metaU : ∀ idStr (pu1 iu1 pu2 iu2 : Node), ProdMatch st.store idStr pu1 iu1 →
    ProdMatch st.store idStr pu2 iu2 → pu1 = pu2 ∧ iu1 = iu2
  bizU : ∀ idStr (su1 iu1 su2 iu2 : Node), BizMatch st.store idStr su1 iu1 →
    BizMatch st.store idStr su2 iu2 → su1 = su2 ∧ iu1 = iu2
  prodShape : ∀ idStr (pu iu : Node), ProdMatch st.store idStr pu iu →
    (∃ n, pu = .product n) ∧ (∃ n, iu = .identifier n)
  bizShape : ∀ idStr (su iu : Node), BizMatch st.store idStr su iu →
    (∃ n, su = .supplier n) ∧ (∃ n, iu = .identifier n)

/-! ### Group descriptors of the payload-driven property groups -/

/-- Delete allowlist of the single-unit-price group (with the lowercase
`hascurrencyValue` entry of the source). -/
def specPreds : List String := ["gr:hasUnitOfMeasurement", "gr:hascurrencyValue"]

/-- Insert triples of the single-unit-price group. -/
def specT (u : Node) (cef : String) (euros : ℚ) : List Triple :=
  [⟨u, "gr:hasUnitOfMeasurement", .str cef⟩, ⟨u, "gr:hasCurrencyValue", .dec euros⟩]

def targetPreds : List String := ["gr:hasUnitOfMeasurement", "gr:hasValue"]

def targetT (u : Node) (cef : String) (ratio : ℚ) : List Triple :=
  [⟨u, "gr:hasUnitOfMeasurement", .str cef⟩, ⟨u, "gr:hasValue", .dec ratio⟩]

def upsPreds : List String := ["gr:hasUnitOfMeasurement", "gr:hasCurrencyValue"]

def upsT (u : Node) (euros : ℚ) : List Triple :=
  [⟨u, "gr:hasUnitOfMeasurement", .str "C62"⟩, ⟨u, "gr:hasCurrencyValue", .dec euros⟩]

def taqPreds : List String :=
  ["gr:amountOfThisGood", "gr:hasUnitOfMeasurement", "gr:typeOfGood"]

def taqT (u : Node) (ratio : ℚ) (cef : String) : List Triple :=
  [⟨u, "gr:amountOfThisGood", .dec ratio⟩, ⟨u, "gr:hasUnitOfMeasurement", .str cef⟩]

def ingrT (pu : Node) : Option (List Ingredient) → List Triple
  | some l => [⟨pu, "food:ingredientListAsText", .str (ingredientsHtml l)⟩]
  | none => []

def allergT (pu : Node) : Option (List AllergenEntry) → List Triple
  | some l => [⟨pu, "veeakker:allergensAsText", .str (allergensHtml l)⟩]
  | none => []

def supPreds : List String := ["schema:email", "dct:description"]

/-- Insert triples of the per-product supplier link (email, description and
the `gr:offers` edge). -/
def supT (su : Node) (i : SupplierInfo) (off : Node) : List Triple :=
  [⟨su, "schema:email", .str i.emailAddress⟩,
   ⟨su, "dct:description", .str (sanitize (i.description.replace "\n" "<br />"))⟩,
   ⟨su, "gr:offers", .node off⟩]

/-- The store reflects the product's thumbnail state: the payload's image is
recorded as a thumbnail source, or the product has no thumbnail at all when
the payload has none. -/
def PicSat (d : Product) (pu : Node) (db : List Triple) : Prop :=
  if truthyOpt d.image then
    ∃ f : Node, Triple.mk pu "veeakker:thumbnail" (Obj.node f) ∈ db ∧
      Triple.mk f "dct:source" (Obj.node (.ext (d.image.getD ""))) ∈ db
  else ∀ o : Obj, Triple.mk pu "veeakker:thumbnail" o ∉ db

/-- The store fully reflects a non-ignored product payload under product
node `pu`. -/
def ProdSatBody (j : Node) (d : Product) (pu : Node) (db : List Triple) : Prop :=
  Triple.mk pu "prov:wasGeneratedBy" (Obj.node j) ∈ db ∧
  groupSat db pu baseInfoPreds (baseInfoTriples d pu) ∧
  (∃ cef, convertLfwUnitToCEFACT
      d.pricing.consumerPrice.measurementUnitPrice.unitOfMeasurement = .ok cef ∧
    (∃ ns, Triple.mk pu "veeakker:singleUnitPrice" (Obj.node (.priceSpec ns)) ∈ db ∧
      groupSat db (.priceSpec ns) specPreds
        (specT (.priceSpec ns) cef d.pricing.consumerPrice.measurementUnitPrice.money.amount)) ∧
    (∃ nt, Triple.mk pu "veeakker:targetUnit" (Obj.node (.quantVal nt)) ∈ db ∧
      groupSat db (.quantVal nt) targetPreds
        (targetT (.quantVal nt) cef d.pricing.measurementUnitVsOrderUnitRatio)) ∧
    (∃ no, Triple.mk pu "veeakker:offerings" (Obj.node (.offering no)) ∈ db ∧
      (∃ nq, Triple.mk (.offering no) "gr:includesObject"
          (Obj.node (.typeAndQuantity nq)) ∈ db ∧
        groupSat db (.typeAndQuantity nq) taqPreds
          (taqT (.typeAndQuantity nq) d.pricing.measurementUnitVsOrderUnitRatio cef)) ∧
      (∃ nu, Triple.mk (.offering no) "gr:hasPriceSpecification"
          (Obj.node (.priceSpec nu)) ∈ db ∧
        groupSat db (.priceSpec nu) upsPreds
          (upsT (.priceSpec nu) d.pricing.consumerPrice.orderUnitPrice.money.amount)) ∧
      (∀ i : SupplierInfo, d.supplier = .info i →
        ∀ su : Node, Triple.mk su "gr:name" (Obj.str i.name) ∈ db →
          groupSat db su supPreds (supT su i (.offering no))))) ∧
  groupSat db pu ["food:ingredientListAsText"] (ingrT pu d.ingredients) ∧
  groupSat db pu ["veeakker:allergensAsText"] (allergT pu d.allergens) ∧
  PicSat d pu db

/-- The store fully reflects a payload: its identity is resolved, and unless
the supplier-field comparison puts it on the ignore list, every property
group matches the payload. -/
def ProdSat (j : Node) (d : Product) (db : List Triple) : Prop :=
  ∃ np ni, ProdMatch db (toString d.id) (.product np) (.identifier ni) ∧
    (supplierIgnored d.supplier = false → ProdSatBody j d (.product np) db)

/-- The store reflects the supplier roster: every row has its business
entity with the roster name attached. -/
def RosterSat (roster : List SupplierSummary) (db : List Triple) : Prop :=
  ∀ row ∈ roster, ∃ ns ni, BizMatch db (toString row.id) (.supplier ns) (.identifier ni) ∧
    Triple.mk (.supplier ns) "gr:name" (Obj.str row.name) ∈ db

/-- Every name triple of the store comes from the roster's bulk update. -/
def NameTame (roster : List SupplierSummary) (db : List Triple) : Prop :=
  ∀ t ∈ db, t.p = "gr:name" →
    ∃ row ∈ roster, (∃ iu, BizMatch db (toString row.id) t.s iu) ∧ t.o = Obj.str row.name

/-- Identical supplier names always carry identical supplier detail
payloads across the upstream's product details. -/
def SupplierConsistent (detail : Int → Product) : Prop :=
  ∀ i j a b, (detail i).supplier = .info a → (detail j).supplier = .info b →
    a.name = b.name → a = b

/-- Product details are keyed by the external id: payloads whose own ids
print alike are the same payload. -/
def DetailCoherent (detail : Int → Product) : Prop :=
  ∀ i j, toString (detail i).id = toString (detail j).id → detail i = detail j

/-- The whole well-formed-state package carried through both runs. -/
structure Good (up : Upstream) (st : St) : Prop where
  inv : Inv st
  roster : RosterSat up.suppliers st.store
  nameTame : NameTame up.suppliers st.store

/-! ### Generic lookup and group lemmas -/

theorem findSome?_of_unique {α β : Type} {l : List α} {f : α → Option β} {x : α} {y : β}
    (hx : x ∈ l) (hfx : f x = some y)
    (huniq : ∀ a ∈ l, ∀ b, f a = some b → b = y) :
    l.findSome? f = some y := by
  induction l with
  | nil => cases hx
  | cons hd tl ih =>
    rw [List.findSome?_cons]
    cases hf : f hd with
    | some b => rw [huniq hd (List.mem_cons_self hd tl) b hf]
    | none =>
      rcases List.mem_cons.mp hx with h | h
      · subst h; rw [hf] at hfx; cases hfx
      · exact ih h (fun a ha b hb => huniq a (List.mem_cons_of_mem _ ha) b hb)

theorem firstObj_eq_of {db : List Triple} {u : Node} {p : String} {o : Obj}
    (hmem : Triple.mk u p o ∈ db)
    (huniq : ∀ o', Triple.mk u p o' ∈ db → o' = o) :
    firstObj db u p = some o := by
  unfold firstObj
  apply findSome?_of_unique hmem
  · simp
  · intro a ha b hb
    by_cases hc : a.s = u ∧ a.p = p
    · rw [if_pos hc] at hb
      injection hb with hb
      subst hb
      apply huniq
      have : Triple.mk u p a.o = a := by
        rcases a with ⟨s, p', o'⟩
        simp_all
      rwa [this]
    · rw [if_neg hc] at hb
      cases hb

theorem firstObj_none {db : List Triple} {u : Node} {p : String}
    (h : firstObj db u p = none) : ∀ o, Triple.mk u p o ∉ db := by
  intro o hmem
  unfold firstObj at h
  rw [List.findSome?_eq_none_iff] at h
  have := h _ hmem
  simp at this

theorem deleteProps_id {db : List Triple} {u : Node} {P : List String}
    (h : ∀ t ∈ db, ¬(t.s = u ∧ t.p ∈ P)) :
    deleteProps u P db = db := by
  unfold deleteProps
  apply List.filter_eq_self.mpr
  intro t ht
  exact decide_eq_true (h t ht)

/-! ### groupSat lemmas -/

theorem groupSat_stutter {db : List Triple} {u : Node} {P : List String} {T : List Triple}
    (h : groupSat db u P T) : SetEq (replaceGroup u P T db) db := by
  intro t
  rw [mem_replaceGroup]
  constructor
  · rintro (ht | ⟨ht, _⟩)
    · exact h.1 t ht
    · exact ht
  · intro ht
    by_cases hc : t.s = u ∧ t.p ∈ P
    · exact Or.inl (h.2 t ht hc.1 hc.2)
    · exact Or.inr ⟨ht, hc⟩

theorem groupSat_establish {db : List Triple} {u : Node} {P : List String}
    {T : List Triple} :
    groupSat (replaceGroup u P T db) u P T := by
  constructor
  · intro t ht
    exact mem_replaceGroup.mpr (Or.inl ht)
  · intro t ht hs hp
    rcases mem_replaceGroup.mp ht with h | ⟨_, hn⟩
    · exact h
    · exact absurd ⟨hs, hp⟩ hn

theorem groupSat_insert {db B : List Triple} {u : Node} {P : List String} {T : List Triple}
    (hB : ∀ t ∈ B, ¬(t.s = u ∧ t.p ∈ P))
    (h : groupSat db u P T) : groupSat (B ++ db) u P T := by
  constructor
  · intro t ht
    exact List.mem_append_right _ (h.1 t ht)
  · intro t ht hs hp
    rcases List.mem_append.mp ht with hb | hd
    · exact absurd ⟨hs, hp⟩ (hB t hb)
    · exact h.2 t hd hs hp

theorem groupSat_delete {db : List Triple} {v u : Node} {Q P : List String} {T : List Triple}
    (hT : ∀ t ∈ T, ¬(t.s = v ∧ t.p ∈ Q))
    (h : groupSat db u P T) : groupSat (deleteProps v Q db) u P T := by
  constructor
  · intro t ht
    exact mem_deleteProps.mpr ⟨h.1 t ht, hT t ht⟩
  · intro t ht hs hp
    exact h.2 t (mem_deleteProps.mp ht).1 hs hp

theorem groupSat_replace {db S T : List Triple} {v u : Node} {Q P : List String}
    (hS : ∀ t ∈ S, ¬(t.s = u ∧ t.p ∈ P))
    (hT : ∀ t ∈ T, ¬(t.s = v ∧ t.p ∈ Q))
    (h : groupSat db u P T) : groupSat (replaceGroup v Q S db) u P T :=
  groupSat_insert hS (groupSat_delete hT h)

theorem groupSat_transfer {a b : List Triple} {u : Node} {P : List String} {T : List Triple}
    (hab : SetEq a b) (h : groupSat a u P T) : groupSat b u P T := by
  constructor
  · intro t ht; exact (hab t).mp (h.1 t ht)
  · intro t ht hs hp; exact h.2 t ((hab t).mpr ht) hs hp

/-! ### Match-pattern lemmas -/

theorem prodMatch_mono {db B : List Triple} {idStr : String} {pu iu : Node}
    (h : ProdMatch db idStr pu iu) : ProdMatch (B ++ db) idStr pu iu := by
  obtain ⟨h1, h2, h3, h4, h5⟩ := h
  exact ⟨List.mem_append_right _ h1, List.mem_append_right _ h2,
    List.mem_append_right _ h3, List.mem_append_right _ h4, List.mem_append_right _ h5⟩

theorem bizMatch_mono {db B : List Triple} {idStr : String} {su iu : Node}
    (h : BizMatch db idStr su iu) : BizMatch (B ++ db) idStr su iu := by
  obtain ⟨h1, h2, h3, h4⟩ := h
  exact ⟨List.mem_append_right _ h1, List.mem_append_right _ h2,
    List.mem_append_right _ h3, List.mem_append_right _ h4⟩

/-- The predicates that participate in the identity-join patterns. -/
def matchPreds : List String := ["adms:identifier", "a", "skos:notation", "dct:creator"]

theorem prodMatch_delete {db : List Triple} {v : Node} {Q : List String}
    {idStr : String} {pu iu : Node}
    (hQ : ∀ q ∈ Q, q ∉ matchPreds)
    (h : ProdMatch db idStr pu iu) : ProdMatch (deleteProps v Q db) idStr pu iu := by
  obtain ⟨h1, h2, h3, h4, h5⟩ := h
  refine ⟨mem_deleteProps.mpr ⟨h1, ?_⟩, mem_deleteProps.mpr ⟨h2, ?_⟩,
    mem_deleteProps.mpr ⟨h3, ?_⟩, mem_deleteProps.mpr ⟨h4, ?_⟩,
    mem_deleteProps.mpr ⟨h5, ?_⟩⟩ <;>
    · rintro ⟨-, hq⟩
      revert hq
      intro hq
      have := hQ _ hq
      simp [matchPreds] at this

theorem bizMatch_delete {db : List Triple} {v : Node} {Q : List String}
    {idStr : String} {su iu : Node}
    (hQ : ∀ q ∈ Q, q ∉ matchPreds)
    (h : BizMatch db idStr su iu) : BizMatch (deleteProps v Q db) idStr su iu := by
  obtain ⟨h1, h2, h3, h4⟩ := h
  refine ⟨mem_deleteProps.mpr ⟨h1, ?_⟩, mem_deleteProps.mpr ⟨h2, ?_⟩,
    mem_deleteProps.mpr ⟨h3, ?_⟩, mem_deleteProps.mpr ⟨h4, ?_⟩⟩ <;>
    · rintro ⟨-, hq⟩
      have := hQ _ hq
      simp [matchPreds] at this

theorem prodMatch_transfer {a b : List Triple} {idStr : String} {pu iu : Node}
    (hab : SetEq a b) (h : ProdMatch a idStr pu iu) : ProdMatch b idStr pu iu := by
  obtain ⟨h1, h2, h3, h4, h5⟩ := h
  exact ⟨(hab _).mp h1, (hab _).mp h2, (hab _).mp h3, (hab _).mp h4, (hab _).mp h5⟩

theorem bizMatch_transfer {a b : List Triple} {idStr : String} {su iu : Node}
    (hab : SetEq a b) (h : BizMatch a idStr su iu) : BizMatch b idStr su iu := by
  obtain ⟨h1, h2, h3, h4⟩ := h
  exact ⟨(hab _).mp h1, (hab _).mp h2, (hab _).mp h3, (hab _).mp h4⟩

/-! ### Tame triples and invariant preservation -/

/-- A triple that cannot participate in any identity-join pattern or
ownership edge. -/
def tameT (t : Triple) : Prop :=
  t.p ∉ APreds ∧ t.p ≠ "skos:notation" ∧ t.p ≠ "dct:creator" ∧
  (t.p = "a" → t.o ≠ Obj.node (.ext "schema:Product") ∧
    t.o ≠ Obj.node (.ext "adms:Identifier") ∧ t.o ≠ Obj.node (.ext "gr:BusinessEntity"))

theorem prodMatch_insert_tame {db B : List Triple} {idStr : String} {pu iu : Node}
    (htame : ∀ t ∈ B, tameT t) :
    ProdMatch (B ++ db) idStr pu iu ↔ ProdMatch db idStr pu iu := by
  constructor
  · rintro ⟨h1, h2, h3, h4, h5⟩
    refine ⟨?_, ?_, ?_, ?_, ?_⟩
    · rcases List.mem_append.mp h1 with hb | hd
      · exact absurd (by simp [APreds]) (htame _ hb).1
      · exact hd
    · rcases List.mem_append.mp h2 with hb | hd
      · exact absurd rfl ((htame _ hb).2.2.2 rfl).1
      · exact hd
    · rcases List.mem_append.mp h3 with hb | hd
      · exact absurd rfl ((htame _ hb).2.2.2 rfl).2.1
      · exact hd
    · rcases List.mem_append.mp h4 with hb | hd
      · exact absurd rfl (htame _ hb).2.1
      · exact hd
    · rcases List.mem_append.mp h5 with hb | hd
      · exact absurd rfl (htame _ hb).2.2.1
      · exact hd
  · exact prodMatch_mono

theorem bizMatch_insert_tame {db B : List Triple} {idStr : String} {su iu : Node}
    (htame : ∀ t ∈ B, tameT t) :
    BizMatch (B ++ db) idStr su iu ↔ BizMatch db idStr su iu := by
  constructor
  · rintro ⟨h1, h2, h3, h4⟩
    refine ⟨?_, ?_, ?_, ?_⟩
    · rcases List.mem_append.mp h1 with hb | hd
      · exact absurd (by simp [APreds]) (htame _ hb).1
      · exact hd
    · rcases List.mem_append.mp h2 with hb | hd
      · exact absurd rfl ((htame _ hb).2.2.2 rfl).2.2
      · exact hd
    · rcases List.mem_append.mp h3 with hb | hd
      · exact absurd rfl (htame _ hb).2.2.1
      · exact hd
    · rcases List.mem_append.mp h4 with hb | hd
      · exact absurd rfl (htame _ hb).2.1
      · exact hd
  · exact bizMatch_mono

theorem Inv.freshFor {st : St} (hInv : Inv st) {u : Node} {k : Nat}
    (hidx : idx u = some k) (hk : st.ctr ≤ k) :
    ∀ t ∈ st.store, ¬ mentionsNode t u :=
  fun t ht hm => absurd (hInv.fresh t ht u hm k hidx) (by omega)

theorem inv_filter {st : St} {f : Triple → Bool} (hInv : Inv st) :
    Inv { st with store := st.store.filter f } := by
  have hsub : ∀ t : Triple, t ∈ st.store.filter f → t ∈ st.store :=
    fun t ht => (List.mem_filter.mp ht).1
  constructor
  · intro t ht u hm k hk
    exact hInv.fresh t (hsub t ht) u hm k hk
  · intro p hp u o1 o2 h1 h2
    exact hInv.funA p hp u o1 o2 (hsub _ h1) (hsub _ h2)
  · intro p1 hp1 p2 hp2 u1 u2 v h1 h2
    exact hInv.invA p1 hp1 p2 hp2 u1 u2 v (hsub _ h1) (hsub _ h2)
  · intro iu v1 v2 h1 h2
    exact hInv.notF iu v1 v2 (hsub _ h1) (hsub _ h2)
  · intro idStr pu1 iu1 pu2 iu2 h1 h2
    refine hInv.metaU idStr pu1 iu1 pu2 iu2 ⟨?_, ?_, ?_, ?_, ?_⟩ ⟨?_, ?_, ?_, ?_, ?_⟩ <;>
      first
        | exact hsub _ h1.1 | exact hsub _ h1.2.1 | exact hsub _ h1.2.2.1
        | exact hsub _ h1.2.2.2.1 | exact hsub _ h1.2.2.2.2
        | exact hsub _ h2.1 | exact hsub _ h2.2.1 | exact hsub _ h2.2.2.1
        | exact hsub _ h2.2.2.2.1 | exact hsub _ h2.2.2.2.2
  · intro idStr su1 iu1 su2 iu2 h1 h2
    refine hInv.bizU idStr su1 iu1 su2 iu2 ⟨?_, ?_, ?_, ?_⟩ ⟨?_, ?_, ?_, ?_⟩ <;>
      first
        | exact hsub _ h1.1 | exact hsub _ h1.2.1 | exact hsub _ h1.2.2.1
        | exact hsub _ h1.2.2.2
        | exact hsub _ h2.1 | exact hsub _ h2.2.1 | exact hsub _ h2.2.2.1
        | exact hsub _ h2.2.2.2
  · intro idStr pu iu h
    exact hInv.prodShape idStr pu iu
      ⟨hsub _ h.1, hsub _ h.2.1, hsub _ h.2.2.1, hsub _ h.2.2.2.1, hsub _ h.2.2.2.2⟩
  · intro idStr su iu h
    exact hInv.bizShape idStr su iu
      ⟨hsub _ h.1, hsub _ h.2.1, hsub _ h.2.2.1, hsub _ h.2.2.2⟩

theorem inv_insert_tame {st : St} {B : List Triple}
    (hInv : Inv st) (htame : ∀ t ∈ B, tameT t)
    (hment : ∀ t ∈ B, ∀ (u : Node) (k : Nat), mentionsNode t u → idx u = some k → k < st.ctr) :
    Inv { st with store := B ++ st.store } := by
  have hA : ∀ {t : Triple}, t ∈ B ++ st.store → t.p ∈ APreds → t ∈ st.store := by
    intro t ht hp
    rcases List.mem_append.mp ht with hb | hd
    · exact absurd hp (htame _ hb).1
    · exact hd
  constructor
  · intro t ht u hm k hk
    rcases List.mem_append.mp ht with hb | hd
    · exact hment t hb u k hm hk
    · exact hInv.fresh t hd u hm k hk
  · intro p hp u o1 o2 h1 h2
    exact hInv.funA p hp u o1 o2 (hA h1 hp) (hA h2 hp)
  · intro p1 hp1 p2 hp2 u1 u2 v h1 h2
    exact hInv.invA p1 hp1 p2 hp2 u1 u2 v (hA h1 hp1) (hA h2 hp2)
  · intro iu v1 v2 h1 h2
    have hn : ∀ {w : Obj}, Triple.mk iu "skos:notation" w ∈ B ++ st.store →
        Triple.mk iu "skos:notation" w ∈ st.store := by
      intro w hw
      rcases List.mem_append.mp hw with hb | hd
      · exact absurd rfl (htame _ hb).2.1
      · exact hd
    exact hInv.notF iu v1 v2 (hn h1) (hn h2)
  · intro idStr pu1 iu1 pu2 iu2 h1 h2
    exact hInv.metaU idStr pu1 iu1 pu2 iu2
      ((prodMatch_insert_tame htame).mp h1) ((prodMatch_insert_tame htame).mp h2)
  · intro idStr su1 iu1 su2 iu2 h1 h2
    exact hInv.bizU idStr su1 iu1 su2 iu2
      ((bizMatch_insert_tame htame).mp h1) ((bizMatch_insert_tame htame).mp h2)
  · intro idStr pu iu h
    exact hInv.prodShape idStr pu iu ((prodMatch_insert_tame htame).mp h)
  · intro idStr su iu h
    exact hInv.bizShape idStr su iu ((bizMatch_insert_tame htame).mp h)

theorem inv_ctr_le {st : St} (hInv : Inv st) {c : Nat} (h : st.ctr ≤ c) :
    Inv { st with ctr := c } := by
  refine ⟨?_, hInv.funA, hInv.invA, hInv.notF, hInv.metaU, hInv.bizU,
    hInv.prodShape, hInv.bizShape⟩
  intro t ht u hm k hk
  have := hInv.fresh t ht u hm k hk
  show k < c
  omega

theorem inv_transfer {st : St} {a : List Triple}
    (hab : SetEq st.store a) (hInv : Inv st) : Inv { st with store := a } := by
  constructor
  · intro t ht u hm k hk
    exact hInv.fresh t ((hab t).mpr ht) u hm k hk
  · intro p hp u o1 o2 h1 h2
    exact hInv.funA p hp u o1 o2 ((hab _).mpr h1) ((hab _).mpr h2)
  · intro p1 hp1 p2 hp2 u1 u2 v h1 h2
    exact hInv.invA p1 hp1 p2 hp2 u1 u2 v ((hab _).mpr h1) ((hab _).mpr h2)
  · intro iu v1 v2 h1 h2
    exact hInv.notF iu v1 v2 ((hab _).mpr h1) ((hab _).mpr h2)
  · intro idStr pu1 iu1 pu2 iu2 h1 h2
    have hba : SetEq a st.store := fun t => (hab t).symm
    exact hInv.metaU idStr pu1 iu1 pu2 iu2
      (prodMatch_transfer hba h1) (prodMatch_transfer hba h2)
  · intro idStr su1 iu1 su2 iu2 h1 h2
    have hba : SetEq a st.store := fun t => (hab t).symm
    exact hInv.bizU idStr su1 iu1 su2 iu2
      (bizMatch_transfer hba h1) (bizMatch_transfer hba h2)
  · intro idStr pu iu h
    have hba : SetEq a st.store := fun t => (hab t).symm
    exact hInv.prodShape idStr pu iu (prodMatch_transfer hba h)
  · intro idStr su iu h
    have hba : SetEq a st.store := fun t => (hab t).symm
    exact hInv.bizShape idStr su iu (bizMatch_transfer hba h)

/-! ### RosterSat and NameTame preservation -/

theorem rosterSat_insert {r : List SupplierSummary} {db B : List Triple}
    (h : RosterSat r db) : RosterSat r (B ++ db) := by
  intro row hrow
  obtain ⟨ns, ni, hm, hn⟩ := h row hrow
  exact ⟨ns, ni, bizMatch_mono hm, List.mem_append_right _ hn⟩

theorem rosterSat_delete {r : List SupplierSummary} {db : List Triple} {v : Node}
    {Q : List String} (hQ : ∀ q ∈ Q, q ∉ matchPreds ∧ q ≠ "gr:name")
    (h : RosterSat r db) : RosterSat r (deleteProps v Q db) := by
  intro row hrow
  obtain ⟨ns, ni, hm, hn⟩ := h row hrow
  refine ⟨ns, ni, bizMatch_delete (fun q hq => (hQ q hq).1) hm,
    mem_deleteProps.mpr ⟨hn, ?_⟩⟩
  rintro ⟨-, hq⟩
  exact (hQ _ hq).2 rfl

theorem rosterSat_transfer {r : List SupplierSummary} {a b : List Triple}
    (hab : SetEq a b) (h : RosterSat r a) : RosterSat r b := by
  intro row hrow
  obtain ⟨ns, ni, hm, hn⟩ := h row hrow
  exact ⟨ns, ni, bizMatch_transfer hab hm, (hab _).mp hn⟩

theorem nameTame_insert {r : List SupplierSummary} {db B : List Triple}
    (hname : ∀ t ∈ B, t.p ≠ "gr:name")
    (h : NameTame r db) : NameTame r (B ++ db) := by
  intro t ht hp
  rcases List.mem_append.mp ht with hb | hd
  · exact absurd hp (hname _ hb)
  · obtain ⟨row, hrow, ⟨iu, hm⟩, hobj⟩ := h t hd hp
    exact ⟨row, hrow, ⟨iu, bizMatch_mono hm⟩, hobj⟩

theorem nameTame_delete {r : List SupplierSummary} {db : List Triple} {v : Node}
    {Q : List String} (hQ : ∀ q ∈ Q, q ∉ matchPreds)
    (h : NameTame r db) : NameTame r (deleteProps v Q db) := by
  intro t ht hp
  obtain ⟨row, hrow, ⟨iu, hm⟩, hobj⟩ := h t (mem_deleteProps.mp ht).1 hp
  exact ⟨row, hrow, ⟨iu, bizMatch_delete hQ hm⟩, hobj⟩

theorem nameTame_transfer {r : List SupplierSummary} {a b : List Triple}
    (hab : SetEq a b) (h : NameTame r a) : NameTame r b := by
  intro t ht hp
  obtain ⟨row, hrow, ⟨iu, hm⟩, hobj⟩ := h t ((hab t).mpr ht) hp
  exact ⟨row, hrow, ⟨iu, bizMatch_transfer hab hm⟩, hobj⟩

/-- Supplier-name uniqueness, derived from the tame-name characterization,
the uniqueness of a business entity per external id, and pairwise-distinct
roster names. -/
theorem nameU_of {r : List SupplierSummary} {db : List Triple}
    (hnames : (r.map (fun row => row.name)).Nodup)
    (htame : NameTame r db)
    (hbizU : ∀ idStr (su1 iu1 su2 iu2 : Node), BizMatch db idStr su1 iu1 →
      BizMatch db idStr su2 iu2 → su1 = su2 ∧ iu1 = iu2) :
    ∀ (s1 s2 : Node) (n : String), Triple.mk s1 "gr:name" (Obj.str n) ∈ db →
      Triple.mk s2 "gr:name" (Obj.str n) ∈ db → s1 = s2 := by
  intro s1 s2 n h1 h2
  obtain ⟨row1, hrow1, ⟨iu1, hm1⟩, hobj1⟩ := htame _ h1 rfl
  obtain ⟨row2, hrow2, ⟨iu2, hm2⟩, hobj2⟩ := htame _ h2 rfl
  have hname1 : row1.name = n := by
    injection hobj1 with h; exact h.symm
  have hname2 : row2.name = n := by
    injection hobj2 with h; exact h.symm
  have hroweq : row1 = row2 := by
    apply List.inj_on_of_nodup_map hnames hrow1 hrow2
    rw [hname1, hname2]
  rw [hroweq] at hm1
  exact (hbizU _ _ _ _ _ hm1 hm2).1

/-! ### Lookup soundness and completeness -/

theorem findSome?_some_elim {α β : Type} {l : List α} {f : α → Option β} {b : β}
    (h : l.findSome? f = some b) : ∃ a ∈ l, f a = some b := by
  induction l with
  | nil => cases h
  | cons hd tl ih =>
    rw [List.findSome?_cons] at h
    cases hf : f hd with
    | some c =>
      rw [hf] at h
      refine ⟨hd, List.mem_cons_self hd tl, ?_⟩
      rw [hf]
      exact h
    | none =>
      rw [hf] at h
      obtain ⟨a, ha, hfa⟩ := ih h
      exact ⟨a, List.mem_cons_of_mem _ ha, hfa⟩

theorem findSome?_isSome_of {α β : Type} {l : List α} {f : α → Option β} {a : α} {b : β}
    (ha : a ∈ l) (hf : f a = some b) : (l.findSome? f).isSome = true := by
  cases h : l.findSome? f with
  | some c => rfl
  | none =>
    rw [List.findSome?_eq_none_iff] at h
    rw [h a ha] at hf
    cases hf

theorem firstObj_some_mem {db : List Triple} {u : Node} {p : String} {o : Obj}
    (h : firstObj db u p = some o) : Triple.mk u p o ∈ db := by
  obtain ⟨t, ht, hft⟩ := findSome?_some_elim h
  by_cases hc : t.s = u ∧ t.p = p
  · rw [if_pos hc] at hft
    injection hft with hft
    have : Triple.mk u p o = t := by
      rcases t with ⟨s, p', o'⟩
      rcases hc with ⟨h1, h2⟩
      cases h1; cases h2; cases hft; rfl
    rwa [this]
  · rw [if_neg hc] at hft
    cases hft

theorem metaHit_sound {db : List Triple} {idStr : String} {t : Triple} {pr : Node × Node}
    (ht : t ∈ db) (h : metaHit db idStr t = some pr) :
    ProdMatch db idStr pr.1 pr.2 := by
  rcases t with ⟨s, p, o⟩
  unfold metaHit at h
  dsimp only at h
  by_cases hp : p = "adms:identifier"
  · subst hp
    rw [if_pos rfl] at h
    cases o with
    | node iu =>
      dsimp only at h
      by_cases hc : Triple.mk s "a" (Obj.node (.ext "schema:Product")) ∈ db
          ∧ Triple.mk iu "a" (Obj.node (.ext "adms:Identifier")) ∈ db
          ∧ Triple.mk iu "skos:notation" (Obj.str idStr) ∈ db
          ∧ Triple.mk iu "dct:creator" (Obj.node (.ext "https://localfoodworks.eu/")) ∈ db
      · rw [if_pos hc] at h
        injection h with h
        subst h
        exact ⟨ht, hc.1, hc.2.1, hc.2.2.1, hc.2.2.2⟩
      · rw [if_neg hc] at h
        cases h
    | str v => simp at h
    | dec v => simp at h
    | boolv v => simp at h
    | time v => simp at h
  · rw [if_neg hp] at h
    cases h

theorem findProductMeta_sound {db : List Triple} {idStr : String} {pr : Node × Node}
    (h : findProductMeta db idStr = some pr) : ProdMatch db idStr pr.1 pr.2 := by
  obtain ⟨t, ht, hft⟩ := findSome?_some_elim h
  exact metaHit_sound ht hft

theorem metaHit_fire {db : List Triple} {idStr : String} {pu iu : Node}
    (hm : ProdMatch db idStr pu iu) :
    metaHit db idStr (Triple.mk pu "adms:identifier" (Obj.node iu)) = some (pu, iu) := by
  unfold metaHit
  dsimp only
  rw [if_pos rfl]
  exact if_pos ⟨hm.2.1, hm.2.2.1, hm.2.2.2.1, hm.2.2.2.2⟩

theorem findProductMeta_isSome {db : List Triple} {idStr : String} {pu iu : Node}
    (hm : ProdMatch db idStr pu iu) : (findProductMeta db idStr).isSome = true :=
  findSome?_isSome_of hm.1 (metaHit_fire hm)

theorem findProductMeta_of_match {db : List Triple} {idStr : String} {pu iu : Node}
    (hm : ProdMatch db idStr pu iu)
    (hU : ∀ pu' iu', ProdMatch db idStr pu' iu' → pu' = pu ∧ iu' = iu) :
    findProductMeta db idStr = some (pu, iu) := by
  apply findSome?_of_unique hm.1 (metaHit_fire hm)
  intro a ha b hb
  have hmb := metaHit_sound ha hb
  have := hU b.1 b.2 hmb
  rcases b with ⟨b1, b2⟩
  have h1 : b1 = pu := this.1
  have h2 : b2 = iu := this.2
  rw [h1, h2]

theorem bizHit_sound {db : List Triple} {idStr : String} {t : Triple} {pr : Node × Node}
    (ht : t ∈ db) (h : bizHit db idStr t = some pr) :
    pr.1 = t.s ∧ BizMatch db idStr pr.1 pr.2 := by
  rcases t with ⟨s, p, o⟩
  unfold bizHit at h
  dsimp only at h
  by_cases hp : p = "adms:identifier"
  · subst hp
    rw [if_pos rfl] at h
    cases o with
    | node iu =>
      dsimp only at h
      by_cases hc : Triple.mk s "a" (Obj.node (.ext "gr:BusinessEntity")) ∈ db
          ∧ Triple.mk iu "dct:creator" (Obj.node (.ext "https://localfoodworks.eu/")) ∈ db
          ∧ Triple.mk iu "skos:notation" (Obj.str idStr) ∈ db
      · rw [if_pos hc] at h
        injection h with h
        subst h
        exact ⟨rfl, ht, hc.1, hc.2.1, hc.2.2⟩
      · rw [if_neg hc] at h
        cases h
    | str v => simp at h
    | dec v => simp at h
    | boolv v => simp at h
    | time v => simp at h
  · rw [if_neg hp] at h
    cases h

theorem bizHit_fire {db : List Triple} {idStr : String} {su iu : Node}
    (hm : BizMatch db idStr su iu) :
    bizHit db idStr (Triple.mk su "adms:identifier" (Obj.node iu)) = some (su, iu) := by
  unfold bizHit
  dsimp only
  rw [if_pos rfl]
  exact if_pos ⟨hm.2.1, hm.2.2.1, hm.2.2.2⟩

theorem hasSupplier_of {db : List Triple} {idStr : String} {su iu : Node}
    (hm : BizMatch db idStr su iu) : hasSupplier db idStr = true :=
  findSome?_isSome_of hm.1 (bizHit_fire hm)

theorem hasSupplier_false {db : List Triple} {idStr : String}
    (h : hasSupplier db idStr = false) :
    ∀ su iu : Node, ¬ BizMatch db idStr su iu := by
  intro su iu hm
  rw [hasSupplier_of hm] at h
  cases h

theorem supplierMatches_of {db : List Triple} {idStr : String} {su iu : Node}
    (hm : BizMatch db idStr su iu) : supplierMatches db idStr su = true := by
  unfold supplierMatches
  rw [List.any_eq_true]
  refine ⟨Triple.mk su "adms:identifier" (Obj.node iu), hm.1, ?_⟩
  rw [Bool.and_eq_true, bizHit_fire hm]
  exact ⟨decide_eq_true rfl, rfl⟩

theorem supplierMatches_sound {db : List Triple} {idStr : String} {su : Node}
    (h : supplierMatches db idStr su = true) : ∃ iu, BizMatch db idStr su iu := by
  unfold supplierMatches at h
  rw [List.any_eq_true] at h
  obtain ⟨t, ht, hc⟩ := h
  rw [Bool.and_eq_true] at hc
  have hs : t.s = su := of_decide_eq_true hc.1
  cases hb : bizHit db idStr t with
  | some pr =>
    obtain ⟨hfst, hm⟩ := bizHit_sound ht hb
    refine ⟨pr.2, ?_⟩
    rw [← hs, ← hfst]
    exact hm
  | none =>
    rw [hb] at hc
    cases hc.2

theorem findSupplierByName_sound {db : List Triple} {name : String} {su : Node}
    (h : findSupplierByName db name = some su) :
    Triple.mk su "gr:name" (Obj.str name) ∈ db := by
  obtain ⟨t, ht, hft⟩ := findSome?_some_elim h
  by_cases hc : t.p = "gr:name" ∧ t.o = Obj.str name
  · rw [if_pos hc] at hft
    injection hft with hft
    have : Triple.mk su "gr:name" (Obj.str name) = t := by
      rcases t with ⟨s, p', o'⟩
      rcases hc with ⟨h1, h2⟩
      cases h1; cases h2; cases hft; rfl
    rwa [this]
  · rw [if_neg hc] at hft
    cases hft

/-! ### Transfers along store set-equality -/

theorem setEq_symm {a b : List Triple} (h : SetEq a b) : SetEq b a :=
  fun t => (h t).symm

theorem setEq_insert_sub {B db : List Triple} (h : ∀ t ∈ B, t ∈ db) :
    SetEq (insertData B db) db := by
  intro t
  rw [mem_insertData]
  exact ⟨fun hx => hx.elim (h t) id, Or.inr⟩

theorem picSat_transfer {d : Product} {pu : Node} {a b : List Triple}
    (hab : SetEq a b) (h : PicSat d pu a) : PicSat d pu b := by
  unfold PicSat at h ⊢
  by_cases himg : truthyOpt d.image = true
  · rw [if_pos himg] at h ⊢
    obtain ⟨f, h1, h2⟩ := h
    exact ⟨f, (hab _).mp h1, (hab _).mp h2⟩
  · rw [if_neg himg] at h ⊢
    intro o ho
    exact h o ((hab _).mpr ho)

theorem prodSatBody_transfer {j : Node} {d : Product} {pu : Node} {a b : List Triple}
    (hab : SetEq a b) (h : ProdSatBody j d pu a) : ProdSatBody j d pu b := by
  obtain ⟨h1, h2, ⟨cef, hcef, ⟨ns, he1, hg1⟩, ⟨nt, he2, hg2⟩,
    ⟨no, he3, ⟨nq, he4, hg4⟩, ⟨nu, he5, hg5⟩, hsup⟩⟩, h6, h7, h8⟩ := h
  refine ⟨(hab _).mp h1, groupSat_transfer hab h2,
    ⟨cef, hcef, ⟨ns, (hab _).mp he1, groupSat_transfer hab hg1⟩,
      ⟨nt, (hab _).mp he2, groupSat_transfer hab hg2⟩,
      ⟨no, (hab _).mp he3, ⟨nq, (hab _).mp he4, groupSat_transfer hab hg4⟩,
        ⟨nu, (hab _).mp he5, groupSat_transfer hab hg5⟩, ?_⟩⟩,
    groupSat_transfer hab h6, groupSat_transfer hab h7, picSat_transfer hab h8⟩
  intro i hi su hsu
  exact groupSat_transfer hab (hsup i hi su ((hab _).mpr hsu))

theorem prodSat_transfer {j : Node} {d : Product} {a b : List Triple}
    (hab : SetEq a b) (h : ProdSat j d a) : ProdSat j d b := by
  obtain ⟨np, ni, hm, hbody⟩ := h
  exact ⟨np, ni, prodMatch_transfer hab hm,
    fun hig => prodSatBody_transfer hab (hbody hig)⟩

theorem inv_transfer2 {st st' : St} (hab : SetEq st.store st'.store)
    (hc : st.ctr = st'.ctr) (hInv : Inv st) : Inv st' := by
  have h := inv_transfer hab hInv
  rcases st' with ⟨store', ctr', dl', now'⟩
  dsimp at hab hc
  constructor
  · intro t ht u hm k hk
    rw [← hc]
    exact h.fresh t ht u hm k hk
  · exact h.funA
  · exact h.invA
  · exact h.notF
  · exact h.metaU
  · exact h.bizU
  · exact h.prodShape
  · exact h.bizShape

theorem isOkE_eq {e : Except Err St} (h : isOkE e = true) : e = .ok (stOf e) := by
  cases e with
  | ok s => rfl
  | error err => simp [isOkE] at h

/-! ### Per-operation replay (stutter) lemmas -/

theorem ensureProductMeta_found {d : Product} {st : St} {pr : Node × Node}
    (h : findProductMeta st.store (toString d.id) = some pr) :
    ensureProductMeta d st = (pr, st) := by
  unfold ensureProductMeta
  dsimp only
  rw [h]

theorem hasThumbSource_of {db : List Triple} {pu : Node} {url : String} {f : Node}
    (h1 : Triple.mk pu "veeakker:thumbnail" (Obj.node f) ∈ db)
    (h2 : Triple.mk f "dct:source" (Obj.node (.ext url)) ∈ db) :
    hasThumbSource db pu url = true := by
  unfold hasThumbSource
  rw [List.any_eq_true]
  refine ⟨_, h1, ?_⟩
  rw [Bool.and_eq_true]
  refine ⟨decide_eq_true ⟨rfl, rfl⟩, ?_⟩
  dsimp only
  exact decide_eq_true h2

theorem picDeleteShare_id {pu : Node} {db : List Triple}
    (h : ∀ o : Obj, Triple.mk pu "veeakker:thumbnail" o ∉ db) :
    picDeleteShare pu db = db := by
  unfold picDeleteShare
  apply List.filter_eq_self.mpr
  intro t ht
  rw [decide_eq_true_iff]
  rintro ⟨hp, hshare⟩
  unfold isThumbShare at hshare
  rw [List.any_eq_true] at hshare
  obtain ⟨e, he, hc⟩ := hshare
  rw [Bool.and_eq_true] at hc
  obtain ⟨h1, h2⟩ := hc
  cases ho : e.o with
  | node th =>
    rw [ho] at h2
    dsimp only at h2
    exact h (Obj.node th) (of_decide_eq_true h2)
  | str v => rw [ho] at h2; simp at h2
  | dec v => rw [ho] at h2; simp at h2
  | boolv v => rw [ho] at h2; simp at h2
  | time v => rw [ho] at h2; simp at h2

theorem picDeleteFile_id {pu : Node} {db : List Triple}
    (h : ∀ o : Obj, Triple.mk pu "veeakker:thumbnail" o ∉ db) :
    picDeleteFile pu db = db := rfl

theorem picDeleteEdge_id {pu : Node} {db : List Triple}
    (h : ∀ o : Obj, Triple.mk pu "veeakker:thumbnail" o ∉ db) :
    picDeleteEdge pu db = db := by
  unfold picDeleteEdge
  apply List.filter_eq_self.mpr
  intro t ht
  rw [decide_eq_true_iff]
  rintro ⟨hs, hp⟩
  apply h t.o
  have : Triple.mk pu "veeakker:thumbnail" t.o = t := by
    rcases t with ⟨s, p', o'⟩
    dsimp only at hs hp
    rw [hs, hp]
  rwa [this]

/-- Replaying an unchanged picture payload leaves the state untouched: the
`ASK` short-circuits when the source matches, and with no stored thumbnail and
no image the three delete blocks have nothing to delete. -/
theorem ensureProductPicture_sat {d : Product} {pu : Node} {st : St}
    (h : PicSat d pu st.store) : ensureProductPicture d pu st = st := by
  unfold PicSat at h
  by_cases himg : truthyOpt d.image = true
  · rw [if_pos himg] at h
    obtain ⟨f, h1, h2⟩ := h
    have hask : (truthyOpt d.image
        && hasThumbSource st.store pu (d.image.getD "")) = true := by
      rw [himg, hasThumbSource_of h1 h2]
      rfl
    unfold ensureProductPicture
    dsimp only
    rw [if_pos hask]
  · rw [if_neg himg] at h
    have himg' : truthyOpt d.image = false := by
      cases hi : truthyOpt d.image
      · rfl
      · exact absurd hi himg
    have hask : ¬((truthyOpt d.image
        && hasThumbSource st.store pu (d.image.getD "")) = true) := by
      rw [himg']
      simp
    unfold ensureProductPicture
    dsimp only
    rw [if_neg hask, picDeleteShare_id h, picDeleteFile_id h, picDeleteEdge_id h,
      if_neg himg]

theorem ensureProductIngredients_eq (d : Product) (pu : Node) (st : St) :
    ensureProductIngredients d pu st =
      { st with store := (replaceGroup pu ["food:ingredientListAsText"]
          (ingrT pu d.ingredients) st.store) } := by
  unfold ensureProductIngredients
  cases d.ingredients <;> rfl

theorem ensureProductAllergens_eq (d : Product) (pu : Node) (st : St) :
    ensureProductAllergens d pu st =
      { st with store := (replaceGroup pu ["veeakker:allergensAsText"]
          (allergT pu d.allergens) st.store) } := by
  unfold ensureProductAllergens
  cases d.allergens <;> rfl

theorem dp_stutter {d : Product} {pu : Node} {st : St} {ns nt : Nat} {cef : String}
    (h1 : firstObj st.store pu "veeakker:singleUnitPrice" = some (Obj.node (.priceSpec ns)))
    (h2 : firstObj st.store pu "veeakker:targetUnit" = some (Obj.node (.quantVal nt)))
    (hc : convertLfwUnitToCEFACT d.pricing.consumerPrice.measurementUnitPrice.unitOfMeasurement
      = .ok cef)
    (hg1 : groupSat st.store (.priceSpec ns) specPreds
      (specT (.priceSpec ns) cef d.pricing.consumerPrice.measurementUnitPrice.money.amount))
    (hg2 : groupSat st.store (.quantVal nt) targetPreds
      (targetT (.quantVal nt) cef d.pricing.measurementUnitVsOrderUnitRatio)) :
    ∃ st', ensureProductDefaultPricing d pu st = .ok st' ∧ SetEq st'.store st.store ∧
      st'.ctr = st.ctr ∧ st'.downloads = st.downloads ∧ st'.now = st.now := by
  have e1 : ensureSingleUnitPriceResource pu st = (Node.priceSpec ns, st) := by
    unfold ensureSingleUnitPriceResource findOrCreate
    rw [h1]
    rfl
  have e2 : ensureTargetUnitResource pu st = (Node.quantVal nt, st) := by
    unfold ensureTargetUnitResource findOrCreate
    rw [h2]
    rfl
  refine ⟨{ st with store := (replaceGroup (Node.quantVal nt) targetPreds
      (targetT (Node.quantVal nt) cef d.pricing.measurementUnitVsOrderUnitRatio)
      (replaceGroup (Node.priceSpec ns) specPreds
        (specT (Node.priceSpec ns) cef
          d.pricing.consumerPrice.measurementUnitPrice.money.amount)
        st.store)) }, ?_, ?_, rfl, rfl, rfl⟩
  · unfold ensureProductDefaultPricing
    rw [e1]
    dsimp only
    rw [e2]
    dsimp only
    rw [hc]
    simp only [convErr, Except.bind, bind, pure, Except.pure]
    rfl
  · have hS : ∀ t ∈ specT (Node.priceSpec ns) cef
        d.pricing.consumerPrice.measurementUnitPrice.money.amount,
        ¬(t.s = Node.quantVal nt ∧ t.p ∈ targetPreds) := by
      intro t ht
      simp only [specT, List.mem_cons, List.not_mem_nil, or_false] at ht
      rcases ht with rfl | rfl <;> simp
    have hT : ∀ t ∈ targetT (Node.quantVal nt) cef d.pricing.measurementUnitVsOrderUnitRatio,
        ¬(t.s = Node.priceSpec ns ∧ t.p ∈ specPreds) := by
      intro t ht
      simp only [targetT, List.mem_cons, List.not_mem_nil, or_false] at ht
      rcases ht with rfl | rfl <;> simp
    exact setEq_trans (groupSat_stutter (groupSat_replace hS hT hg2)) (groupSat_stutter hg1)

theorem offers_stutter {d : Product} {pu : Node} {st : St} {no nq nu : Nat} {cef : String}
    (h3 : firstObj st.store pu "veeakker:offerings" = some (Obj.node (.offering no)))
    (h4 : firstObj st.store (.offering no) "gr:includesObject"
      = some (Obj.node (.typeAndQuantity nq)))
    (h5 : firstObj st.store (.offering no) "gr:hasPriceSpecification"
      = some (Obj.node (.priceSpec nu)))
    (hc : convertLfwUnitToCEFACT d.pricing.consumerPrice.measurementUnitPrice.unitOfMeasurement
      = .ok cef)
    (hg4 : groupSat st.store (.typeAndQuantity nq) taqPreds
      (taqT (.typeAndQuantity nq) d.pricing.measurementUnitVsOrderUnitRatio cef))
    (hg5 : groupSat st.store (.priceSpec nu) upsPreds
      (upsT (.priceSpec nu) d.pricing.consumerPrice.orderUnitPrice.money.amount)) :
    ∃ st', ensureProductOffers d pu st
        = .ok (⟨.offering no, .typeAndQuantity nq, .priceSpec nu⟩, st') ∧
      SetEq st'.store st.store ∧
      st'.ctr = st.ctr ∧ st'.downloads = st.downloads ∧ st'.now = st.now := by
  have e3 : ensureOffering pu st = (Node.offering no, st) := by
    unfold ensureOffering findOrCreate
    rw [h3]
    rfl
  have e4 : ensureOfferingTypeAndQuantity (Node.offering no) st
      = (Node.typeAndQuantity nq, st) := by
    unfold ensureOfferingTypeAndQuantity findOrCreate
    rw [h4]
    rfl
  have e5 : ensureOfferingUnitPrice (Node.offering no) st = (Node.priceSpec nu, st) := by
    unfold ensureOfferingUnitPrice findOrCreate
    rw [h5]
    rfl
  have eres : ensureOfferingResources pu st
      = (⟨Node.offering no, Node.typeAndQuantity nq, Node.priceSpec nu⟩, st) := by
    unfold ensureOfferingResources
    rw [e3]
    dsimp only
    rw [e4]
    dsimp only
    rw [e5]
  refine ⟨{ st with store := (replaceGroup (Node.typeAndQuantity nq) taqPreds
      (taqT (Node.typeAndQuantity nq) d.pricing.measurementUnitVsOrderUnitRatio cef)
      (replaceGroup (Node.priceSpec nu) upsPreds
        (upsT (Node.priceSpec nu) d.pricing.consumerPrice.orderUnitPrice.money.amount)
        st.store)) }, ?_, ?_, rfl, rfl, rfl⟩
  · unfold ensureProductOffers
    rw [eres]
    dsimp only
    rw [hc]
    simp only [convErr, Except.bind, bind, pure, Except.pure]
    rfl
  · have hS : ∀ t ∈ upsT (Node.priceSpec nu)
        d.pricing.consumerPrice.orderUnitPrice.money.amount,
        ¬(t.s = Node.typeAndQuantity nq ∧ t.p ∈ taqPreds) := by
      intro t ht
      simp only [upsT, List.mem_cons, List.not_mem_nil, or_false] at ht
      rcases ht with rfl | rfl <;> simp
    have hT : ∀ t ∈ taqT (Node.typeAndQuantity nq)
        d.pricing.measurementUnitVsOrderUnitRatio cef,
        ¬(t.s = Node.priceSpec nu ∧ t.p ∈ upsPreds) := by
      intro t ht
      simp only [taqT, List.mem_cons, List.not_mem_nil, or_false] at ht
      rcases ht with rfl | rfl <;> simp
    exact setEq_trans (groupSat_stutter (groupSat_replace hS hT hg4)) (groupSat_stutter hg5)

theorem supplier_stutter {off : Node} {i : SupplierInfo} {st : St}
    (hcl : ∀ su, Triple.mk su "gr:name" (Obj.str i.name) ∈ st.store →
      groupSat st.store su supPreds (supT su i off)) :
    SetEq (loadProductSupplier off i st).store st.store ∧
      (loadProductSupplier off i st).ctr = st.ctr ∧
      (loadProductSupplier off i st).downloads = st.downloads ∧
      (loadProductSupplier off i st).now = st.now := by
  unfold loadProductSupplier
  cases h : findSupplierByName st.store i.name with
  | some su =>
    dsimp only
    refine ⟨?_, rfl, rfl, rfl⟩
    exact groupSat_stutter (hcl su (findSupplierByName_sound h))
  | none => exact ⟨setEq_refl _, rfl, rfl, rfl⟩

/-! ### Replaying a fully reflected product is a no-op -/

theorem loadProduct_stutter (detail : Int → Product) (p0 : Product) (j : Node) (st : St)
    (hInv : Inv st) (hsat : ProdSat j (detail p0.id) st.store) :
    ∃ st', loadProduct detail p0 ⟨true, some j⟩ st = .ok st' ∧
      SetEq st'.store st.store ∧ st'.ctr = st.ctr ∧
      st'.downloads = st.downloads ∧ st'.now = st.now := by
  obtain ⟨np, ni, hm, hbody⟩ := hsat
  have hfind : findProductMeta st.store (toString (detail p0.id).id)
      = some (Node.product np, Node.identifier ni) :=
    findProductMeta_of_match hm
      (fun pu' iu' h' => hInv.metaU _ pu' iu' _ _ h' hm)
  have hmeta := @ensureProductMeta_found (detail p0.id) st
    (Node.product np, Node.identifier ni) hfind
  simp only [loadProduct, if_true]
  rw [hmeta]
  dsimp only
  by_cases hig : supplierIgnored (detail p0.id).supplier = true
  · rw [if_pos hig]
    exact ⟨st, rfl, setEq_refl _, rfl, rfl, rfl⟩
  rw [if_neg hig]
  have hbody' := hbody (Bool.eq_false_iff.mpr hig)
  obtain ⟨hprov, hbase, ⟨cef, hcef, ⟨ns, he1, hg1⟩, ⟨nt, he2, hg2⟩,
    ⟨no, he3, ⟨nq, he4, hg4⟩, ⟨nu, he5, hg5⟩, hsup⟩⟩, hingr, hallerg, hpic⟩ := hbody'
  set sA := ensureProductJobConnection (Node.product np) j st with hsA
  set sB := ensureBaseProductInfo (detail p0.id) (Node.product np) sA with hsB
  have eqA : SetEq sA.store st.store := by
    rw [hsA]
    unfold ensureProductJobConnection
    apply setEq_insert_sub
    intro t ht
    simp only [List.mem_cons, List.not_mem_nil, or_false] at ht
    subst ht
    exact hprov
  have ctrA : sA.ctr = st.ctr := by
    rw [hsA]
    rfl
  have eqB : SetEq sB.store sA.store := by
    rw [hsB]
    unfold ensureBaseProductInfo
    exact groupSat_stutter (groupSat_transfer (setEq_symm eqA) hbase)
  have ctrB : sB.ctr = st.ctr := by
    rw [hsB, hsA]
    rfl
  have eAB : SetEq sB.store st.store := setEq_trans eqB eqA
  have hInvB : Inv sB := inv_transfer2 (setEq_symm eAB) ctrB.symm hInv
  have h1 : firstObj sB.store (Node.product np) "veeakker:singleUnitPrice"
      = some (Obj.node (.priceSpec ns)) := by
    apply firstObj_eq_of ((eAB _).mpr he1)
    intro o' ho'
    exact hInvB.funA "veeakker:singleUnitPrice" (by simp [APreds]) (Node.product np)
      o' (Obj.node (.priceSpec ns)) ho' ((eAB _).mpr he1)
  have h2 : firstObj sB.store (Node.product np) "veeakker:targetUnit"
      = some (Obj.node (.quantVal nt)) := by
    apply firstObj_eq_of ((eAB _).mpr he2)
    intro o' ho'
    exact hInvB.funA "veeakker:targetUnit" (by simp [APreds]) (Node.product np)
      o' (Obj.node (.quantVal nt)) ho' ((eAB _).mpr he2)
  obtain ⟨st3, hdp, eq3, ctr3, dl3, now3⟩ :=
    dp_stutter h1 h2 hcef (groupSat_transfer (setEq_symm eAB) hg1)
      (groupSat_transfer (setEq_symm eAB) hg2)
  rw [hdp]
  simp only [Except.bind, bind]
  have e3 : SetEq st3.store st.store := setEq_trans eq3 eAB
  have ctr3' : st3.ctr = st.ctr := ctr3.trans ctrB
  have hInv3 : Inv st3 := inv_transfer2 (setEq_symm e3) ctr3'.symm hInv
  have h3 : firstObj st3.store (Node.product np) "veeakker:offerings"
      = some (Obj.node (.offering no)) := by
    apply firstObj_eq_of ((e3 _).mpr he3)
    intro o' ho'
    exact hInv3.funA "veeakker:offerings" (by simp [APreds]) (Node.product np)
      o' (Obj.node (.offering no)) ho' ((e3 _).mpr he3)
  have h4 : firstObj st3.store (Node.offering no) "gr:includesObject"
      = some (Obj.node (.typeAndQuantity nq)) := by
    apply firstObj_eq_of ((e3 _).mpr he4)
    intro o' ho'
    exact hInv3.funA "gr:includesObject" (by simp [APreds]) (Node.offering no)
      o' (Obj.node (.typeAndQuantity nq)) ho' ((e3 _).mpr he4)
  have h5 : firstObj st3.store (Node.offering no) "gr:hasPriceSpecification"
      = some (Obj.node (.priceSpec nu)) := by
    apply firstObj_eq_of ((e3 _).mpr he5)
    intro o' ho'
    exact hInv3.funA "gr:hasPriceSpecification" (by simp [APreds]) (Node.offering no)
      o' (Obj.node (.priceSpec nu)) ho' ((e3 _).mpr he5)
  obtain ⟨st4, hoff, eq4, ctr4, dl4, now4⟩ :=
    offers_stutter h3 h4 h5 hcef (groupSat_transfer (setEq_symm e3) hg4)
      (groupSat_transfer (setEq_symm e3) hg5)
  rw [hoff]
  simp only [Except.bind, bind]
  have e4 : SetEq st4.store st.store := setEq_trans eq4 e3
  have ctr4' : st4.ctr = st.ctr := ctr4.trans ctr3'
  rw [ensureProductIngredients_eq]
  set st5 : St := { st4 with store := (replaceGroup (Node.product np)
      ["food:ingredientListAsText"]
      (ingrT (Node.product np) (detail p0.id).ingredients) st4.store) } with hst5
  have eq5 : SetEq st5.store st4.store := by
    rw [hst5]
    exact groupSat_stutter (groupSat_transfer (setEq_symm e4) hingr)
  have e5 : SetEq st5.store st.store := setEq_trans eq5 e4
  rw [ensureProductAllergens_eq]
  set st6 : St := { st5 with store := (replaceGroup (Node.product np)
      ["veeakker:allergensAsText"]
      (allergT (Node.product np) (detail p0.id).allergens) st5.store) } with hst6
  have eq6 : SetEq st6.store st5.store := by
    rw [hst6]
    exact groupSat_stutter (groupSat_transfer (setEq_symm e5) hallerg)
  have e6 : SetEq st6.store st.store := setEq_trans eq6 e5
  have ctr6 : st6.ctr = st.ctr := by
    rw [hst6, hst5]
    exact ctr4'
  have dl6 : st6.downloads = st.downloads := by
    rw [hst6, hst5]
    exact dl4.trans dl3
  have now6 : st6.now = st.now := by
    rw [hst6, hst5]
    exact now4.trans now3
  rw [ensureProductPicture_sat (picSat_transfer (setEq_symm e6) hpic)]
  cases hsupf : (detail p0.id).supplier with
  | name s => exact ⟨st6, rfl, e6, ctr6, dl6, now6⟩
  | info i =>
    have hcl : ∀ su, Triple.mk su "gr:name" (Obj.str i.name) ∈ st6.store →
        groupSat st6.store su supPreds (supT su i (Node.offering no)) := by
      intro su hname
      exact groupSat_transfer (setEq_symm e6)
        (hsup i hsupf su ((e6 _).mp hname))
    obtain ⟨eqS, ctrS, dlS, nowS⟩ := supplier_stutter hcl
    exact ⟨_, rfl, setEq_trans eqS e6, ctrS.trans ctr6, dlS.trans dl6, nowS.trans now6⟩

/-! ### Replaying the supplier roster is a no-op -/

theorem ensureSupplierEntities_id {sups : List SupplierSummary} : ∀ {st : St},
    (∀ row ∈ sups, hasSupplier st.store (toString row.id) = true) →
    ensureSupplierEntities sups st = st := by
  induction sups with
  | nil => intro st h; rfl
  | cons hd tl ih =>
    intro st h
    have step : ensureSupplierEntities (hd :: tl) st = ensureSupplierEntities tl st := by
      unfold ensureSupplierEntities
      rw [List.foldl_cons]
      dsimp only
      rw [if_pos (h hd (List.mem_cons_self hd tl))]
    rw [step]
    exact ih (fun row hr => h row (List.mem_cons_of_mem _ hr))

theorem bulkNames_stutter {sups : List SupplierSummary} {db : List Triple}
    (hbizU : ∀ (idStr : String) (su1 iu1 su2 iu2 : Node), BizMatch db idStr su1 iu1 →
      BizMatch db idStr su2 iu2 → su1 = su2 ∧ iu1 = iu2)
    (hroster : RosterSat sups db)
    (htame : NameTame sups db) :
    SetEq (bulkNames sups db) db := by
  intro t
  unfold bulkNames
  rw [mem_insertData, List.mem_filter]
  constructor
  · rintro (hins | ⟨hdb, _⟩)
    · unfold nameInserts at hins
      rw [List.mem_flatten] at hins
      obtain ⟨l, hl, htl⟩ := hins
      rw [List.mem_map] at hl
      obtain ⟨row, hrow, rfl⟩ := hl
      rw [List.mem_map] at htl
      obtain ⟨su, hsu, rfl⟩ := htl
      rw [List.mem_filter] at hsu
      obtain ⟨hsumem, hmatch⟩ := hsu
      obtain ⟨iu, hbm⟩ := supplierMatches_sound hmatch
      obtain ⟨ns, ni, hbm', hname⟩ := hroster row hrow
      have heq := hbizU (toString row.id) su iu _ _ hbm hbm'
      rw [heq.1]
      exact hname
    · exact hdb
  · intro hdb
    by_cases hdel : t.p = "gr:name"
        ∧ sups.any (fun sup => supplierMatches db (toString sup.id) t.s) = true
    · left
      obtain ⟨row', hrow', ⟨iu, hbm⟩, hobj⟩ := htame t hdb hdel.1
      unfold nameInserts
      rw [List.mem_flatten]
      refine ⟨((db.map (fun tr => tr.s)).filter
          (fun su => supplierMatches db (toString row'.id) su)).map
          (fun su => Triple.mk su "gr:name" (Obj.str row'.name)), ?_, ?_⟩
      · rw [List.mem_map]
        exact ⟨row', hrow', rfl⟩
      · rw [List.mem_map]
        refine ⟨t.s, ?_, ?_⟩
        · rw [List.mem_filter]
          refine ⟨?_, supplierMatches_of hbm⟩
          rw [List.mem_map]
          exact ⟨_, hbm.1, rfl⟩
        · rcases t with ⟨s, p, o⟩
          dsimp only at hobj hdel ⊢
          rw [hobj, hdel.1]
    · right
      refine ⟨hdb, ?_⟩
      rw [decide_eq_true_iff]
      exact hdel

theorem loadSuppliers_stutter {sups : List SupplierSummary} {st : St}
    (hInv : Inv st) (hroster : RosterSat sups st.store)
    (htame : NameTame sups st.store) :
    SetEq (loadSuppliers sups st).store st.store ∧
      (loadSuppliers sups st).ctr = st.ctr ∧
      (loadSuppliers sups st).downloads = st.downloads ∧
      (loadSuppliers sups st).now = st.now := by
  have hents : ensureSupplierEntities sups st = st :=
    ensureSupplierEntities_id (fun row hr => by
      obtain ⟨ns, ni, hbm, _⟩ := hroster row hr
      exact hasSupplier_of hbm)
  unfold loadSuppliers
  rw [hents]
  exact ⟨bulkNames_stutter (fun idStr a b c d' h1 h2 => hInv.bizU idStr a b c d' h1 h2)
    hroster htame, rfl, rfl, rfl⟩

/-! ### Fresh product identity creation: block facts -/

theorem metaBlock_adms {np ni : Nat} {idStr : String} {pu iu : Node}
    (h : Triple.mk pu "adms:identifier" (Obj.node iu) ∈ productMetaBlock np ni idStr) :
    pu = .product np ∧ iu = .identifier ni := by
  simp [productMetaBlock] at h
  exact h

theorem metaBlock_typeProd {np ni : Nat} {idStr : String} {pu : Node}
    (h : Triple.mk pu "a" (Obj.node (.ext "schema:Product")) ∈ productMetaBlock np ni idStr) :
    pu = .product np := by
  simp [productMetaBlock] at h
  exact h

theorem metaBlock_typeIdent {np ni : Nat} {idStr : String} {iu : Node}
    (h : Triple.mk iu "a" (Obj.node (.ext "adms:Identifier")) ∈ productMetaBlock np ni idStr) :
    iu = .identifier ni := by
  simp [productMetaBlock] at h
  exact h

theorem metaBlock_note {np ni : Nat} {idStr : String} {iu : Node} {s' : String}
    (h : Triple.mk iu "skos:notation" (Obj.str s') ∈ productMetaBlock np ni idStr) :
    iu = .identifier ni ∧ s' = idStr := by
  simp [productMetaBlock] at h
  exact h

theorem metaBlock_creator {np ni : Nat} {idStr : String} {iu : Node}
    (h : Triple.mk iu "dct:creator" (Obj.node (.ext "https://localfoodworks.eu/"))
      ∈ productMetaBlock np ni idStr) :
    iu = .identifier ni := by
  simp [productMetaBlock] at h
  exact h

theorem metaBlock_no_biz {np ni : Nat} {idStr : String} {su : Node}
    (h : Triple.mk su "a" (Obj.node (.ext "gr:BusinessEntity"))
      ∈ productMetaBlock np ni idStr) : False := by
  simp [productMetaBlock] at h

theorem metaBlock_no_name {np ni : Nat} {idStr : String} {t : Triple}
    (h : t ∈ productMetaBlock np ni idStr) : t.p ≠ "gr:name" := by
  simp only [productMetaBlock, List.mem_cons, List.not_mem_nil, or_false] at h
  rcases h with rfl|rfl|rfl|rfl|rfl|rfl|rfl|rfl <;> simp

theorem metaBlock_notationT {np ni : Nat} {idStr : String} {t : Triple}
    (h : t ∈ productMetaBlock np ni idStr) (hp : t.p = "skos:notation") :
    t = Triple.mk (.identifier ni) "skos:notation" (Obj.str idStr) := by
  simp only [productMetaBlock, List.mem_cons, List.not_mem_nil, or_false] at h
  rcases h with rfl|rfl|rfl|rfl|rfl|rfl|rfl|rfl <;> simp_all

theorem metaBlock_apreds {np ni : Nat} {idStr : String} {t : Triple}
    (h : t ∈ productMetaBlock np ni idStr) (hp : t.p ∈ APreds) :
    t = Triple.mk (.product np) "adms:identifier" (Obj.node (.identifier ni)) := by
  simp only [productMetaBlock, List.mem_cons, List.not_mem_nil, or_false] at h
  rcases h with rfl|rfl|rfl|rfl|rfl|rfl|rfl|rfl <;> simp_all [APreds]

theorem metaBlock_mentions {np ni : Nat} {idStr : String} {t : Triple} {u : Node}
    (h : t ∈ productMetaBlock np ni idStr) (hm : mentionsNode t u) :
    u = .product np ∨ u = .identifier ni ∨ idx u = none := by
  simp only [productMetaBlock, List.mem_cons, List.not_mem_nil, or_false] at h
  rcases h with rfl|rfl|rfl|rfl|rfl|rfl|rfl|rfl <;> rcases hm with hs | ho
  all_goals first
    | exact Or.inl hs.symm
    | exact Or.inr (Or.inl hs.symm)
    | (simp only [Obj.node.injEq] at ho
       exact Or.inr (Or.inl ho.symm))
    | (simp only [Obj.node.injEq] at ho
       subst ho
       exact Or.inr (Or.inr rfl))
    | simp at ho

/-! ### Match patterns across the meta block -/

theorem prodMatch_metaBlock {st : St} {idStr : String} (hInv : Inv st) :
    ∀ (s' : String) (pu iu : Node),
    ProdMatch (productMetaBlock st.ctr (st.ctr + 1) idStr ++ st.store) s' pu iu ↔
      (ProdMatch st.store s' pu iu ∨
        (s' = idStr ∧ pu = .product st.ctr ∧ iu = .identifier (st.ctr + 1))) := by
  intro s' pu iu
  have F1 : ∀ t ∈ st.store, ¬ mentionsNode t (.product st.ctr) :=
    hInv.freshFor rfl (Nat.le_refl _)
  have F2 : ∀ t ∈ st.store, ¬ mentionsNode t (.identifier (st.ctr + 1)) :=
    hInv.freshFor rfl (Nat.le_succ _)
  constructor
  · rintro ⟨h1, h2, h3, h4, h5⟩
    by_cases hiu : iu = .identifier (st.ctr + 1)
    · subst hiu
      right
      have hpu : pu = .product st.ctr := by
        rcases List.mem_append.mp h1 with hb | hd
        · exact (metaBlock_adms hb).1
        · exact absurd (Or.inr rfl) (F2 _ hd)
      have hs : s' = idStr := by
        rcases List.mem_append.mp h4 with hb | hd
        · exact (metaBlock_note hb).2
        · exact absurd (Or.inl rfl) (F2 _ hd)
      exact ⟨hs, hpu, rfl⟩
    · left
      have hd1 : Triple.mk pu "adms:identifier" (Obj.node iu) ∈ st.store := by
        rcases List.mem_append.mp h1 with hb | hd
        · exact absurd (metaBlock_adms hb).2 hiu
        · exact hd
      have hd3 : Triple.mk iu "a" (Obj.node (.ext "adms:Identifier")) ∈ st.store := by
        rcases List.mem_append.mp h3 with hb | hd
        · exact absurd (metaBlock_typeIdent hb) hiu
        · exact hd
      have hd4 : Triple.mk iu "skos:notation" (Obj.str s') ∈ st.store := by
        rcases List.mem_append.mp h4 with hb | hd
        · exact absurd (metaBlock_note hb).1 hiu
        · exact hd
      have hd5 : Triple.mk iu "dct:creator" (Obj.node (.ext "https://localfoodworks.eu/"))
          ∈ st.store := by
        rcases List.mem_append.mp h5 with hb | hd
        · exact absurd (metaBlock_creator hb) hiu
        · exact hd
      have hd2 : Triple.mk pu "a" (Obj.node (.ext "schema:Product")) ∈ st.store := by
        rcases List.mem_append.mp h2 with hb | hd
        · exfalso
          have hpu := metaBlock_typeProd hb
          subst hpu
          exact F1 _ hd1 (Or.inl rfl)
        · exact hd
      exact ⟨hd1, hd2, hd3, hd4, hd5⟩
  · rintro (hold | ⟨rfl, rfl, rfl⟩)
    · exact prodMatch_mono hold
    · refine ⟨?_, ?_, ?_, ?_, ?_⟩ <;>
        · apply List.mem_append_left
          simp [productMetaBlock]

theorem bizMatch_metaBlock {st : St} {idStr : String} (hInv : Inv st) :
    ∀ (s' : String) (su iu : Node),
    BizMatch (productMetaBlock st.ctr (st.ctr + 1) idStr ++ st.store) s' su iu ↔
      BizMatch st.store s' su iu := by
  intro s' su iu
  have F1 : ∀ t ∈ st.store, ¬ mentionsNode t (.product st.ctr) :=
    hInv.freshFor rfl (Nat.le_refl _)
  have F2 : ∀ t ∈ st.store, ¬ mentionsNode t (.identifier (st.ctr + 1)) :=
    hInv.freshFor rfl (Nat.le_succ _)
  constructor
  · rintro ⟨h1, h2, h3, h4⟩
    have hd2 : Triple.mk su "a" (Obj.node (.ext "gr:BusinessEntity")) ∈ st.store := by
      rcases List.mem_append.mp h2 with hb | hd
      · exact absurd hb metaBlock_no_biz
      · exact hd
    have hsu1 : ¬ su = .product st.ctr := by
      intro he
      rw [he] at hd2
      exact F1 _ hd2 (Or.inl rfl)
    have hd1 : Triple.mk su "adms:identifier" (Obj.node iu) ∈ st.store := by
      rcases List.mem_append.mp h1 with hb | hd
      · exact absurd (metaBlock_adms hb).1 hsu1
      · exact hd
    have hiu : ¬ iu = .identifier (st.ctr + 1) := by
      intro he
      rw [he] at hd1
      exact F2 _ hd1 (Or.inr rfl)
    have hd3 : Triple.mk iu "dct:creator" (Obj.node (.ext "https://localfoodworks.eu/"))
        ∈ st.store := by
      rcases List.mem_append.mp h3 with hb | hd
      · exact absurd (metaBlock_creator hb) hiu
      · exact hd
    have hd4 : Triple.mk iu "skos:notation" (Obj.str s') ∈ st.store := by
      rcases List.mem_append.mp h4 with hb | hd
      · exact absurd (metaBlock_note hb).1 hiu
      · exact hd
    exact ⟨hd1, hd2, hd3, hd4⟩
  · exact bizMatch_mono

/-! ### Inv across the meta block -/

theorem inv_insert_metaBlock {st : St} {idStr : String} (hInv : Inv st)
    (hnone : findProductMeta st.store idStr = none) :
    Inv { store := (productMetaBlock st.ctr (st.ctr + 1) idStr ++ st.store),
          ctr := st.ctr + 2, downloads := st.downloads, now := st.now } := by
  have F1 : ∀ t ∈ st.store, ¬ mentionsNode t (.product st.ctr) :=
    hInv.freshFor rfl (Nat.le_refl _)
  have F2 : ∀ t ∈ st.store, ¬ mentionsNode t (.identifier (st.ctr + 1)) :=
    hInv.freshFor rfl (Nat.le_succ _)
  constructor
  · intro t ht u hm k hk
    show k < st.ctr + 2
    rcases List.mem_append.mp ht with hb | hd
    · rcases metaBlock_mentions hb hm with rfl | rfl | hnone'
      · rw [show idx (Node.product st.ctr) = some st.ctr from rfl] at hk
        injection hk with hk
        omega
      · rw [show idx (Node.identifier (st.ctr + 1)) = some (st.ctr + 1) from rfl] at hk
        injection hk with hk
        omega
      · rw [hnone'] at hk
        cases hk
    · have := hInv.fresh t hd u hm k hk
      omega
  · intro p hp u o1 o2 h1 h2
    rcases List.mem_append.mp h1 with hb1 | hd1 <;>
      rcases List.mem_append.mp h2 with hb2 | hd2
    · have e1 := metaBlock_apreds hb1 hp
      have e2 := metaBlock_apreds hb2 hp
      injection e1 with e1s e1p e1o
      injection e2 with e2s e2p e2o
      rw [e1o, e2o]
    · exfalso
      have e1 := metaBlock_apreds hb1 hp
      injection e1 with e1s e1p e1o
      rw [e1s] at hd2
      exact F1 _ hd2 (Or.inl rfl)
    · exfalso
      have e2 := metaBlock_apreds hb2 hp
      injection e2 with e2s e2p e2o
      rw [e2s] at hd1
      exact F1 _ hd1 (Or.inl rfl)
    · exact hInv.funA p hp u o1 o2 hd1 hd2
  · intro p1 hp1 p2 hp2 u1 u2 v h1 h2
    rcases List.mem_append.mp h1 with hb1 | hd1 <;>
      rcases List.mem_append.mp h2 with hb2 | hd2
    · have e1 := metaBlock_apreds hb1 hp1
      have e2 := metaBlock_apreds hb2 hp2
      injection e1 with e1s e1p e1o
      injection e2 with e2s e2p e2o
      rw [e1s, e2s, e1p, e2p]
      exact ⟨rfl, rfl⟩
    · exfalso
      have e1 := metaBlock_apreds hb1 hp1
      injection e1 with e1s e1p e1o
      rw [Obj.node.injEq] at e1o
      rw [e1o] at hd2
      exact F2 _ hd2 (Or.inr rfl)
    · exfalso
      have e2 := metaBlock_apreds hb2 hp2
      injection e2 with e2s e2p e2o
      rw [Obj.node.injEq] at e2o
      rw [e2o] at hd1
      exact F2 _ hd1 (Or.inr rfl)
    · exact hInv.invA p1 hp1 p2 hp2 u1 u2 v hd1 hd2
  · intro iu v1 v2 h1 h2
    rcases List.mem_append.mp h1 with hb1 | hd1 <;>
      rcases List.mem_append.mp h2 with hb2 | hd2
    · have e1 := metaBlock_notationT hb1 rfl
      have e2 := metaBlock_notationT hb2 rfl
      injection e1 with e1s e1p e1o
      injection e2 with e2s e2p e2o
      rw [e1o, e2o]
    · exfalso
      have e1 := metaBlock_notationT hb1 rfl
      injection e1 with e1s e1p e1o
      rw [e1s] at hd2
      exact F2 _ hd2 (Or.inl rfl)
    · exfalso
      have e2 := metaBlock_notationT hb2 rfl
      injection e2 with e2s e2p e2o
      rw [e2s] at hd1
      exact F2 _ hd1 (Or.inl rfl)
    · exact hInv.notF iu v1 v2 hd1 hd2
  · intro s' pu1 iu1 pu2 iu2 h1 h2
    rw [prodMatch_metaBlock hInv] at h1 h2
    rcases h1 with h1 | ⟨hs1, he1, he2⟩ <;> rcases h2 with h2 | ⟨hs2, he3, he4⟩
    · exact hInv.metaU s' pu1 iu1 pu2 iu2 h1 h2
    · exfalso
      rw [hs2] at h1
      have hsome := findProductMeta_isSome h1
      rw [hnone] at hsome
      cases hsome
    · exfalso
      rw [hs1] at h2
      have hsome := findProductMeta_isSome h2
      rw [hnone] at hsome
      cases hsome
    · rw [he1, he2, he3, he4]
      exact ⟨rfl, rfl⟩
  · intro s' su1 iu1 su2 iu2 h1 h2
    rw [bizMatch_metaBlock hInv] at h1 h2
    exact hInv.bizU s' su1 iu1 su2 iu2 h1 h2
  · intro s' pu iu h
    rw [prodMatch_metaBlock hInv] at h
    rcases h with h | ⟨hs, rfl, rfl⟩
    · exact hInv.prodShape s' pu iu h
    · exact ⟨⟨st.ctr, rfl⟩, ⟨st.ctr + 1, rfl⟩⟩
  · intro s' su iu h
    rw [bizMatch_metaBlock hInv] at h
    exact hInv.bizShape s' su iu h

/-! ### Fresh supplier identity creation: block facts -/

theorem supBlock_adms {ns ni : Nat} {idStr : String} {su iu : Node}
    (h : Triple.mk su "adms:identifier" (Obj.node iu) ∈ supplierBlock ns ni idStr) :
    su = .supplier ns ∧ iu = .identifier ni := by
  simp [supplierBlock] at h
  exact h

theorem supBlock_typeBiz {ns ni : Nat} {idStr : String} {su : Node}
    (h : Triple.mk su "a" (Obj.node (.ext "gr:BusinessEntity")) ∈ supplierBlock ns ni idStr) :
    su = .supplier ns := by
  simp [supplierBlock] at h
  exact h

theorem supBlock_no_prod {ns ni : Nat} {idStr : String} {pu : Node}
    (h : Triple.mk pu "a" (Obj.node (.ext "schema:Product"))
      ∈ supplierBlock ns ni idStr) : False := by
  simp [supplierBlock] at h

theorem supBlock_typeIdent {ns ni : Nat} {idStr : String} {iu : Node}
    (h : Triple.mk iu "a" (Obj.node (.ext "adms:Identifier")) ∈ supplierBlock ns ni idStr) :
    iu = .identifier ni := by
  simp [supplierBlock] at h
  exact h

theorem supBlock_note {ns ni : Nat} {idStr : String} {iu : Node} {s' : String}
    (h : Triple.mk iu "skos:notation" (Obj.str s') ∈ supplierBlock ns ni idStr) :
    iu = .identifier ni ∧ s' = idStr := by
  simp [supplierBlock] at h
  exact h

theorem supBlock_creator {ns ni : Nat} {idStr : String} {iu : Node}
    (h : Triple.mk iu "dct:creator" (Obj.node (.ext "https://localfoodworks.eu/"))
      ∈ supplierBlock ns ni idStr) :
    iu = .identifier ni := by
  simp [supplierBlock] at h
  exact h

theorem supBlock_no_name {ns ni : Nat} {idStr : String} {t : Triple}
    (h : t ∈ supplierBlock ns ni idStr) : t.p ≠ "gr:name" := by
  simp only [supplierBlock, List.mem_cons, List.not_mem_nil, or_false] at h
  rcases h with rfl|rfl|rfl|rfl|rfl|rfl|rfl|rfl <;> simp

theorem supBlock_notationT {ns ni : Nat} {idStr : String} {t : Triple}
    (h : t ∈ supplierBlock ns ni idStr) (hp : t.p = "skos:notation") :
    t = Triple.mk (.identifier ni) "skos:notation" (Obj.str idStr) := by
  simp only [supplierBlock, List.mem_cons, List.not_mem_nil, or_false] at h
  rcases h with rfl|rfl|rfl|rfl|rfl|rfl|rfl|rfl <;> simp_all

theorem supBlock_apreds {ns ni : Nat} {idStr : String} {t : Triple}
    (h : t ∈ supplierBlock ns ni idStr) (hp : t.p ∈ APreds) :
    t = Triple.mk (.supplier ns) "adms:identifier" (Obj.node (.identifier ni)) := by
  simp only [supplierBlock, List.mem_cons, List.not_mem_nil, or_false] at h
  rcases h with rfl|rfl|rfl|rfl|rfl|rfl|rfl|rfl <;> simp_all [APreds]

theorem supBlock_mentions {ns ni : Nat} {idStr : String} {t : Triple} {u : Node}
    (h : t ∈ supplierBlock ns ni idStr) (hm : mentionsNode t u) :
    u = .supplier ns ∨ u = .identifier ni ∨ idx u = none := by
  simp only [supplierBlock, List.mem_cons, List.not_mem_nil, or_false] at h
  rcases h with rfl|rfl|rfl|rfl|rfl|rfl|rfl|rfl <;> rcases hm with hs | ho
  all_goals first
    | exact Or.inl hs.symm
    | exact Or.inr (Or.inl hs.symm)
    | (simp only [Obj.node.injEq] at ho
       exact Or.inr (Or.inl ho.symm))
    | (simp only [Obj.node.injEq] at ho
       subst ho
       exact Or.inr (Or.inr rfl))
    | simp at ho

/-! ### Match patterns across the supplier block -/

theorem bizMatch_supplierBlock {st : St} {idStr : String} (hInv : Inv st) :
    ∀ (s' : String) (su iu : Node),
    BizMatch (supplierBlock st.ctr (st.ctr + 1) idStr ++ st.store) s' su iu ↔
      (BizMatch st.store s' su iu ∨
        (s' = idStr ∧ su = .supplier st.ctr ∧ iu = .identifier (st.ctr + 1))) := by
  intro s' su iu
  have F1 : ∀ t ∈ st.store, ¬ mentionsNode t (.supplier st.ctr) :=
    hInv.freshFor rfl (Nat.le_refl _)
  have F2 : ∀ t ∈ st.store, ¬ mentionsNode t (.identifier (st.ctr + 1)) :=
    hInv.freshFor rfl (Nat.le_succ _)
  constructor
  · rintro ⟨h1, h2, h3, h4⟩
    by_cases hiu : iu = .identifier (st.ctr + 1)
    · subst hiu
      right
      have hsu : su = .supplier st.ctr := by
        rcases List.mem_append.mp h1 with hb | hd
        · exact (supBlock_adms hb).1
        · exact absurd (Or.inr rfl) (F2 _ hd)
      have hs : s' = idStr := by
        rcases List.mem_append.mp h4 with hb | hd
        · exact (supBlock_note hb).2
        · exact absurd (Or.inl rfl) (F2 _ hd)
      exact ⟨hs, hsu, rfl⟩
    · left
      have hd1 : Triple.mk su "adms:identifier" (Obj.node iu) ∈ st.store := by
        rcases List.mem_append.mp h1 with hb | hd
        · exact absurd (supBlock_adms hb).2 hiu
        · exact hd
      have hd3 : Triple.mk iu "dct:creator" (Obj.node (.ext "https://localfoodworks.eu/"))
          ∈ st.store := by
        rcases List.mem_append.mp h3 with hb | hd
        · exact absurd (supBlock_creator hb) hiu
        · exact hd
      have hd4 : Triple.mk iu "skos:notation" (Obj.str s') ∈ st.store := by
        rcases List.mem_append.mp h4 with hb | hd
        · exact absurd (supBlock_note hb).1 hiu
        · exact hd
      have hd2 : Triple.mk su "a" (Obj.node (.ext "gr:BusinessEntity")) ∈ st.store := by
        rcases List.mem_append.mp h2 with hb | hd
        · exfalso
          have hsu := supBlock_typeBiz hb
          subst hsu
          exact F1 _ hd1 (Or.inl rfl)
        · exact hd
      exact ⟨hd1, hd2, hd3, hd4⟩
  · rintro (hold | ⟨rfl, rfl, rfl⟩)
    · exact bizMatch_mono hold
    · refine ⟨?_, ?_, ?_, ?_⟩ <;>
        · apply List.mem_append_left
          simp [supplierBlock]

theorem prodMatch_supplierBlock {st : St} {idStr : String} (hInv : Inv st) :
    ∀ (s' : String) (pu iu : Node),
    ProdMatch (supplierBlock st.ctr (st.ctr + 1) idStr ++ st.store) s' pu iu ↔
      ProdMatch st.store s' pu iu := by
  intro s' pu iu
  have F1 : ∀ t ∈ st.store, ¬ mentionsNode t (.supplier st.ctr) :=
    hInv.freshFor rfl (Nat.le_refl _)
  have F2 : ∀ t ∈ st.store, ¬ mentionsNode t (.identifier (st.ctr + 1)) :=
    hInv.freshFor rfl (Nat.le_succ _)
  constructor
  · rintro ⟨h1, h2, h3, h4, h5⟩
    have hd2 : Triple.mk pu "a" (Obj.node (.ext "schema:Product")) ∈ st.store := by
      rcases List.mem_append.mp h2 with hb | hd
      · exact absurd hb supBlock_no_prod
      · exact hd
    have hpu1 : ¬ pu = .supplier st.ctr := by
      intro he
      rw [he] at hd2
      exact F1 _ hd2 (Or.inl rfl)
    have hd1 : Triple.mk pu "adms:identifier" (Obj.node iu) ∈ st.store := by
      rcases List.mem_append.mp h1 with hb | hd
      · exact absurd (supBlock_adms hb).1 hpu1
      · exact hd
    have hiu : ¬ iu = .identifier (st.ctr + 1) := by
      intro he
      rw [he] at hd1
      exact F2 _ hd1 (Or.inr rfl)
    have hd3 : Triple.mk iu "a" (Obj.node (.ext "adms:Identifier")) ∈ st.store := by
      rcases List.mem_append.mp h3 with hb | hd
      · exfalso
        have := supBlock_typeIdent hb
        exact hiu this
      · exact hd
    have hd4 : Triple.mk iu "skos:notation" (Obj.str s') ∈ st.store := by
      rcases List.mem_append.mp h4 with hb | hd
      · exact absurd (supBlock_note hb).1 hiu
      · exact hd
    have hd5 : Triple.mk iu "dct:creator" (Obj.node (.ext "https://localfoodworks.eu/"))
        ∈ st.store := by
      rcases List.mem_append.mp h5 with hb | hd
      · exact absurd (supBlock_creator hb) hiu
      · exact hd
    exact ⟨hd1, hd2, hd3, hd4, hd5⟩
  · exact prodMatch_mono

/-! ### Inv across the supplier block -/

theorem inv_insert_supplierBlock {st : St} {idStr : String} (hInv : Inv st)
    (hno : hasSupplier st.store idStr = false) :
    Inv { store := (supplierBlock st.ctr (st.ctr + 1) idStr ++ st.store),
          ctr := st.ctr + 2, downloads := st.downloads, now := st.now } := by
  have F1 : ∀ t ∈ st.store, ¬ mentionsNode t (.supplier st.ctr) :=
    hInv.freshFor rfl (Nat.le_refl _)
  have F2 : ∀ t ∈ st.store, ¬ mentionsNode t (.identifier (st.ctr + 1)) :=
    hInv.freshFor rfl (Nat.le_succ _)
  constructor
  · intro t ht u hm k hk
    show k < st.ctr + 2
    rcases List.mem_append.mp ht with hb | hd
    · rcases supBlock_mentions hb hm with rfl | rfl | hnone'
      · rw [show idx (Node.supplier st.ctr) = some st.ctr from rfl] at hk
        injection hk with hk
        omega
      · rw [show idx (Node.identifier (st.ctr + 1)) = some (st.ctr + 1) from rfl] at hk
        injection hk with hk
        omega
      · rw [hnone'] at hk
        cases hk
    · have := hInv.fresh t hd u hm k hk
      omega
  · intro p hp u o1 o2 h1 h2
    rcases List.mem_append.mp h1 with hb1 | hd1 <;>
      rcases List.mem_append.mp h2 with hb2 | hd2
    · have e1 := supBlock_apreds hb1 hp
      have e2 := supBlock_apreds hb2 hp
      injection e1 with e1s e1p e1o
      injection e2 with e2s e2p e2o
      rw [e1o, e2o]
    · exfalso
      have e1 := supBlock_apreds hb1 hp
      injection e1 with e1s e1p e1o
      rw [e1s] at hd2
      exact F1 _ hd2 (Or.inl rfl)
    · exfalso
      have e2 := supBlock_apreds hb2 hp
      injection e2 with e2s e2p e2o
      rw [e2s] at hd1
      exact F1 _ hd1 (Or.inl rfl)
    · exact hInv.funA p hp u o1 o2 hd1 hd2
  · intro p1 hp1 p2 hp2 u1 u2 v h1 h2
    rcases List.mem_append.mp h1 with hb1 | hd1 <;>
      rcases List.mem_append.mp h2 with hb2 | hd2
    · have e1 := supBlock_apreds hb1 hp1
      have e2 := supBlock_apreds hb2 hp2
      injection e1 with e1s e1p e1o
      injection e2 with e2s e2p e2o
      rw [e1s, e2s, e1p, e2p]
      exact ⟨rfl, rfl⟩
    · exfalso
      have e1 := supBlock_apreds hb1 hp1
      injection e1 with e1s e1p e1o
      rw [Obj.node.injEq] at e1o
      rw [e1o] at hd2
      exact F2 _ hd2 (Or.inr rfl)
    · exfalso
      have e2 := supBlock_apreds hb2 hp2
      injection e2 with e2s e2p e2o
      rw [Obj.node.injEq] at e2o
      rw [e2o] at hd1
      exact F2 _ hd1 (Or.inr rfl)
    · exact hInv.invA p1 hp1 p2 hp2 u1 u2 v hd1 hd2
  · intro iu v1 v2 h1 h2
    rcases List.mem_append.mp h1 with hb1 | hd1 <;>
      rcases List.mem_append.mp h2 with hb2 | hd2
    · have e1 := supBlock_notationT hb1 rfl
      have e2 := supBlock_notationT hb2 rfl
      injection e1 with e1s e1p e1o
      injection e2 with e2s e2p e2o
      rw [e1o, e2o]
    · exfalso
      have e1 := supBlock_notationT hb1 rfl
      injection e1 with e1s e1p e1o
      rw [e1s] at hd2
      exact F2 _ hd2 (Or.inl rfl)
    · exfalso
      have e2 := supBlock_notationT hb2 rfl
      injection e2 with e2s e2p e2o
      rw [e2s] at hd1
      exact F2 _ hd1 (Or.inl rfl)
    · exact hInv.notF iu v1 v2 hd1 hd2
  · intro s' pu1 iu1 pu2 iu2 h1 h2
    rw [prodMatch_supplierBlock hInv] at h1 h2
    exact hInv.metaU s' pu1 iu1 pu2 iu2 h1 h2
  · intro s' su1 iu1 su2 iu2 h1 h2
    rw [bizMatch_supplierBlock hInv] at h1 h2
    rcases h1 with h1 | ⟨hs1, he1, he2⟩ <;> rcases h2 with h2 | ⟨hs2, he3, he4⟩
    · exact hInv.bizU s' su1 iu1 su2 iu2 h1 h2
    · exfalso
      rw [hs2] at h1
      have := hasSupplier_of h1
      rw [hno] at this
      cases this
    · exfalso
      rw [hs1] at h2
      have := hasSupplier_of h2
      rw [hno] at this
      cases this
    · rw [he1, he2, he3, he4]
      exact ⟨rfl, rfl⟩
  · intro s' pu iu h
    rw [prodMatch_supplierBlock hInv] at h
    exact hInv.prodShape s' pu iu h
  · intro s' su iu h
    rw [bizMatch_supplierBlock hInv] at h
    rcases h with h | ⟨hs, rfl, rfl⟩
    · exact hInv.bizShape s' su iu h
    · exact ⟨⟨st.ctr, rfl⟩, ⟨st.ctr + 1, rfl⟩⟩

/-! ### Establishing supplier entities from scratch -/

theorem hasSupplier_sound {db : List Triple} {idStr : String}
    (h : hasSupplier db idStr = true) : ∃ su iu, BizMatch db idStr su iu := by
  unfold hasSupplier at h
  cases hfs : db.findSome? (bizHit db idStr) with
  | none => rw [hfs] at h; cases h
  | some pr =>
    obtain ⟨t, ht, hft⟩ := findSome?_some_elim hfs
    exact ⟨pr.1, pr.2, (bizHit_sound ht hft).2⟩

/-- What phase 1 of `loadSuppliers` guarantees, relating its input and
output states. -/
structure Phase1Out (sups : List SupplierSummary) (st st' : St) : Prop where
  inv : Inv st'
  ctrle : st.ctr ≤ st'.ctr
  mono : ∀ t ∈ st.store, t ∈ st'.store
  names : ∀ t : Triple, t.p = "gr:name" → (t ∈ st'.store ↔ t ∈ st.store)
  bmono : ∀ (s' : String) (su iu : Node), BizMatch st.store s' su iu →
    BizMatch st'.store s' su iu
  rows : ∀ row ∈ sups, ∃ ns ni,
    BizMatch st'.store (toString row.id) (.supplier ns) (.identifier ni)
  pupper : ∀ (s' : String) (pu iu : Node), ProdMatch st'.store s' pu iu →
    ProdMatch st.store s' pu iu
  dl : st'.downloads = st.downloads
  nw : st'.now = st.now

theorem ensureSupplierEntities_establish :
    ∀ (sups : List SupplierSummary) (st : St), Inv st →
    Phase1Out sups st (ensureSupplierEntities sups st) := by
  intro sups
  induction sups with
  | nil =>
    intro st hInv
    exact ⟨hInv, Nat.le_refl _, fun t ht => ht, fun t _ => Iff.rfl,
      fun s' su iu h => h, fun row hr => absurd hr (List.not_mem_nil row),
      fun s' pu iu h => h, rfl, rfl⟩
  | cons hd tl ih =>
    intro st hInv
    by_cases hhas : hasSupplier st.store (toString hd.id) = true
    · have hstep : ensureSupplierEntities (hd :: tl) st = ensureSupplierEntities tl st := by
        unfold ensureSupplierEntities
        rw [List.foldl_cons]
        dsimp only
        rw [if_pos hhas]
      rw [hstep]
      obtain ⟨inv', ctrle', mono', names', bmono', rows', pupper', dl', nw'⟩ := ih st hInv
      refine ⟨inv', ctrle', mono', names', bmono', ?_, pupper', dl', nw'⟩
      intro row hr
      rcases List.mem_cons.mp hr with rfl | hrt
      · obtain ⟨su, iu, hbm⟩ := hasSupplier_sound hhas
        obtain ⟨⟨ns, hsu⟩, ⟨ni, hiu⟩⟩ := hInv.bizShape _ su iu hbm
        subst hsu
        subst hiu
        exact ⟨ns, ni, bmono' _ _ _ hbm⟩
      · exact rows' row hrt
    · have hno : hasSupplier st.store (toString hd.id) = false :=
        Bool.eq_false_iff.mpr hhas
      have hstep : ensureSupplierEntities (hd :: tl) st
          = ensureSupplierEntities tl
            { store := (supplierBlock st.ctr (st.ctr + 1) (toString hd.id) ++ st.store),
              ctr := st.ctr + 2, downloads := st.downloads, now := st.now } := by
        unfold ensureSupplierEntities
        rw [List.foldl_cons]
        dsimp only
        rw [if_neg hhas]
        rfl
      rw [hstep]
      have hinv1 := inv_insert_supplierBlock hInv hno
      obtain ⟨inv', ctrle', mono', names', bmono', rows', pupper', dl', nw'⟩ :=
        ih _ hinv1
      refine ⟨inv', le_trans (show st.ctr ≤ st.ctr + 2 by omega) ctrle',
        ?_, ?_, ?_, ?_, ?_, dl', nw'⟩
      · intro t ht
        exact mono' t (List.mem_append_right _ ht)
      · intro t hp
        rw [names' t hp]
        constructor
        · intro ht
          rcases List.mem_append.mp ht with hb | hd'
          · exact absurd hp (supBlock_no_name hb)
          · exact hd'
        · exact List.mem_append_right _
      · intro s' su iu h
        exact bmono' s' su iu (bizMatch_mono h)
      · intro row hr
        rcases List.mem_cons.mp hr with rfl | hrt
        · refine ⟨st.ctr, st.ctr + 1, bmono' _ _ _ ?_⟩
          refine ⟨?_, ?_, ?_, ?_⟩ <;>
            · apply List.mem_append_left
              simp [supplierBlock]
        · exact rows' row hrt
      · intro s' pu iu h
        exact ((prodMatch_supplierBlock hInv) s' pu iu).mp (pupper' s' pu iu h)

/-! ### The bulk name update, from scratch -/

theorem nameInserts_shape {R : List SupplierSummary} {db : List Triple} {t : Triple}
    (h : t ∈ nameInserts R db) :
    ∃ su row, row ∈ R ∧ t = Triple.mk su "gr:name" (Obj.str row.name) ∧
      supplierMatches db (toString row.id) su = true := by
  unfold nameInserts at h
  rw [List.mem_flatten] at h
  obtain ⟨l, hl, htl⟩ := h
  rw [List.mem_map] at hl
  obtain ⟨row, hrow, rfl⟩ := hl
  rw [List.mem_map] at htl
  obtain ⟨su, hsu, rfl⟩ := htl
  rw [List.mem_filter] at hsu
  exact ⟨su, row, hrow, rfl, hsu.2⟩

theorem bizMatch_bulk {R : List SupplierSummary} {db : List Triple} {s' : String}
    {su iu : Node} (h : BizMatch db s' su iu) : BizMatch (bulkNames R db) s' su iu := by
  obtain ⟨h1, h2, h3, h4⟩ := h
  have lift : ∀ (x : Triple), x ∈ db → x.p ≠ "gr:name" → x ∈ bulkNames R db := by
    intro x hx hp
    unfold bulkNames
    rw [mem_insertData]
    right
    rw [List.mem_filter]
    refine ⟨hx, ?_⟩
    rw [decide_eq_true_iff]
    rintro ⟨hpn, _⟩
    exact hp hpn
  exact ⟨lift _ h1 (by simp), lift _ h2 (by simp), lift _ h3 (by simp),
    lift _ h4 (by simp)⟩

theorem prodMatch_bulk_upper {R : List SupplierSummary} {db : List Triple} {s' : String}
    {pu iu : Node} (h : ProdMatch (bulkNames R db) s' pu iu) : ProdMatch db s' pu iu := by
  obtain ⟨h1, h2, h3, h4, h5⟩ := h
  have drop : ∀ (x : Triple), x ∈ bulkNames R db → x.p ≠ "gr:name" → x ∈ db := by
    intro x hx hp
    unfold bulkNames at hx
    rcases mem_insertData.mp hx with hins | hfil
    · obtain ⟨su, row, _, rfl, _⟩ := nameInserts_shape hins
      exact absurd rfl hp
    · exact (List.mem_filter.mp hfil).1
  exact ⟨drop _ h1 (by simp), drop _ h2 (by simp), drop _ h3 (by simp),
    drop _ h4 (by simp), drop _ h5 (by simp)⟩

theorem bulkNames_establish {R : List SupplierSummary} {st : St} (hInv : Inv st)
    (hrows : ∀ row ∈ R, ∃ ns ni,
      BizMatch st.store (toString row.id) (.supplier ns) (.identifier ni))
    (htame : NameTame R st.store) :
    Inv { st with store := (bulkNames R st.store) } ∧
      RosterSat R (bulkNames R st.store) ∧
      NameTame R (bulkNames R st.store) := by
  refine ⟨?_, ?_, ?_⟩
  · have hfil : Inv { st with store := st.store.filter (fun t =>
        decide ¬(t.p = "gr:name" ∧
          R.any (fun sup => supplierMatches st.store (toString sup.id) t.s) = true)) } :=
      inv_filter hInv
    have htm : ∀ t ∈ nameInserts R st.store, tameT t := by
      intro t ht
      obtain ⟨su, row, _, rfl, _⟩ := nameInserts_shape ht
      refine ⟨by simp [APreds], by simp, by simp, by simp⟩
    have hmt : ∀ t ∈ nameInserts R st.store, ∀ (u : Node) (k : Nat),
        mentionsNode t u → idx u = some k → k < st.ctr := by
      intro t ht u k hm hk
      obtain ⟨su, row, _, rfl, hsm⟩ := nameInserts_shape ht
      obtain ⟨iu, hbm⟩ := supplierMatches_sound hsm
      rcases hm with hs | ho
      · dsimp only at hs
        subst hs
        exact hInv.fresh _ hbm.1 su (Or.inl rfl) k hk
      · simp at ho
    exact @inv_insert_tame _ (nameInserts R st.store) hfil htm hmt
  · intro row hrow
    obtain ⟨ns, ni, hbm⟩ := hrows row hrow
    refine ⟨ns, ni, bizMatch_bulk hbm, ?_⟩
    unfold bulkNames
    rw [mem_insertData]
    left
    unfold nameInserts
    rw [List.mem_flatten]
    refine ⟨((st.store.map (fun tr => tr.s)).filter
        (fun su => supplierMatches st.store (toString row.id) su)).map
        (fun su => Triple.mk su "gr:name" (Obj.str row.name)), ?_, ?_⟩
    · rw [List.mem_map]
      exact ⟨row, hrow, rfl⟩
    · rw [List.mem_map]
      refine ⟨Node.supplier ns, ?_, rfl⟩
      rw [List.mem_filter]
      refine ⟨?_, supplierMatches_of hbm⟩
      rw [List.mem_map]
      exact ⟨_, hbm.1, rfl⟩
  · intro t ht hp
    rcases mem_insertData.mp ht with hins | hfil
    · obtain ⟨su, row, hrow, rfl, hsm⟩ := nameInserts_shape hins
      obtain ⟨iu, hbm⟩ := supplierMatches_sound hsm
      exact ⟨row, hrow, ⟨iu, bizMatch_bulk hbm⟩, rfl⟩
    · obtain ⟨row, hrow, ⟨iu, hbm⟩, hobj⟩ :=
        htame t (List.mem_filter.mp hfil).1 hp
      exact ⟨row, hrow, ⟨iu, bizMatch_bulk hbm⟩, hobj⟩

/-! ### loadSuppliers, from scratch -/

theorem loadSuppliers_establish {R : List SupplierSummary} {st : St}
    (hInv : Inv st) (hnoProd : ∀ (s' : String) (pu iu : Node), ¬ ProdMatch st.store s' pu iu)
    (htame : NameTame R st.store) :
    Inv (loadSuppliers R st) ∧ RosterSat R (loadSuppliers R st).store ∧
      NameTame R (loadSuppliers R st).store ∧
      (∀ (s' : String) (pu iu : Node), ¬ ProdMatch (loadSuppliers R st).store s' pu iu) ∧
      st.ctr ≤ (loadSuppliers R st).ctr ∧
      (loadSuppliers R st).downloads = st.downloads ∧
      (loadSuppliers R st).now = st.now := by
  obtain ⟨inv1, ctr1, mono1, names1, bmono1, rows1, pupper1, dl1, nw1⟩ :=
    ensureSupplierEntities_establish R st hInv
  have htame1 : NameTame R (ensureSupplierEntities R st).store := by
    intro t ht hp
    obtain ⟨row, hrow, ⟨iu, hbm⟩, hobj⟩ := htame t ((names1 t hp).mp ht) hp
    exact ⟨row, hrow, ⟨iu, bmono1 _ _ _ hbm⟩, hobj⟩
  obtain ⟨invB, rosterB, tameB⟩ := bulkNames_establish inv1 rows1 htame1
  unfold loadSuppliers
  refine ⟨invB, rosterB, tameB, ?_, ?_, ?_, ?_⟩
  · intro s' pu iu h
    exact hnoProd s' pu iu (pupper1 s' pu iu (prodMatch_bulk_upper h))
  · exact le_trans ctr1 (Nat.le_refl _)
  · exact dl1
  · exact nw1

/-! ### Fresh-path equations for the pricing and offering resolvers -/

theorem firstObj_none_of {db : List Triple} {u : Node} {p : String}
    (h : ∀ o : Obj, Triple.mk u p o ∉ db) : firstObj db u p = none := by
  cases hf : firstObj db u p with
  | none => rfl
  | some o => exact absurd (firstObj_some_mem hf) (h o)

/-- The three-triple block a failed find-or-create lookup inserts. -/
def ownBlock (owner : Node) (rel ty : String) (u : Node) (n : Nat) : List Triple :=
  [⟨owner, rel, .node u⟩, ⟨u, "a", .node (.ext ty)⟩, ⟨u, "mu:uuid", .str (toString n)⟩]

theorem findOrCreate_none {owner : Node} {rel ty : String} {mk : Nat → Node} {st : St}
    (h : firstObj st.store owner rel = none) :
    findOrCreate owner rel ty mk st = (mk st.ctr,
      { store := (ownBlock owner rel ty (mk st.ctr) st.ctr ++ st.store),
        ctr := st.ctr + 1, downloads := st.downloads, now := st.now }) := by
  unfold findOrCreate
  rw [h]
  rfl

theorem ensureProductMeta_new {d : Product} {st : St}
    (h : findProductMeta st.store (toString d.id) = none) :
    ensureProductMeta d st = ((Node.product st.ctr, Node.identifier (st.ctr + 1)),
      { store := (productMetaBlock st.ctr (st.ctr + 1) (toString d.id) ++ st.store),
        ctr := st.ctr + 2, downloads := st.downloads, now := st.now }) := by
  unfold ensureProductMeta
  dsimp only
  rw [h]
  rfl

theorem dp_fresh {d : Product} {pu : Node} {st : St} {cef : String}
    (h1 : ∀ o : Obj, Triple.mk pu "veeakker:singleUnitPrice" o ∉ st.store)
    (h2 : ∀ o : Obj, Triple.mk pu "veeakker:targetUnit" o ∉ st.store)
    (hc : convertLfwUnitToCEFACT d.pricing.consumerPrice.measurementUnitPrice.unitOfMeasurement
      = .ok cef) :
    ensureProductDefaultPricing d pu st = .ok
      { store := (replaceGroup (Node.quantVal (st.ctr + 1)) targetPreds
          (targetT (Node.quantVal (st.ctr + 1)) cef d.pricing.measurementUnitVsOrderUnitRatio)
          (replaceGroup (Node.priceSpec st.ctr) specPreds
            (specT (Node.priceSpec st.ctr) cef
              d.pricing.consumerPrice.measurementUnitPrice.money.amount)
            (ownBlock pu "veeakker:targetUnit" "gr:QuantitativeValue"
                (Node.quantVal (st.ctr + 1)) (st.ctr + 1)
              ++ ownBlock pu "veeakker:singleUnitPrice" "gr:UnitPriceSpecification"
                (Node.priceSpec st.ctr) st.ctr
              ++ st.store))),
        ctr := st.ctr + 2, downloads := st.downloads, now := st.now } := by
  have e1 := @findOrCreate_none pu "veeakker:singleUnitPrice" "gr:UnitPriceSpecification"
    Node.priceSpec st (firstObj_none_of h1)
  have h2' : ∀ o : Obj, Triple.mk pu "veeakker:targetUnit" o
      ∉ (ownBlock pu "veeakker:singleUnitPrice" "gr:UnitPriceSpecification"
        (Node.priceSpec st.ctr) st.ctr ++ st.store) := by
    intro o ho
    rcases List.mem_append.mp ho with hb | hd
    · simp [ownBlock] at hb
    · exact h2 o hd
  have e2 := @findOrCreate_none pu "veeakker:targetUnit" "gr:QuantitativeValue"
    Node.quantVal
    { store := (ownBlock pu "veeakker:singleUnitPrice" "gr:UnitPriceSpecification"
        (Node.priceSpec st.ctr) st.ctr ++ st.store),
      ctr := st.ctr + 1, downloads := st.downloads, now := st.now }
    (firstObj_none_of h2')
  unfold ensureProductDefaultPricing
  rw [show ensureSingleUnitPriceResource pu st
      = findOrCreate pu "veeakker:singleUnitPrice" "gr:UnitPriceSpecification"
        Node.priceSpec st from rfl, e1]
  dsimp only
  rw [show ensureTargetUnitResource pu
      { store := (ownBlock pu "veeakker:singleUnitPrice" "gr:UnitPriceSpecification"
          (Node.priceSpec st.ctr) st.ctr ++ st.store),
        ctr := st.ctr + 1, downloads := st.downloads, now := st.now }
      = findOrCreate pu "veeakker:targetUnit" "gr:QuantitativeValue" Node.quantVal
        { store := (ownBlock pu "veeakker:singleUnitPrice" "gr:UnitPriceSpecification"
            (Node.priceSpec st.ctr) st.ctr ++ st.store),
          ctr := st.ctr + 1, downloads := st.downloads, now := st.now } from rfl, e2]
  dsimp only
  rw [hc]
  simp only [convErr, Except.bind, bind, pure, Except.pure]
  rfl

theorem offers_fresh {d : Product} {pu : Node} {st : St} {cef : String}
    (h3 : ∀ o : Obj, Triple.mk pu "veeakker:offerings" o ∉ st.store)
    (hment : ∀ t ∈ st.store, ¬ mentionsNode t (.offering st.ctr))
    (hc : convertLfwUnitToCEFACT d.pricing.consumerPrice.measurementUnitPrice.unitOfMeasurement
      = .ok cef) :
    ensureProductOffers d pu st = .ok
      (⟨.offering st.ctr, .typeAndQuantity (st.ctr + 1), .priceSpec (st.ctr + 2)⟩,
      { store := (replaceGroup (Node.typeAndQuantity (st.ctr + 1)) taqPreds
          (taqT (Node.typeAndQuantity (st.ctr + 1))
            d.pricing.measurementUnitVsOrderUnitRatio cef)
          (replaceGroup (Node.priceSpec (st.ctr + 2)) upsPreds
            (upsT (Node.priceSpec (st.ctr + 2))
              d.pricing.consumerPrice.orderUnitPrice.money.amount)
            (ownBlock (.offering st.ctr) "gr:hasPriceSpecification"
                "gr:UnitPriceSpecification" (Node.priceSpec (st.ctr + 2)) (st.ctr + 2)
              ++ ownBlock (.offering st.ctr) "gr:includesObject" "gr:TypeAndQuantityNode"
                (Node.typeAndQuantity (st.ctr + 1)) (st.ctr + 1)
              ++ ownBlock pu "veeakker:offerings" "gr:Offering"
                (Node.offering st.ctr) st.ctr
              ++ st.store))),
        ctr := st.ctr + 3, downloads := st.downloads, now := st.now }) := by
  have e3 := @findOrCreate_none pu "veeakker:offerings" "gr:Offering" Node.offering st
    (firstObj_none_of h3)
  have h4' : ∀ o : Obj, Triple.mk (Node.offering st.ctr) "gr:includesObject" o
      ∉ (ownBlock pu "veeakker:offerings" "gr:Offering" (Node.offering st.ctr) st.ctr
        ++ st.store) := by
    intro o ho
    rcases List.mem_append.mp ho with hb | hd
    · simp [ownBlock] at hb
    · exact hment _ hd (Or.inl rfl)
  have e4 := @findOrCreate_none (Node.offering st.ctr) "gr:includesObject"
    "gr:TypeAndQuantityNode" Node.typeAndQuantity
    { store := (ownBlock pu "veeakker:offerings" "gr:Offering"
        (Node.offering st.ctr) st.ctr ++ st.store),
      ctr := st.ctr + 1, downloads := st.downloads, now := st.now }
    (firstObj_none_of h4')
  have h5' : ∀ o : Obj, Triple.mk (Node.offering st.ctr) "gr:hasPriceSpecification" o
      ∉ (ownBlock (.offering st.ctr) "gr:includesObject" "gr:TypeAndQuantityNode"
          (Node.typeAndQuantity (st.ctr + 1)) (st.ctr + 1)
        ++ (ownBlock pu "veeakker:offerings" "gr:Offering" (Node.offering st.ctr) st.ctr
        ++ st.store)) := by
    intro o ho
    rcases List.mem_append.mp ho with hb | ho2
    · simp [ownBlock] at hb
    · rcases List.mem_append.mp ho2 with hb | hd
      · simp [ownBlock] at hb
      · exact hment _ hd (Or.inl rfl)
  have e5 := @findOrCreate_none (Node.offering st.ctr) "gr:hasPriceSpecification"
    "gr:UnitPriceSpecification" Node.priceSpec
    { store := (ownBlock (.offering st.ctr) "gr:includesObject" "gr:TypeAndQuantityNode"
        (Node.typeAndQuantity (st.ctr + 1)) (st.ctr + 1)
      ++ (ownBlock pu "veeakker:offerings" "gr:Offering" (Node.offering st.ctr) st.ctr
      ++ st.store)),
      ctr := st.ctr + 2, downloads := st.downloads, now := st.now }
    (firstObj_none_of h5')
  unfold ensureProductOffers ensureOfferingResources
  rw [show ensureOffering pu st
      = findOrCreate pu "veeakker:offerings" "gr:Offering" Node.offering st from rfl, e3]
  dsimp only
  rw [show ∀ s, ensureOfferingTypeAndQuantity (Node.offering st.ctr) s
      = findOrCreate (Node.offering st.ctr) "gr:includesObject" "gr:TypeAndQuantityNode"
        Node.typeAndQuantity s from fun s => rfl, e4]
  dsimp only
  rw [show ∀ s, ensureOfferingUnitPrice (Node.offering st.ctr) s
      = findOrCreate (Node.offering st.ctr) "gr:hasPriceSpecification"
        "gr:UnitPriceSpecification" Node.priceSpec s from fun s => rfl, e5]
  dsimp only
  rw [hc]
  simp only [convErr, Except.bind, bind, pure, Except.pure]
  rfl

theorem hasThumbSource_false_of {db : List Triple} {pu : Node} {url : String}
    (h : ∀ o : Obj, Triple.mk pu "veeakker:thumbnail" o ∉ db) :
    hasThumbSource db pu url = false := by
  cases hb : hasThumbSource db pu url
  · rfl
  · exfalso
    unfold hasThumbSource at hb
    rw [List.any_eq_true] at hb
    obtain ⟨t, ht, hc⟩ := hb
    rw [Bool.and_eq_true] at hc
    have hsp := of_decide_eq_true hc.1
    apply h t.o
    have : Triple.mk pu "veeakker:thumbnail" t.o = t := by
      rcases t with ⟨s, p', o'⟩
      dsimp only at hsp
      rw [hsp.1, hsp.2]
    rwa [this]

theorem ensureProductPicture_fresh {d : Product} {pu : Node} {st : St}
    (h : ∀ o : Obj, Triple.mk pu "veeakker:thumbnail" o ∉ st.store) :
    ensureProductPicture d pu st = (if truthyOpt d.image then
      { store := (newPictureBlock pu (d.image.getD "") st.ctr (st.ctr + 1) st.now
          ++ st.store),
        ctr := st.ctr + 2, downloads := ((d.image.getD "") :: st.downloads),
        now := st.now }
    else st) := by
  have hask : ¬((truthyOpt d.image
      && hasThumbSource st.store pu (d.image.getD "")) = true) := by
    rw [hasThumbSource_false_of h, Bool.and_false]
    simp
  unfold ensureProductPicture
  dsimp only
  rw [if_neg hask, picDeleteShare_id h, picDeleteFile_id h, picDeleteEdge_id h]
  cases himg : truthyOpt d.image
  · rw [if_neg (by simp), if_neg (by simp)]
  · rw [if_pos rfl, if_pos rfl]
    rfl

/-! ### Match-safe blocks: inserts that cannot build identity joins -/

def matchSafeT (t : Triple) : Prop :=
  t.p ≠ "adms:identifier" ∧ t.p ≠ "skos:notation" ∧ t.p ≠ "dct:creator" ∧
  (t.p = "a" → t.o ≠ Obj.node (.ext "schema:Product") ∧
    t.o ≠ Obj.node (.ext "adms:Identifier") ∧ t.o ≠ Obj.node (.ext "gr:BusinessEntity"))

theorem tameT_matchSafe {t : Triple} (h : tameT t) : matchSafeT t := by
  obtain ⟨h1, h2, h3, h4⟩ := h
  refine ⟨?_, h2, h3, h4⟩
  intro he
  apply h1
  rw [he]
  simp [APreds]

theorem prodMatch_insert_msafe {db B : List Triple} {idStr : String} {pu iu : Node}
    (hsafe : ∀ t ∈ B, matchSafeT t) :
    ProdMatch (B ++ db) idStr pu iu ↔ ProdMatch db idStr pu iu := by
  constructor
  · rintro ⟨h1, h2, h3, h4, h5⟩
    refine ⟨?_, ?_, ?_, ?_, ?_⟩
    · rcases List.mem_append.mp h1 with hb | hd
      · exact absurd rfl (hsafe _ hb).1
      · exact hd
    · rcases List.mem_append.mp h2 with hb | hd
      · exact absurd rfl ((hsafe _ hb).2.2.2 rfl).1
      · exact hd
    · rcases List.mem_append.mp h3 with hb | hd
      · exact absurd rfl ((hsafe _ hb).2.2.2 rfl).2.1
      · exact hd
    · rcases List.mem_append.mp h4 with hb | hd
      · exact absurd rfl (hsafe _ hb).2.1
      · exact hd
    · rcases List.mem_append.mp h5 with hb | hd
      · exact absurd rfl (hsafe _ hb).2.2.1
      · exact hd
  · exact prodMatch_mono

theorem bizMatch_insert_msafe {db B : List Triple} {idStr : String} {su iu : Node}
    (hsafe : ∀ t ∈ B, matchSafeT t) :
    BizMatch (B ++ db) idStr su iu ↔ BizMatch db idStr su iu := by
  constructor
  · rintro ⟨h1, h2, h3, h4⟩
    refine ⟨?_, ?_, ?_, ?_⟩
    · rcases List.mem_append.mp h1 with hb | hd
      · exact absurd rfl (hsafe _ hb).1
      · exact hd
    · rcases List.mem_append.mp h2 with hb | hd
      · exact absurd rfl ((hsafe _ hb).2.2.2 rfl).2.2
      · exact hd
    · rcases List.mem_append.mp h3 with hb | hd
      · exact absurd rfl (hsafe _ hb).2.2.1
      · exact hd
    · rcases List.mem_append.mp h4 with hb | hd
      · exact absurd rfl (hsafe _ hb).2.1
      · exact hd
  · exact bizMatch_mono

theorem prodMatch_sub {a b : List Triple} {idStr : String} {pu iu : Node}
    (hsub : ∀ t : Triple, t ∈ a → t ∈ b)
    (h : ProdMatch a idStr pu iu) : ProdMatch b idStr pu iu := by
  obtain ⟨h1, h2, h3, h4, h5⟩ := h
  exact ⟨hsub _ h1, hsub _ h2, hsub _ h3, hsub _ h4, hsub _ h5⟩

theorem bizMatch_sub {a b : List Triple} {idStr : String} {su iu : Node}
    (hsub : ∀ t : Triple, t ∈ a → t ∈ b)
    (h : BizMatch a idStr su iu) : BizMatch b idStr su iu := by
  obtain ⟨h1, h2, h3, h4⟩ := h
  exact ⟨hsub _ h1, hsub _ h2, hsub _ h3, hsub _ h4⟩

theorem prodMatch_replace_upper {db T : List Triple} {v : Node} {Q : List String}
    {idStr : String} {pu iu : Node}
    (hsafe : ∀ t ∈ T, matchSafeT t)
    (h : ProdMatch (replaceGroup v Q T db) idStr pu iu) : ProdMatch db idStr pu iu := by
  have h2 := (prodMatch_insert_msafe hsafe).mp h
  exact prodMatch_sub (fun t ht => (mem_deleteProps.mp ht).1) h2

theorem bizMatch_replace_upper {db T : List Triple} {v : Node} {Q : List String}
    {idStr : String} {su iu : Node}
    (hsafe : ∀ t ∈ T, matchSafeT t)
    (h : BizMatch (replaceGroup v Q T db) idStr su iu) : BizMatch db idStr su iu := by
  have h2 := (bizMatch_insert_msafe hsafe).mp h
  exact bizMatch_sub (fun t ht => (mem_deleteProps.mp ht).1) h2

/-! ### The find-or-create block and the invariant -/

theorem ownBlock_mentions {owner u : Node} {rel ty : String} {n : Nat} {t : Triple}
    {v : Node} (h : t ∈ ownBlock owner rel ty u n) (hm : mentionsNode t v) :
    v = owner ∨ v = u ∨ idx v = none := by
  simp only [ownBlock, List.mem_cons, List.not_mem_nil, or_false] at h
  rcases h with rfl|rfl|rfl <;> rcases hm with hs | ho
  all_goals first
    | exact Or.inl hs.symm
    | exact Or.inr (Or.inl hs.symm)
    | (simp only [Obj.node.injEq] at ho
       exact Or.inr (Or.inl ho.symm))
    | (simp only [Obj.node.injEq] at ho
       subst ho
       exact Or.inr (Or.inr rfl))
    | simp at ho

theorem ownBlock_apreds {owner u : Node} {rel ty : String} {n : Nat} {t : Triple}
    (_hrel : rel ∈ APreds) (h : t ∈ ownBlock owner rel ty u n) (hp : t.p ∈ APreds) :
    t = Triple.mk owner rel (Obj.node u) := by
  simp only [ownBlock, List.mem_cons, List.not_mem_nil, or_false] at h
  rcases h with rfl|rfl|rfl
  · rfl
  · simp [APreds] at hp
  · simp [APreds] at hp

theorem ownBlock_msafe {owner u : Node} {rel ty : String} {n : Nat}
    (hrelne : rel ≠ "adms:identifier") (hrelA : rel ∈ APreds)
    (hty1 : ty ≠ "schema:Product") (hty2 : ty ≠ "adms:Identifier")
    (hty3 : ty ≠ "gr:BusinessEntity") :
    ∀ t ∈ ownBlock owner rel ty u n, matchSafeT t := by
  intro t ht
  simp only [ownBlock, List.mem_cons, List.not_mem_nil, or_false] at ht
  rcases ht with rfl|rfl|rfl
  · unfold matchSafeT
    dsimp only
    refine ⟨hrelne, ?_, ?_, ?_⟩
    · intro he
      rw [he] at hrelA
      simp [APreds] at hrelA
    · intro he
      rw [he] at hrelA
      simp [APreds] at hrelA
    · intro he
      rw [he] at hrelA
      simp [APreds] at hrelA
  · unfold matchSafeT
    dsimp only
    refine ⟨by simp, by simp, by simp, ?_⟩
    intro _
    refine ⟨?_, ?_, ?_⟩ <;>
      · intro he
        rw [Obj.node.injEq, Node.ext.injEq] at he
        first
          | exact hty1 he
          | exact hty2 he
          | exact hty3 he
  · exact ⟨by simp, by simp, by simp, by simp⟩

theorem inv_insert_own {st : St} {owner : Node} {rel ty : String}
    (hInv : Inv st)
    (hrelA : rel ∈ APreds) (hrelne : rel ≠ "adms:identifier")
    (hty1 : ty ≠ "schema:Product") (hty2 : ty ≠ "adms:Identifier")
    (hty3 : ty ≠ "gr:BusinessEntity")
    {u : Node} (hidx : idx u = some st.ctr)
    (hown : ∀ k, idx owner = some k → k < st.ctr)
    (hnone : ∀ o : Obj, Triple.mk owner rel o ∉ st.store) :
    Inv { store := (ownBlock owner rel ty u st.ctr ++ st.store),
          ctr := st.ctr + 1, downloads := st.downloads, now := st.now } := by
  have F : ∀ t ∈ st.store, ¬ mentionsNode t u :=
    hInv.freshFor hidx (Nat.le_refl _)
  have hmsafe := @ownBlock_msafe owner u rel ty st.ctr hrelne hrelA hty1 hty2 hty3
  constructor
  · intro t ht v hm k hk
    show k < st.ctr + 1
    rcases List.mem_append.mp ht with hb | hd
    · rcases ownBlock_mentions hb hm with rfl | rfl | hnone'
      · have := hown k hk
        omega
      · rw [hidx] at hk
        injection hk with hk
        omega
      · rw [hnone'] at hk
        cases hk
    · have := hInv.fresh t hd v hm k hk
      omega
  · intro p hp w o1 o2 h1 h2
    rcases List.mem_append.mp h1 with hb1 | hd1 <;>
      rcases List.mem_append.mp h2 with hb2 | hd2
    · have e1 := ownBlock_apreds hrelA hb1 hp
      have e2 := ownBlock_apreds hrelA hb2 hp
      injection e1 with e1s e1p e1o
      injection e2 with e2s e2p e2o
      rw [e1o, e2o]
    · exfalso
      have e1 := ownBlock_apreds hrelA hb1 hp
      injection e1 with e1s e1p e1o
      rw [e1s, e1p] at hd2
      exact hnone o2 hd2
    · exfalso
      have e2 := ownBlock_apreds hrelA hb2 hp
      injection e2 with e2s e2p e2o
      rw [e2s, e2p] at hd1
      exact hnone o1 hd1
    · exact hInv.funA p hp w o1 o2 hd1 hd2
  · intro p1 hp1 p2 hp2 u1 u2 v h1 h2
    rcases List.mem_append.mp h1 with hb1 | hd1 <;>
      rcases List.mem_append.mp h2 with hb2 | hd2
    · have e1 := ownBlock_apreds hrelA hb1 hp1
      have e2 := ownBlock_apreds hrelA hb2 hp2
      injection e1 with e1s e1p e1o
      injection e2 with e2s e2p e2o
      rw [e1s, e2s, e1p, e2p]
      exact ⟨rfl, rfl⟩
    · exfalso
      have e1 := ownBlock_apreds hrelA hb1 hp1
      injection e1 with e1s e1p e1o
      rw [Obj.node.injEq] at e1o
      rw [e1o] at hd2
      exact F _ hd2 (Or.inr rfl)
    · exfalso
      have e2 := ownBlock_apreds hrelA hb2 hp2
      injection e2 with e2s e2p e2o
      rw [Obj.node.injEq] at e2o
      rw [e2o] at hd1
      exact F _ hd1 (Or.inr rfl)
    · exact hInv.invA p1 hp1 p2 hp2 u1 u2 v hd1 hd2
  · intro iu v1 v2 h1 h2
    have hnot : ∀ {vv : Obj}, Triple.mk iu "skos:notation" vv
        ∈ ownBlock owner rel ty u st.ctr → False := by
      intro vv hb
      exact absurd rfl (hmsafe _ hb).2.1
    rcases List.mem_append.mp h1 with hb1 | hd1
    · exact absurd hb1 (fun hx => hnot hx)
    rcases List.mem_append.mp h2 with hb2 | hd2
    · exact absurd hb2 (fun hx => hnot hx)
    exact hInv.notF iu v1 v2 hd1 hd2
  · intro s' pu1 iu1 pu2 iu2 h1 h2
    have h1' := (prodMatch_insert_msafe hmsafe).mp h1
    have h2' := (prodMatch_insert_msafe hmsafe).mp h2
    exact hInv.metaU s' pu1 iu1 pu2 iu2 h1' h2'
  · intro s' su1 iu1 su2 iu2 h1 h2
    have h1' := (bizMatch_insert_msafe hmsafe).mp h1
    have h2' := (bizMatch_insert_msafe hmsafe).mp h2
    exact hInv.bizU s' su1 iu1 su2 iu2 h1' h2'
  · intro s' pu iu h
    exact hInv.prodShape s' pu iu ((prodMatch_insert_msafe hmsafe).mp h)
  · intro s' su iu h
    exact hInv.bizShape s' su iu ((bizMatch_insert_msafe hmsafe).mp h)

theorem inv_replace_tame {st : St} {u : Node} {Q : List String} {T : List Triple}
    (hInv : Inv st) (htame : ∀ t ∈ T, tameT t)
    (hment : ∀ t ∈ T, ∀ (v : Node) (k : Nat), mentionsNode t v → idx v = some k →
      k < st.ctr) :
    Inv { st with store := (replaceGroup u Q T st.store) } :=
  @inv_insert_tame { st with store := deleteProps u Q st.store } T
    (inv_filter hInv) htame hment

/-! ### Frame: facts about other products survive fresh-node writes -/

theorem node_ne_of_idx {w v : Node} {c kv : Nat}
    (hv : idx v = some kv) (hc : c ≤ kv)
    (hw : ∀ k, idx w = some k → k < c) : w ≠ v := by
  intro he
  subst he
  have := hw kv hv
  omega

theorem picSat_ins {d' : Product} {pu' : Node} {db B : List Triple}
    (hB : ∀ t ∈ B, t.p = "veeakker:thumbnail" → t.s ≠ pu')
    (h : PicSat d' pu' db) : PicSat d' pu' (B ++ db) := by
  unfold PicSat at h ⊢
  by_cases himg : truthyOpt d'.image = true
  · rw [if_pos himg] at h ⊢
    obtain ⟨f, h1, h2⟩ := h
    exact ⟨f, List.mem_append_right _ h1, List.mem_append_right _ h2⟩
  · rw [if_neg himg] at h ⊢
    intro o ho
    rcases List.mem_append.mp ho with hb | hd
    · exact hB _ hb rfl rfl
    · exact h o hd

theorem picSat_del {d' : Product} {pu' : Node} {db : List Triple} {v : Node}
    {Q : List String} {c kv : Nat}
    (hold : ∀ t ∈ db, ∀ (u : Node) (k : Nat), mentionsNode t u → idx u = some k → k < c)
    (hv : idx v = some kv) (hc : c ≤ kv)
    (h : PicSat d' pu' db) : PicSat d' pu' (deleteProps v Q db) := by
  unfold PicSat at h ⊢
  by_cases himg : truthyOpt d'.image = true
  · rw [if_pos himg] at h ⊢
    obtain ⟨f, h1, h2⟩ := h
    have hne1 : pu' ≠ v :=
      node_ne_of_idx hv hc (fun k hk => hold _ h1 pu' k (Or.inl rfl) hk)
    have hne2 : f ≠ v := by
      intro he
      subst he
      have := hold _ h1 f kv (Or.inr rfl) hv
      omega
    refine ⟨f, mem_deleteProps.mpr ⟨h1, ?_⟩, mem_deleteProps.mpr ⟨h2, ?_⟩⟩
    · rintro ⟨hs, -⟩
      exact hne1 hs
    · rintro ⟨hs, -⟩
      exact hne2 hs
  · rw [if_neg himg] at h ⊢
    intro o ho
    exact h o (mem_deleteProps.mp ho).1

theorem groupSat_ins_fresh {db B : List Triple} {u : Node} {P : List String}
    {T : List Triple} {c k : Nat}
    (hu : idx u = some k) (hkc : k < c)
    (hB : ∀ t ∈ B, ∃ kk, idx t.s = some kk ∧ c ≤ kk)
    (h : groupSat db u P T) : groupSat (B ++ db) u P T := by
  apply groupSat_insert ?_ h
  intro t ht
  rintro ⟨hs, -⟩
  obtain ⟨kk, hkk, hck⟩ := hB t ht
  rw [hs, hu] at hkk
  injection hkk with hkk
  omega

theorem groupSat_del_fresh {db : List Triple} {u v : Node} {Q P : List String}
    {T : List Triple} {c k kv : Nat}
    (hu : idx u = some k) (hkc : k < c)
    (hv : idx v = some kv) (hc : c ≤ kv)
    (hT : ∀ t ∈ T, t.s = u)
    (h : groupSat db u P T) : groupSat (deleteProps v Q db) u P T := by
  apply groupSat_delete ?_ h
  intro t ht
  rintro ⟨hs, -⟩
  rw [hT t ht] at hs
  exact node_ne_of_idx hv hc (fun kk hkk => by rw [hu] at hkk; injection hkk with hkk; omega) hs


theorem baseInfoTriples_subj (p : Product) (pu : Node) :
    ∀ t ∈ baseInfoTriples p pu, t.s = pu := by
  intro t ht
  unfold baseInfoTriples at ht
  simp only [List.mem_append, List.mem_cons, List.not_mem_nil, or_false] at ht
  rcases ht with (((h1 | h1) | h1) | h1) | h1 | h1 | h1
  · subst h1; rfl
  · rcases hd : p.description with _ | dsc
    · rw [hd] at h1; simp at h1
    · rw [hd] at h1
      by_cases he : dsc = ""
      · simp [he] at h1
      · simp only [he, if_false, List.mem_singleton] at h1
        subst h1; rfl
  · subst h1; rfl
  · by_cases hb : p.bio
    · simp only [hb, if_true, List.mem_singleton] at h1
      subst h1; rfl
    · simp [hb] at h1
  · subst h1; rfl
  · subst h1; rfl
  · subst h1; rfl

theorem specT_subj {u : Node} {cef : String} {q : ℚ} : ∀ t ∈ specT u cef q, t.s = u := by
  intro t ht
  simp only [specT, List.mem_cons, List.not_mem_nil, or_false] at ht
  rcases ht with rfl | rfl <;> rfl

theorem targetT_subj {u : Node} {cef : String} {q : ℚ} :
    ∀ t ∈ targetT u cef q, t.s = u := by
  intro t ht
  simp only [targetT, List.mem_cons, List.not_mem_nil, or_false] at ht
  rcases ht with rfl | rfl <;> rfl

theorem upsT_subj {u : Node} {q : ℚ} : ∀ t ∈ upsT u q, t.s = u := by
  intro t ht
  simp only [upsT, List.mem_cons, List.not_mem_nil, or_false] at ht
  rcases ht with rfl | rfl <;> rfl

theorem taqT_subj {u : Node} {q : ℚ} {cef : String} : ∀ t ∈ taqT u q cef, t.s = u := by
  intro t ht
  simp only [taqT, List.mem_cons, List.not_mem_nil, or_false] at ht
  rcases ht with rfl | rfl <;> rfl

theorem ingrT_subj {pu : Node} {o : Option (List Ingredient)} :
    ∀ t ∈ ingrT pu o, t.s = pu := by
  intro t ht
  cases o with
  | none => simp [ingrT] at ht
  | some l =>
    simp only [ingrT, List.mem_cons, List.not_mem_nil, or_false] at ht
    subst ht
    rfl

theorem allergT_subj {pu : Node} {o : Option (List AllergenEntry)} :
    ∀ t ∈ allergT pu o, t.s = pu := by
  intro t ht
  cases o with
  | none => simp [allergT] at ht
  | some l =>
    simp only [allergT, List.mem_cons, List.not_mem_nil, or_false] at ht
    subst ht
    rfl

theorem supT_subj {su : Node} {i : SupplierInfo} {off : Node} :
    ∀ t ∈ supT su i off, t.s = su := by
  intro t ht
  simp only [supT, List.mem_cons, List.not_mem_nil, or_false] at ht
  rcases ht with rfl | rfl | rfl <;> rfl

/-- Full product reflection survives inserting triples whose subjects are all
freshly minted (and carry no `gr:name`). -/
theorem prodSat_ins {c : Nat} {j : Node} {d' : Product} {db B : List Triple}
    (hold : ∀ t ∈ db, ∀ (u : Node) (k : Nat), mentionsNode t u → idx u = some k → k < c)
    (hnshape : ∀ t ∈ db, t.p = "gr:name" → ∃ n, t.s = Node.supplier n)
    (hB : ∀ t ∈ B, (∃ k, idx t.s = some k ∧ c ≤ k) ∧ t.p ≠ "gr:name")
    (h : ProdSat j d' db) : ProdSat j d' (B ++ db) := by
  have hBs : ∀ (w : Node) (k : Nat), idx w = some k → k < c → ∀ t ∈ B, t.s ≠ w := by
    intro w k hw hk t ht he
    obtain ⟨⟨kk, hkk, hck⟩, -⟩ := hB t ht
    rw [he, hw] at hkk
    injection hkk with hkk
    omega
  obtain ⟨np, ni, hm, hbody⟩ := h
  refine ⟨np, ni, prodMatch_mono hm, ?_⟩
  intro hig
  obtain ⟨hprov, hbase, ⟨cef, hcef, ⟨ns, he1, hg1⟩, ⟨nt, he2, hg2⟩,
    ⟨no, he3, ⟨nq, he4, hg4⟩, ⟨nu, he5, hg5⟩, hsup⟩⟩, hingr, hallerg, hpic⟩ := hbody hig
  have bnp : ∀ k, idx (Node.product np) = some k → k < c :=
    fun k hk => hold _ hprov _ k (Or.inl rfl) hk
  have glift : ∀ (u : Node) (k : Nat) (P : List String) (T : List Triple),
      idx u = some k → k < c → groupSat db u P T → groupSat (B ++ db) u P T := by
    intro u k P T hu hk hg
    exact groupSat_ins_fresh hu hk (fun t ht => (hB t ht).1) hg
  refine ⟨List.mem_append_right _ hprov,
    glift _ np _ _ rfl (bnp np rfl) hbase,
    ⟨cef, hcef,
      ⟨ns, List.mem_append_right _ he1,
        glift _ ns _ _ rfl (hold _ he1 _ ns (Or.inr rfl) rfl) hg1⟩,
      ⟨nt, List.mem_append_right _ he2,
        glift _ nt _ _ rfl (hold _ he2 _ nt (Or.inr rfl) rfl) hg2⟩,
      ⟨no, List.mem_append_right _ he3,
        ⟨nq, List.mem_append_right _ he4,
          glift _ nq _ _ rfl (hold _ he4 _ nq (Or.inr rfl) rfl) hg4⟩,
        ⟨nu, List.mem_append_right _ he5,
          glift _ nu _ _ rfl (hold _ he5 _ nu (Or.inr rfl) rfl) hg5⟩, ?_⟩⟩,
    glift _ np _ _ rfl (bnp np rfl) hingr,
    glift _ np _ _ rfl (bnp np rfl) hallerg,
    picSat_ins ?_ hpic⟩
  · intro i hi su hsu
    have hsud : Triple.mk su "gr:name" (Obj.str i.name) ∈ db := by
      rcases List.mem_append.mp hsu with hb | hd
      · exact absurd rfl (hB _ hb).2
      · exact hd
    obtain ⟨n, hsn⟩ := hnshape _ hsud rfl
    have hsn' : su = Node.supplier n := hsn
    have hbn : ∀ k, idx su = some k → k < c :=
      fun k hk => hold _ hsud su k (Or.inl rfl) hk
    refine glift su n _ _ ?_ ?_ (hsup i hi su hsud)
    · rw [hsn']
      rfl
    · have := hbn n (by rw [hsn']; rfl)
      omega
  · intro t ht _
    obtain ⟨⟨kk, hkk, hck⟩, -⟩ := hB t ht
    exact (node_ne_of_idx hkk hck bnp).symm

/-- Full product reflection survives property deletes on freshly minted
subjects. -/
theorem prodSat_del {c : Nat} {j : Node} {d' : Product} {db : List Triple}
    {v : Node} {Q : List String} {kv : Nat}
    (hold : ∀ t ∈ db, ∀ (u : Node) (k : Nat), mentionsNode t u → idx u = some k → k < c)
    (hnshape : ∀ t ∈ db, t.p = "gr:name" → ∃ n, t.s = Node.supplier n)
    (hv : idx v = some kv) (hc : c ≤ kv)
    (h : ProdSat j d' db) : ProdSat j d' (deleteProps v Q db) := by
  have hlift : ∀ (x : Triple), x ∈ db → (∀ k, idx x.s = some k → k < c) →
      x ∈ deleteProps v Q db := by
    intro x hx hb
    refine mem_deleteProps.mpr ⟨hx, ?_⟩
    rintro ⟨hs, -⟩
    exact node_ne_of_idx hv hc hb hs
  obtain ⟨np, ni, hm, hbody⟩ := h
  have hmm := hm
  obtain ⟨hm1, hm2, hm3, hm4, hm5⟩ := hmm
  have bnp : ∀ k, idx (Node.product np) = some k → k < c :=
    fun k hk => hold _ hm1 _ k (Or.inl rfl) hk
  have bni : ∀ k, idx (Node.identifier ni) = some k → k < c :=
    fun k hk => hold _ hm1 _ k (Or.inr rfl) hk
  refine ⟨np, ni,
    ⟨hlift _ hm1 bnp, hlift _ hm2 bnp, hlift _ hm3 bni, hlift _ hm4 bni,
      hlift _ hm5 bni⟩, ?_⟩
  intro hig
  obtain ⟨hprov, hbase, ⟨cef, hcef, ⟨ns, he1, hg1⟩, ⟨nt, he2, hg2⟩,
    ⟨no, he3, ⟨nq, he4, hg4⟩, ⟨nu, he5, hg5⟩, hsup⟩⟩, hingr, hallerg, hpic⟩ := hbody hig
  have gdel : ∀ (u : Node) (k : Nat) (P : List String) (T : List Triple),
      idx u = some k → k < c → (∀ t ∈ T, t.s = u) → groupSat db u P T →
      groupSat (deleteProps v Q db) u P T := by
    intro u k P T hu hk hT hg
    exact groupSat_del_fresh hu hk hv hc hT hg
  refine ⟨hlift _ hprov bnp,
    gdel _ np _ _ rfl (bnp np rfl) (baseInfoTriples_subj _ _) hbase,
    ⟨cef, hcef,
      ⟨ns, hlift _ he1 bnp,
        gdel _ ns _ _ rfl (hold _ he1 _ ns (Or.inr rfl) rfl) specT_subj hg1⟩,
      ⟨nt, hlift _ he2 bnp,
        gdel _ nt _ _ rfl (hold _ he2 _ nt (Or.inr rfl) rfl) targetT_subj hg2⟩,
      ⟨no, hlift _ he3 bnp,
        ⟨nq, hlift _ he4 (fun k hk => hold _ he3 _ k (Or.inr rfl) hk),
          gdel _ nq _ _ rfl (hold _ he4 _ nq (Or.inr rfl) rfl) taqT_subj hg4⟩,
        ⟨nu, hlift _ he5 (fun k hk => hold _ he3 _ k (Or.inr rfl) hk),
          gdel _ nu _ _ rfl (hold _ he5 _ nu (Or.inr rfl) rfl) upsT_subj hg5⟩, ?_⟩⟩,
    gdel _ np _ _ rfl (bnp np rfl) ingrT_subj hingr,
    gdel _ np _ _ rfl (bnp np rfl) allergT_subj hallerg,
    picSat_del hold hv hc hpic⟩
  intro i hi su hsu
  have hsud : Triple.mk su "gr:name" (Obj.str i.name) ∈ db :=
    (mem_deleteProps.mp hsu).1
  obtain ⟨n, hsn⟩ := hnshape _ hsud rfl
  have hsn' : su = Node.supplier n := hsn
  have hbn : ∀ k, idx su = some k → k < c :=
    fun k hk => hold _ hsud su k (Or.inl rfl) hk
  refine gdel su n _ _ ?_ ?_ supT_subj (hsup i hi su hsud)
  · rw [hsn']
    rfl
  · have := hbn n (by rw [hsn']; rfl)
    omega

/-! ### Low-triple invariance across fresh-node surgery -/

/-- Two stores agree on every triple whose subject is not freshly minted. -/
def LowEq (c : Nat) (a b : List Triple) : Prop :=
  ∀ t : Triple, (∀ k, idx t.s = some k → k < c) → (t ∈ a ↔ t ∈ b)

theorem lowEq_refl (c : Nat) (a : List Triple) : LowEq c a a := fun _ _ => Iff.rfl

theorem lowEq_trans {c : Nat} {a b d : List Triple} (h1 : LowEq c a b)
    (h2 : LowEq c b d) : LowEq c a d :=
  fun t hl => (h1 t hl).trans (h2 t hl)

theorem lowEq_ins {c : Nat} {B db : List Triple}
    (hB : ∀ t ∈ B, ∃ k, idx t.s = some k ∧ c ≤ k) : LowEq c db (B ++ db) := by
  intro t hlow
  constructor
  · exact List.mem_append_right _
  · intro hb
    rcases List.mem_append.mp hb with h | h
    · obtain ⟨k, hk, hck⟩ := hB t h
      have := hlow k hk
      omega
    · exact h

theorem lowEq_del {c : Nat} {db : List Triple} {v : Node} {Q : List String} {kv : Nat}
    (hv : idx v = some kv) (hc : c ≤ kv) : LowEq c db (deleteProps v Q db) := by
  intro t hlow
  constructor
  · intro h
    refine mem_deleteProps.mpr ⟨h, ?_⟩
    rintro ⟨hs, -⟩
    rw [hs] at hlow
    have := hlow kv hv
    omega
  · exact fun h => (mem_deleteProps.mp h).1

theorem lowEq_rep {c : Nat} {db T : List Triple} {v : Node} {Q : List String} {kv : Nat}
    (hv : idx v = some kv) (hc : c ≤ kv)
    (hT : ∀ t ∈ T, ∃ k, idx t.s = some k ∧ c ≤ k) :
    LowEq c db (replaceGroup v Q T db) :=
  lowEq_trans (lowEq_del hv hc) (lowEq_ins hT)

/-- Two stores carry exactly the same `gr:name` triples. -/
def NameEq (a b : List Triple) : Prop :=
  ∀ t : Triple, t.p = "gr:name" → (t ∈ a ↔ t ∈ b)

theorem nameEq_refl (a : List Triple) : NameEq a a := fun _ _ => Iff.rfl

theorem nameEq_trans {a b d : List Triple} (h1 : NameEq a b) (h2 : NameEq b d) :
    NameEq a d :=
  fun t hp => (h1 t hp).trans (h2 t hp)

theorem nameEq_ins {B db : List Triple} (hB : ∀ t ∈ B, t.p ≠ "gr:name") :
    NameEq db (B ++ db) := by
  intro t hp
  constructor
  · exact List.mem_append_right _
  · intro hb
    rcases List.mem_append.mp hb with h | h
    · exact absurd hp (hB t h)
    · exact h

theorem nameEq_del {db : List Triple} {v : Node} {Q : List String}
    (hQ : "gr:name" ∉ Q) : NameEq db (deleteProps v Q db) := by
  intro t hp
  constructor
  · intro h
    refine mem_deleteProps.mpr ⟨h, ?_⟩
    rintro ⟨-, hq⟩
    rw [hp] at hq
    exact hQ hq
  · exact fun h => (mem_deleteProps.mp h).1

theorem nameEq_rep {db T : List Triple} {v : Node} {Q : List String}
    (hQ : "gr:name" ∉ Q) (hT : ∀ t ∈ T, t.p ≠ "gr:name") :
    NameEq db (replaceGroup v Q T db) :=
  nameEq_trans (nameEq_del hQ) (nameEq_ins hT)

/-- Two stores have the same product-identity matches. -/
def MatchEq (a b : List Triple) : Prop :=
  ∀ (s : String) (pu iu : Node), ProdMatch b s pu iu ↔ ProdMatch a s pu iu

/-- Two stores have the same supplier-identity matches. -/
def BizEq (a b : List Triple) : Prop :=
  ∀ (s : String) (su iu : Node), BizMatch b s su iu ↔ BizMatch a s su iu

theorem matchEq_refl (a : List Triple) : MatchEq a a := fun _ _ _ => Iff.rfl

theorem matchEq_trans {a b d : List Triple} (h1 : MatchEq a b) (h2 : MatchEq b d) :
    MatchEq a d :=
  fun s pu iu => (h2 s pu iu).trans (h1 s pu iu)

theorem bizEq_refl (a : List Triple) : BizEq a a := fun _ _ _ => Iff.rfl

theorem bizEq_trans {a b d : List Triple} (h1 : BizEq a b) (h2 : BizEq b d) :
    BizEq a d :=
  fun s su iu => (h2 s su iu).trans (h1 s su iu)

theorem matchEq_ins {B db : List Triple} (hsafe : ∀ t ∈ B, matchSafeT t) :
    MatchEq db (B ++ db) :=
  fun s pu iu => prodMatch_insert_msafe hsafe

theorem matchEq_del {db : List Triple} {v : Node} {Q : List String}
    (hQ : ∀ q ∈ Q, q ∉ matchPreds) : MatchEq db (deleteProps v Q db) := by
  intro s pu iu
  constructor
  · exact prodMatch_sub (fun t ht => (mem_deleteProps.mp ht).1)
  · exact prodMatch_delete hQ

theorem matchEq_rep {db T : List Triple} {v : Node} {Q : List String}
    (hQ : ∀ q ∈ Q, q ∉ matchPreds) (hsafe : ∀ t ∈ T, matchSafeT t) :
    MatchEq db (replaceGroup v Q T db) :=
  matchEq_trans (matchEq_del hQ) (matchEq_ins hsafe)

theorem bizEq_ins {B db : List Triple} (hsafe : ∀ t ∈ B, matchSafeT t) :
    BizEq db (B ++ db) :=
  fun s su iu => bizMatch_insert_msafe hsafe

theorem bizEq_del {db : List Triple} {v : Node} {Q : List String}
    (hQ : ∀ q ∈ Q, q ∉ matchPreds) : BizEq db (deleteProps v Q db) := by
  intro s su iu
  constructor
  · exact bizMatch_sub (fun t ht => (mem_deleteProps.mp ht).1)
  · exact bizMatch_delete hQ

theorem bizEq_rep {db T : List Triple} {v : Node} {Q : List String}
    (hQ : ∀ q ∈ Q, q ∉ matchPreds) (hsafe : ∀ t ∈ T, matchSafeT t) :
    BizEq db (replaceGroup v Q T db) :=
  bizEq_trans (bizEq_del hQ) (bizEq_ins hsafe)

/-! ### Transfer of the carried facts across the equivalences -/

theorem groupSat_low {c : Nat} {a b : List Triple} {u : Node} {P : List String}
    {T : List Triple} (hle : LowEq c a b)
    (hu : ∀ kk, idx u = some kk → kk < c)
    (hT : ∀ t ∈ T, t.s = u)
    (h : groupSat a u P T) : groupSat b u P T := by
  constructor
  · intro t ht
    have hlow : ∀ kk, idx t.s = some kk → kk < c := by
      rw [hT t ht]
      exact hu
    exact (hle t hlow).mp (h.1 t ht)
  · intro t ht hs hp
    have hlow : ∀ kk, idx t.s = some kk → kk < c := by
      rw [hs]
      exact hu
    exact h.2 t ((hle t hlow).mpr ht) hs hp

theorem rosterSat_trans_eq {R : List SupplierSummary} {a b : List Triple}
    (hbe : BizEq a b) (hne : NameEq a b) (h : RosterSat R a) : RosterSat R b := by
  intro row hrow
  obtain ⟨ns, ni, hbm, hname⟩ := h row hrow
  exact ⟨ns, ni, (hbe _ _ _).mpr hbm, (hne _ rfl).mp hname⟩

theorem nameTame_trans_eq {R : List SupplierSummary} {a b : List Triple}
    (hbe : BizEq a b) (hne : NameEq a b) (h : NameTame R a) : NameTame R b := by
  intro t ht hp
  obtain ⟨row, hrow, ⟨iu, hbm⟩, hobj⟩ := h t ((hne t hp).mpr ht) hp
  exact ⟨row, hrow, ⟨iu, (hbe _ _ _).mpr hbm⟩, hobj⟩

theorem nshape_trans_eq {a b : List Triple}
    (hne : NameEq a b)
    (h : ∀ t ∈ a, t.p = "gr:name" → ∃ n, t.s = Node.supplier n) :
    ∀ t ∈ b, t.p = "gr:name" → ∃ n, t.s = Node.supplier n := by
  intro t ht hp
  exact h t ((hne t hp).mpr ht) hp

/-- Full product reflection is preserved across any surgery that leaves
low triples untouched and keeps the name triples fixed. -/
theorem prodSat_low {c : Nat} {j : Node} {d' : Product} {a b : List Triple}
    (hle : LowEq c a b) (hne : NameEq a b)
    (holdA : ∀ t ∈ a, ∀ (u : Node) (k : Nat), mentionsNode t u → idx u = some k → k < c)
    (hnshapeA : ∀ t ∈ a, t.p = "gr:name" → ∃ n, t.s = Node.supplier n)
    (h : ProdSat j d' a) : ProdSat j d' b := by
  have hliftm : ∀ (x : Triple), x ∈ a → (∀ k, idx x.s = some k → k < c) → x ∈ b :=
    fun x hx hb => (hle x hb).mp hx
  obtain ⟨np, ni, hm, hbody⟩ := h
  obtain ⟨hm1, hm2, hm3, hm4, hm5⟩ := hm
  have bnp : ∀ k, idx (Node.product np) = some k → k < c :=
    fun k hk => holdA _ hm1 _ k (Or.inl rfl) hk
  have bni : ∀ k, idx (Node.identifier ni) = some k → k < c :=
    fun k hk => holdA _ hm1 _ k (Or.inr rfl) hk
  refine ⟨np, ni, ⟨hliftm _ hm1 bnp, hliftm _ hm2 bnp, hliftm _ hm3 bni,
    hliftm _ hm4 bni, hliftm _ hm5 bni⟩, ?_⟩
  intro hig
  obtain ⟨hprov, hbase, ⟨cef, hcef, ⟨ns, he1, hg1⟩, ⟨nt, he2, hg2⟩,
    ⟨no, he3, ⟨nq, he4, hg4⟩, ⟨nu, he5, hg5⟩, hsup⟩⟩, hingr, hallerg, hpic⟩ := hbody hig
  refine ⟨hliftm _ hprov bnp,
    groupSat_low hle bnp (baseInfoTriples_subj _ _) hbase,
    ⟨cef, hcef,
      ⟨ns, hliftm _ he1 bnp,
        groupSat_low hle (fun k hk => holdA _ he1 _ k (Or.inr rfl) hk) specT_subj hg1⟩,
      ⟨nt, hliftm _ he2 bnp,
        groupSat_low hle (fun k hk => holdA _ he2 _ k (Or.inr rfl) hk) targetT_subj hg2⟩,
      ⟨no, hliftm _ he3 bnp,
        ⟨nq, hliftm _ he4 (fun k hk => holdA _ he3 _ k (Or.inr rfl) hk),
          groupSat_low hle (fun k hk => holdA _ he4 _ k (Or.inr rfl) hk) taqT_subj hg4⟩,
        ⟨nu, hliftm _ he5 (fun k hk => holdA _ he3 _ k (Or.inr rfl) hk),
          groupSat_low hle (fun k hk => holdA _ he5 _ k (Or.inr rfl) hk) upsT_subj hg5⟩,
        ?_⟩⟩,
    groupSat_low hle bnp ingrT_subj hingr,
    groupSat_low hle bnp allergT_subj hallerg, ?_⟩
  · intro i hi su hsu
    have hsud : Triple.mk su "gr:name" (Obj.str i.name) ∈ a := (hne _ rfl).mpr hsu
    have hbn : ∀ k, idx su = some k → k < c :=
      fun k hk => holdA _ hsud su k (Or.inl rfl) hk
    exact groupSat_low hle hbn supT_subj (hsup i hi su hsud)
  · unfold PicSat at hpic ⊢
    by_cases himg : truthyOpt d'.image = true
    · rw [if_pos himg] at hpic ⊢
      obtain ⟨f, hf1, hf2⟩ := hpic
      have bf : ∀ k, idx f = some k → k < c :=
        fun k hk => holdA _ hf1 f k (Or.inr rfl) hk
      exact ⟨f, hliftm _ hf1 bnp, hliftm _ hf2 bf⟩
    · rw [if_neg himg] at hpic ⊢
      intro o ho
      exact hpic o ((hle _ bnp).mpr ho)

/-! ### Frame across the per-product supplier replace -/

theorem supT_msafe {su : Node} {i : SupplierInfo} {off : Node} :
    ∀ t ∈ supT su i off, matchSafeT t := by
  intro t ht
  simp only [supT, List.mem_cons, List.not_mem_nil, or_false] at ht
  rcases ht with rfl|rfl|rfl <;> exact ⟨by simp, by simp, by simp, by simp⟩

theorem supT_no_name {su : Node} {i : SupplierInfo} {off : Node} :
    ∀ t ∈ supT su i off, t.p ≠ "gr:name" := by
  intro t ht
  simp only [supT, List.mem_cons, List.not_mem_nil, or_false] at ht
  rcases ht with rfl|rfl|rfl <;> simp

theorem prodSat_supReplace {j : Node} {d' : Product} {db : List Triple} {su off : Node}
    {i : SupplierInfo}
    (hsu_shape : ∃ n, su = Node.supplier n)
    (hiname : ∀ i'' : SupplierInfo, d'.supplier = .info i'' →
      Triple.mk su "gr:name" (Obj.str i''.name) ∈ db → i'' = i)
    (h : ProdSat j d' db) :
    ProdSat j d' (replaceGroup su supPreds (supT su i off) db) := by
  obtain ⟨nsu, hsn⟩ := hsu_shape
  subst hsn
  have liftp : ∀ (x : Triple), x ∈ db → x.p ∉ supPreds →
      x ∈ replaceGroup (Node.supplier nsu) supPreds (supT (Node.supplier nsu) i off) db := by
    intro x hx hp
    exact List.mem_append_right _ (mem_deleteProps.mpr ⟨hx, fun hc => hp hc.2⟩)
  have hSgen : ∀ (u' : Node), Node.supplier nsu ≠ u' → ∀ (P' : List String),
      ∀ t ∈ supT (Node.supplier nsu) i off, ¬(t.s = u' ∧ t.p ∈ P') := by
    intro u' hne P' t ht
    rintro ⟨hs, -⟩
    rw [supT_subj t ht] at hs
    exact hne hs
  obtain ⟨np, ni, hm, hbody⟩ := h
  obtain ⟨hm1, hm2, hm3, hm4, hm5⟩ := hm
  refine ⟨np, ni, ⟨liftp _ hm1 (by simp [supPreds]), liftp _ hm2 (by simp [supPreds]),
    liftp _ hm3 (by simp [supPreds]), liftp _ hm4 (by simp [supPreds]),
    liftp _ hm5 (by simp [supPreds])⟩, ?_⟩
  intro hig
  obtain ⟨hprov, hbase, ⟨cef, hcef, ⟨ns, he1, hg1⟩, ⟨nt, he2, hg2⟩,
    ⟨no, he3, ⟨nq, he4, hg4⟩, ⟨nu, he5, hg5⟩, hsup⟩⟩, hingr, hallerg, hpic⟩ := hbody hig
  have grep : ∀ (u' : Node), Node.supplier nsu ≠ u' → ∀ (P' : List String)
      (T' : List Triple), (∀ t ∈ T', t.s = u') → groupSat db u' P' T' →
      groupSat (replaceGroup (Node.supplier nsu) supPreds
        (supT (Node.supplier nsu) i off) db) u' P' T' := by
    intro u' hne P' T' hsubj hg
    apply groupSat_replace (hSgen u' hne P') ?_ hg
    intro t ht
    rintro ⟨hs, -⟩
    rw [hsubj t ht] at hs
    exact hne hs.symm
  refine ⟨liftp _ hprov (by simp [supPreds]),
    grep _ (by simp) _ _ (baseInfoTriples_subj _ _) hbase,
    ⟨cef, hcef,
      ⟨ns, liftp _ he1 (by simp [supPreds]), grep _ (by simp) _ _ specT_subj hg1⟩,
      ⟨nt, liftp _ he2 (by simp [supPreds]), grep _ (by simp) _ _ targetT_subj hg2⟩,
      ⟨no, liftp _ he3 (by simp [supPreds]),
        ⟨nq, liftp _ he4 (by simp [supPreds]), grep _ (by simp) _ _ taqT_subj hg4⟩,
        ⟨nu, liftp _ he5 (by simp [supPreds]), grep _ (by simp) _ _ upsT_subj hg5⟩,
        ?_⟩⟩,
    grep _ (by simp) _ _ ingrT_subj hingr,
    grep _ (by simp) _ _ allergT_subj hallerg, ?_⟩
  · intro i'' hi'' su2 hsu2
    have hsu2d : Triple.mk su2 "gr:name" (Obj.str i''.name) ∈ db := by
      rcases List.mem_append.mp hsu2 with hb | hd
      · exact absurd rfl (supT_no_name _ hb)
      · exact (mem_deleteProps.mp hd).1
    have hgold := hsup i'' hi'' su2 hsu2d
    by_cases hse : su2 = Node.supplier nsu
    · subst hse
      have hieq : i'' = i := hiname i'' hi'' hsu2d
      subst hieq
      constructor
      · intro t ht
        simp only [supT, List.mem_cons, List.not_mem_nil, or_false] at ht
        rcases ht with rfl | rfl | rfl
        · apply List.mem_append_left
          simp [supT]
        · apply List.mem_append_left
          simp [supT]
        · exact liftp _ (hgold.1 _ (by simp [supT])) (by simp [supPreds])
      · intro t ht hs hp
        rcases List.mem_append.mp ht with hb | hd
        · simp only [supT, List.mem_cons, List.not_mem_nil, or_false] at hb
          rcases hb with rfl | rfl | rfl
          · simp [supT]
          · simp [supT]
          · simp [supPreds] at hp
        · exfalso
          have hcond := of_decide_eq_true (List.mem_filter.mp hd).2
          exact hcond ⟨hs, hp⟩
    · have hg2 := grep su2 (fun he => hse he.symm) _ _ supT_subj hgold
      exact hg2
  · unfold PicSat at hpic ⊢
    by_cases himg : truthyOpt d'.image = true
    · rw [if_pos himg] at hpic ⊢
      obtain ⟨f, hf1, hf2⟩ := hpic
      exact ⟨f, liftp _ hf1 (by simp [supPreds]), liftp _ hf2 (by simp [supPreds])⟩
    · rw [if_neg himg] at hpic ⊢
      intro o ho
      rcases List.mem_append.mp ho with hb | hd
      · exact absurd (supT_subj _ hb) (by simp [supT])
      · exact hpic o (mem_deleteProps.mp hd).1

/-! ### Inventory facts for every insert block -/

theorem noHit_of_subj {B : List Triple} {u u' : Node} (hsub : ∀ t ∈ B, t.s = u)
    (hne : u ≠ u') {P : List String} : ∀ t ∈ B, ¬(t.s = u' ∧ t.p ∈ P) :=
  fun t ht h => hne ((hsub t ht).symm.trans h.1)

theorem noHit_of_preds {B : List Triple} {Ps : List String}
    (hp : ∀ t ∈ B, t.p ∈ Ps) {u' : Node} {P' : List String}
    (hd : ∀ q ∈ Ps, q ∉ P') : ∀ t ∈ B, ¬(t.s = u' ∧ t.p ∈ P') :=
  fun t ht h => hd _ (hp t ht) h.2

theorem ownBlock_subjIn {owner u : Node} {rel ty : String} {n : Nat} :
    ∀ t ∈ ownBlock owner rel ty u n, t.s = owner ∨ t.s = u := by
  intro t ht
  simp only [ownBlock, List.mem_cons, List.not_mem_nil, or_false] at ht
  rcases ht with rfl|rfl|rfl
  · exact Or.inl rfl
  · exact Or.inr rfl
  · exact Or.inr rfl

theorem ownBlock_predsIn {owner u : Node} {rel ty : String} {n : Nat} :
    ∀ t ∈ ownBlock owner rel ty u n, t.p ∈ [rel, "a", "mu:uuid"] := by
  intro t ht
  simp only [ownBlock, List.mem_cons, List.not_mem_nil, or_false] at ht
  rcases ht with rfl|rfl|rfl <;> simp

theorem metaBlock_subjIn {np ni : Nat} {idStr : String} :
    ∀ t ∈ productMetaBlock np ni idStr, t.s = .product np ∨ t.s = .identifier ni := by
  intro t ht
  simp only [productMetaBlock, List.mem_cons, List.not_mem_nil, or_false] at ht
  rcases ht with rfl|rfl|rfl|rfl|rfl|rfl|rfl|rfl <;>
    first
      | exact Or.inl rfl
      | exact Or.inr rfl

theorem metaBlock_predsIn {np ni : Nat} {idStr : String} :
    ∀ t ∈ productMetaBlock np ni idStr,
      t.p ∈ ["a", "mu:uuid", "adms:identifier", "skos:notation", "dct:creator",
        "dct:title"] := by
  intro t ht
  simp only [productMetaBlock, List.mem_cons, List.not_mem_nil, or_false] at ht
  rcases ht with rfl|rfl|rfl|rfl|rfl|rfl|rfl|rfl <;> simp

theorem specT_predsIn {u : Node} {cef : String} {q : ℚ} :
    ∀ t ∈ specT u cef q, t.p ∈ ["gr:hasUnitOfMeasurement", "gr:hasCurrencyValue"] := by
  intro t ht
  simp only [specT, List.mem_cons, List.not_mem_nil, or_false] at ht
  rcases ht with rfl|rfl <;> simp

theorem targetT_predsIn {u : Node} {cef : String} {q : ℚ} :
    ∀ t ∈ targetT u cef q, t.p ∈ ["gr:hasUnitOfMeasurement", "gr:hasValue"] := by
  intro t ht
  simp only [targetT, List.mem_cons, List.not_mem_nil, or_false] at ht
  rcases ht with rfl|rfl <;> simp

theorem upsT_predsIn {u : Node} {q : ℚ} :
    ∀ t ∈ upsT u q, t.p ∈ ["gr:hasUnitOfMeasurement", "gr:hasCurrencyValue"] := by
  intro t ht
  simp only [upsT, List.mem_cons, List.not_mem_nil, or_false] at ht
  rcases ht with rfl|rfl <;> simp

theorem taqT_predsIn {u : Node} {q : ℚ} {cef : String} :
    ∀ t ∈ taqT u q cef, t.p ∈ ["gr:amountOfThisGood", "gr:hasUnitOfMeasurement"] := by
  intro t ht
  simp only [taqT, List.mem_cons, List.not_mem_nil, or_false] at ht
  rcases ht with rfl|rfl <;> simp

theorem ingrT_predsIn {pu : Node} {o : Option (List Ingredient)} :
    ∀ t ∈ ingrT pu o, t.p ∈ ["food:ingredientListAsText"] := by
  intro t ht
  cases o with
  | none => simp [ingrT] at ht
  | some l =>
    simp only [ingrT, List.mem_cons, List.not_mem_nil, or_false] at ht
    subst ht
    simp

theorem allergT_predsIn {pu : Node} {o : Option (List AllergenEntry)} :
    ∀ t ∈ allergT pu o, t.p ∈ ["veeakker:allergensAsText"] := by
  intro t ht
  cases o with
  | none => simp [allergT] at ht
  | some l =>
    simp only [allergT, List.mem_cons, List.not_mem_nil, or_false] at ht
    subst ht
    simp

theorem supT_predsIn {su : Node} {i : SupplierInfo} {off : Node} :
    ∀ t ∈ supT su i off, t.p ∈ ["schema:email", "dct:description", "gr:offers"] := by
  intro t ht
  simp only [supT, List.mem_cons, List.not_mem_nil, or_false] at ht
  rcases ht with rfl|rfl|rfl <;> simp

theorem newPictureBlock_subjIn {pu : Node} {url : String} {a b now : Nat} :
    ∀ t ∈ newPictureBlock pu url a b now,
      t.s = pu ∨ t.s = .file a ∨ t.s = .share a (lastSeg "." url) := by
  intro t ht
  simp only [newPictureBlock, List.mem_cons, List.not_mem_nil, or_false] at ht
  rcases ht with rfl|rfl|rfl|rfl|rfl|rfl|rfl|rfl|rfl|rfl|rfl|rfl|rfl|rfl|rfl <;>
    first
      | exact Or.inl rfl
      | exact Or.inr (Or.inl rfl)
      | exact Or.inr (Or.inr rfl)

theorem newPictureBlock_predsIn {pu : Node} {url : String} {a b now : Nat} :
    ∀ t ∈ newPictureBlock pu url a b now,
      t.p ∈ ["veeakker:thumbnail", "a", "dct:source", "mu:uuid", "nfo:fileName",
        "dct:format", "dbpedia:fileExtension", "dct:created", "nie:dataSource"] := by
  intro t ht
  simp only [newPictureBlock, List.mem_cons, List.not_mem_nil, or_false] at ht
  rcases ht with rfl|rfl|rfl|rfl|rfl|rfl|rfl|rfl|rfl|rfl|rfl|rfl|rfl|rfl|rfl <;> simp

theorem newPictureBlock_mentions {pu : Node} {url : String} {a b now : Nat} {t : Triple}
    {v : Node} (h : t ∈ newPictureBlock pu url a b now) (hm : mentionsNode t v) :
    v = pu ∨ v = .file a ∨ v = .share a (lastSeg "." url) ∨ idx v = none := by
  simp only [newPictureBlock, List.mem_cons, List.not_mem_nil, or_false] at h
  rcases h with rfl|rfl|rfl|rfl|rfl|rfl|rfl|rfl|rfl|rfl|rfl|rfl|rfl|rfl|rfl <;>
    rcases hm with hs | ho
  all_goals first
    | exact Or.inl hs.symm
    | exact Or.inr (Or.inl hs.symm)
    | exact Or.inr (Or.inr (Or.inl hs.symm))
    | (simp only [Obj.node.injEq] at ho
       exact Or.inr (Or.inl ho.symm))
    | (simp only [Obj.node.injEq] at ho
       subst ho
       exact Or.inr (Or.inr (Or.inr rfl)))
    | simp at ho

theorem newPictureBlock_tame {pu : Node} {url : String} {a b now : Nat} :
    ∀ t ∈ newPictureBlock pu url a b now, tameT t := by
  intro t ht
  simp only [newPictureBlock, List.mem_cons, List.not_mem_nil, or_false] at ht
  rcases ht with rfl|rfl|rfl|rfl|rfl|rfl|rfl|rfl|rfl|rfl|rfl|rfl|rfl|rfl|rfl
  all_goals refine ⟨by simp [APreds], by simp, by simp, fun he => ?_⟩
  all_goals first
    | exact absurd he (of_decide_eq_false rfl)
    | exact ⟨by simp, by simp, by simp⟩

theorem subjIn_mentions {u : Node} {t : Triple} {v : Node}
    (hsubs : t.s = u) (hobj : ∀ w : Node, t.o ≠ Obj.node w)
    (hm : mentionsNode t v) : v = u := by
  rcases hm with hs | ho
  · exact hs.symm.trans hsubs ▸ rfl
  · exact absurd ho (hobj v)

theorem specT_mentions {u : Node} {cef : String} {q : ℚ} {t : Triple} {v : Node}
    (h : t ∈ specT u cef q) (hm : mentionsNode t v) : v = u := by
  simp only [specT, List.mem_cons, List.not_mem_nil, or_false] at h
  rcases h with rfl|rfl <;> rcases hm with hs | ho <;>
    first
      | exact hs.symm
      | simp at ho

theorem targetT_mentions {u : Node} {cef : String} {q : ℚ} {t : Triple} {v : Node}
    (h : t ∈ targetT u cef q) (hm : mentionsNode t v) : v = u := by
  simp only [targetT, List.mem_cons, List.not_mem_nil, or_false] at h
  rcases h with rfl|rfl <;> rcases hm with hs | ho <;>
    first
      | exact hs.symm
      | simp at ho

theorem upsT_mentions {u : Node} {q : ℚ} {t : Triple} {v : Node}
    (h : t ∈ upsT u q) (hm : mentionsNode t v) : v = u := by
  simp only [upsT, List.mem_cons, List.not_mem_nil, or_false] at h
  rcases h with rfl|rfl <;> rcases hm with hs | ho <;>
    first
      | exact hs.symm
      | simp at ho

theorem taqT_mentions {u : Node} {q : ℚ} {cef : String} {t : Triple} {v : Node}
    (h : t ∈ taqT u q cef) (hm : mentionsNode t v) : v = u := by
  simp only [taqT, List.mem_cons, List.not_mem_nil, or_false] at h
  rcases h with rfl|rfl <;> rcases hm with hs | ho <;>
    first
      | exact hs.symm
      | simp at ho

theorem ingrT_mentions {pu : Node} {o : Option (List Ingredient)} {t : Triple} {v : Node}
    (h : t ∈ ingrT pu o) (hm : mentionsNode t v) : v = pu := by
  cases o with
  | none => simp [ingrT] at h
  | some l =>
    simp only [ingrT, List.mem_cons, List.not_mem_nil, or_false] at h
    subst h
    rcases hm with hs | ho
    · exact hs.symm
    · simp at ho

theorem allergT_mentions {pu : Node} {o : Option (List AllergenEntry)} {t : Triple}
    {v : Node} (h : t ∈ allergT pu o) (hm : mentionsNode t v) : v = pu := by
  cases o with
  | none => simp [allergT] at h
  | some l =>
    simp only [allergT, List.mem_cons, List.not_mem_nil, or_false] at h
    subst h
    rcases hm with hs | ho
    · exact hs.symm
    · simp at ho

theorem supT_mentions {su : Node} {i : SupplierInfo} {off : Node} {t : Triple} {v : Node}
    (h : t ∈ supT su i off) (hm : mentionsNode t v) : v = su ∨ v = off := by
  simp only [supT, List.mem_cons, List.not_mem_nil, or_false] at h
  rcases h with rfl|rfl|rfl <;> rcases hm with hs | ho
  all_goals first
    | exact Or.inl hs.symm
    | (simp only [Obj.node.injEq] at ho
       exact Or.inr ho.symm)
    | simp at ho

theorem baseInfoTriples_mentions (p : Product) (pu : Node) {t : Triple} {v : Node}
    (h : t ∈ baseInfoTriples p pu) (hm : mentionsNode t v) :
    v = pu ∨ idx v = none := by
  have hs := baseInfoTriples_subj p pu t h
  rcases hm with hss | ho
  · exact Or.inl (hss.symm.trans hs)
  · unfold baseInfoTriples at h
    simp only [List.mem_append, List.mem_cons, List.not_mem_nil, or_false] at h
    rcases h with (((h1 | h1) | h1) | h1) | h1 | h1 | h1
    · subst h1; simp at ho
    · rcases hd : p.description with _ | dsc
      · rw [hd] at h1; simp at h1
      · rw [hd] at h1
        by_cases he : dsc = ""
        · simp [he] at h1
        · simp only [he, if_false, List.mem_singleton] at h1
          subst h1; simp at ho
    · subst h1
      simp only [Obj.node.injEq] at ho
      subst ho
      exact Or.inr rfl
    · by_cases hb : p.bio
      · simp only [hb, if_true, List.mem_singleton] at h1
        subst h1
        simp only [Obj.node.injEq] at ho
        subst ho
        exact Or.inr rfl
      · simp [hb] at h1
    · subst h1; simp at ho
    · subst h1; simp at ho
    · subst h1; simp at ho

theorem findSupplierByName_none {db : List Triple} {name : String}
    (h : findSupplierByName db name = none) :
    ∀ su : Node, Triple.mk su "gr:name" (Obj.str name) ∉ db := by
  intro su hmem
  unfold findSupplierByName at h
  rw [List.findSome?_eq_none_iff] at h
  have := h _ hmem
  simp at this

/-! ### Split of the product body around the supplier layer -/

/-- The supplier clause of `ProdSatBody`, isolated. -/
def supClause (d : Product) (db : List Triple) (off : Node) : Prop :=
  ∀ i : SupplierInfo, d.supplier = .info i →
    ∀ su : Node, Triple.mk su "gr:name" (Obj.str i.name) ∈ db →
      groupSat db su supPreds (supT su i off)

/-- `ProdSatBody` with the offering node fixed and the supplier clause
stripped: what holds right before `loadProductSupplier` runs. -/
def ProdBodyAt (j : Node) (d : Product) (pu off : Node) (db : List Triple) : Prop :=
  Triple.mk pu "prov:wasGeneratedBy" (Obj.node j) ∈ db ∧
  groupSat db pu baseInfoPreds (baseInfoTriples d pu) ∧
  (∃ cef, convertLfwUnitToCEFACT
      d.pricing.consumerPrice.measurementUnitPrice.unitOfMeasurement = .ok cef ∧
    (∃ ns, Triple.mk pu "veeakker:singleUnitPrice" (Obj.node (.priceSpec ns)) ∈ db ∧
      groupSat db (.priceSpec ns) specPreds
        (specT (.priceSpec ns) cef d.pricing.consumerPrice.measurementUnitPrice.money.amount)) ∧
    (∃ nt, Triple.mk pu "veeakker:targetUnit" (Obj.node (.quantVal nt)) ∈ db ∧
      groupSat db (.quantVal nt) targetPreds
        (targetT (.quantVal nt) cef d.pricing.measurementUnitVsOrderUnitRatio)) ∧
    (∃ no, off = .offering no ∧
      Triple.mk pu "veeakker:offerings" (Obj.node (.offering no)) ∈ db ∧
      (∃ nq, Triple.mk (.offering no) "gr:includesObject"
          (Obj.node (.typeAndQuantity nq)) ∈ db ∧
        groupSat db (.typeAndQuantity nq) taqPreds
          (taqT (.typeAndQuantity nq) d.pricing.measurementUnitVsOrderUnitRatio cef)) ∧
      (∃ nu, Triple.mk (.offering no) "gr:hasPriceSpecification"
          (Obj.node (.priceSpec nu)) ∈ db ∧
        groupSat db (.priceSpec nu) upsPreds
          (upsT (.priceSpec nu) d.pricing.consumerPrice.orderUnitPrice.money.amount)))) ∧
  groupSat db pu ["food:ingredientListAsText"] (ingrT pu d.ingredients) ∧
  groupSat db pu ["veeakker:allergensAsText"] (allergT pu d.allergens) ∧
  PicSat d pu db

theorem bodyAt_to_body {j : Node} {d : Product} {pu off : Node} {db : List Triple}
    (h : ProdBodyAt j d pu off db) (hsup : supClause d db off) :
    ProdSatBody j d pu db := by
  obtain ⟨hprov, hbase, ⟨cef, hcef, hspec, htarg,
    ⟨no, hoffeq, he3, hq, hu⟩⟩, hingr, hallerg, hpic⟩ := h
  subst hoffeq
  exact ⟨hprov, hbase, ⟨cef, hcef, hspec, htarg, ⟨no, he3, hq, hu, hsup⟩⟩,
    hingr, hallerg, hpic⟩

/-! ### Small push combinators -/

theorem noHit_of_subj2 {B : List Triple} {u v u' : Node}
    (hsub : ∀ t ∈ B, t.s = u ∨ t.s = v) (h1 : u ≠ u') (h2 : v ≠ u') {P : List String} :
    ∀ t ∈ B, ¬(t.s = u' ∧ t.p ∈ P) := by
  intro t ht h
  rcases hsub t ht with hs | hs
  · exact h1 (hs.symm.trans h.1)
  · exact h2 (hs.symm.trans h.1)

theorem tame_of_preds {t : Triple} {Ps : List String} (hp : t.p ∈ Ps)
    (hA : ∀ q ∈ Ps, q ∉ APreds) (hn : "skos:notation" ∉ Ps)
    (hc : "dct:creator" ∉ Ps) (ha : "a" ∉ Ps) : tameT t :=
  ⟨hA _ hp, fun he => hn (he ▸ hp), fun he => hc (he ▸ hp),
   fun he => absurd (he ▸ hp) ha⟩

theorem mem_ins {db B : List Triple} {t : Triple} (h : t ∈ db) : t ∈ B ++ db :=
  List.mem_append_right _ h

theorem mem_rep_of {db T : List Triple} {v : Node} {Q : List String} {t : Triple}
    (ht : t ∈ db) (hno : ¬(t.s = v ∧ t.p ∈ Q)) : t ∈ replaceGroup v Q T db :=
  List.mem_append_right _ (mem_deleteProps.mpr ⟨ht, hno⟩)

theorem supT_tame {su : Node} {i : SupplierInfo} {off : Node} :
    ∀ t ∈ supT su i off, tameT t := by
  intro t ht
  exact tame_of_preds (supT_predsIn t ht) (by decide) (by decide) (by decide) (by decide)

theorem baseInfoTriples_tame {d : Product} {pu : Node} :
    ∀ t ∈ baseInfoTriples d pu, tameT t := by
  intro t ht
  exact tame_of_preds (baseInfoTriples_preds d pu t ht)
    (by decide) (by decide) (by decide) (by decide)

/-! ### The frame bundle carried through the fresh-product walk -/

/-- Frame facts relating a mid-walk state to the store the walk started
from: invariants hold, low triples and name triples are untouched, the only
possibly-new identity match is the product being loaded, and supplier
matches are unchanged. -/
structure WalkCore (j : Node) (d : Product) (c0 : Nat) (base : List Triple)
    (S : St) : Prop where
  inv : Inv S
  low : LowEq c0 base S.store
  name : NameEq base S.store
  mchar : ∀ (s : String) (p i : Node), ProdMatch S.store s p i →
    ProdMatch base s p i ∨ s = toString d.id
  mself : ProdMatch S.store (toString d.id) (Node.product c0) (Node.identifier (c0 + 1))
  biz : BizEq base S.store

theorem walkCore_step {j : Node} {d : Product} {c0 : Nat} {base : List Triple}
    {S S' : St} (W : WalkCore j d c0 base S) (hInv' : Inv S')
    (hlow : LowEq c0 S.store S'.store)
    (hname : NameEq S.store S'.store)
    (hmeq : MatchEq S.store S'.store)
    (hbeq : BizEq S.store S'.store) : WalkCore j d c0 base S' :=
  ⟨hInv', lowEq_trans W.low hlow, nameEq_trans W.name hname,
   fun s p i hm => W.mchar s p i ((hmeq s p i).mp hm),
   (hmeq _ _ _).mpr W.mself, bizEq_trans W.biz hbeq⟩

theorem inv_repack {st : St} {dl : List String} {nw : Nat} (h : Inv st) :
    Inv { store := st.store, ctr := st.ctr, downloads := dl, now := nw } :=
  ⟨h.fresh, h.funA, h.invA, h.notF, h.metaU, h.bizU, h.prodShape, h.bizShape⟩

theorem no_name_of_preds {t : Triple} {Ps : List String} (hp : t.p ∈ Ps)
    (h : "gr:name" ∉ Ps) : t.p ≠ "gr:name" :=
  fun he => h (he ▸ hp)

theorem specT_tame {u : Node} {cef : String} {q : ℚ} : ∀ t ∈ specT u cef q, tameT t :=
  fun t ht => tame_of_preds (specT_predsIn t ht) (by decide) (by decide) (by decide)
    (by decide)

theorem targetT_tame {u : Node} {cef : String} {q : ℚ} :
    ∀ t ∈ targetT u cef q, tameT t :=
  fun t ht => tame_of_preds (targetT_predsIn t ht) (by decide) (by decide) (by decide)
    (by decide)

theorem upsT_tame {u : Node} {q : ℚ} : ∀ t ∈ upsT u q, tameT t :=
  fun t ht => tame_of_preds (upsT_predsIn t ht) (by decide) (by decide) (by decide)
    (by decide)

theorem taqT_tame {u : Node} {q : ℚ} {cef : String} : ∀ t ∈ taqT u q cef, tameT t :=
  fun t ht => tame_of_preds (taqT_predsIn t ht) (by decide) (by decide) (by decide)
    (by decide)

theorem ingrT_tame {pu : Node} {o : Option (List Ingredient)} :
    ∀ t ∈ ingrT pu o, tameT t :=
  fun t ht => tame_of_preds (ingrT_predsIn t ht) (by decide) (by decide) (by decide)
    (by decide)

theorem allergT_tame {pu : Node} {o : Option (List AllergenEntry)} :
    ∀ t ∈ allergT pu o, tameT t :=
  fun t ht => tame_of_preds (allergT_predsIn t ht) (by decide) (by decide) (by decide)
    (by decide)

/-! ### The fresh-product walk, stage by stage -/

theorem walk1 {d : Product} {j : Node} {st : St}
    (hInv : Inv st)
    (hfind : findProductMeta st.store (toString d.id) = none) :
    ∃ S1 : St, ensureProductMeta d st
        = ((Node.product st.ctr, Node.identifier (st.ctr + 1)), S1) ∧
      WalkCore j d st.ctr st.store S1 ∧ S1.ctr = st.ctr + 2 ∧
      S1.downloads = st.downloads ∧ S1.now = st.now ∧
      (∀ (p' : String) (o : Obj), p' ∉ ["a", "mu:uuid", "adms:identifier"] →
        Triple.mk (Node.product st.ctr) p' o ∉ S1.store) := by
  refine ⟨_, ensureProductMeta_new hfind, ?_, rfl, rfl, rfl, ?_⟩
  · refine ⟨inv_insert_metaBlock hInv hfind, ?_, ?_, ?_, ?_, ?_⟩
    · refine lowEq_ins ?_
      intro t ht
      rcases metaBlock_subjIn t ht with hs | hs <;> rw [hs]
      · exact ⟨st.ctr, rfl, Nat.le_refl _⟩
      · exact ⟨st.ctr + 1, rfl, Nat.le_succ _⟩
    · exact nameEq_ins (fun t ht => metaBlock_no_name ht)
    · intro s p i hm
      rcases (prodMatch_metaBlock hInv s p i).mp hm with h | ⟨hs, -, -⟩
      · exact Or.inl h
      · exact Or.inr hs
    · exact (prodMatch_metaBlock hInv _ _ _).mpr (Or.inr ⟨rfl, rfl, rfl⟩)
    · exact fun s su iu => bizMatch_metaBlock hInv s su iu
  · intro p' o hp hmem
    rcases List.mem_append.mp hmem with hb | hd
    · simp only [productMetaBlock, List.mem_cons, List.not_mem_nil, or_false,
        Triple.mk.injEq] at hb
      rcases hb with ⟨-, h2, -⟩|⟨-, h2, -⟩|⟨-, h2, -⟩|⟨h1, -, -⟩|⟨h1, -, -⟩|
        ⟨h1, -, -⟩|⟨h1, -, -⟩|⟨h1, -, -⟩
      · subst h2; simp at hp
      · subst h2; simp at hp
      · subst h2; simp at hp
      all_goals simp at h1
    · exact @Inv.freshFor st hInv (Node.product st.ctr) st.ctr rfl (Nat.le_refl _)
        _ hd (Or.inl rfl)

theorem walk2 {d : Product} {j : Node} {c0 : Nat} {base : List Triple} {S1 : St}
    (W : WalkCore j d c0 base S1) (hctr : S1.ctr = c0 + 2)
    (hj : ∀ k, idx j = some k → k < c0)
    (hpu : ∀ (p' : String) (o : Obj), p' ∉ ["a", "mu:uuid", "adms:identifier"] →
      Triple.mk (Node.product c0) p' o ∉ S1.store) :
    ∃ S2 : St, ensureProductJobConnection (Node.product c0) j S1 = S2 ∧
      WalkCore j d c0 base S2 ∧ S2.ctr = c0 + 2 ∧
      S2.downloads = S1.downloads ∧ S2.now = S1.now ∧
      Triple.mk (Node.product c0) "prov:wasGeneratedBy" (Obj.node j) ∈ S2.store ∧
      (∀ (p' : String) (o : Obj),
        p' ∉ ["a", "mu:uuid", "adms:identifier"] ++ ["prov:wasGeneratedBy"] →
        Triple.mk (Node.product c0) p' o ∉ S2.store) := by
  have htame : ∀ t ∈ [Triple.mk (Node.product c0) "prov:wasGeneratedBy" (Obj.node j)],
      tameT t := by
    intro t ht
    simp only [List.mem_singleton] at ht
    subst ht
    exact @tame_of_preds _ ["prov:wasGeneratedBy"] (List.mem_singleton.mpr rfl)
      (by decide) (by decide) (by decide) (by decide)
  have hment : ∀ t ∈ [Triple.mk (Node.product c0) "prov:wasGeneratedBy" (Obj.node j)],
      ∀ (u : Node) (k : Nat), mentionsNode t u → idx u = some k → k < S1.ctr := by
    intro t ht u k hm hk
    simp only [List.mem_singleton] at ht
    subst ht
    rw [hctr]
    rcases hm with hs | ho
    · rw [← hs] at hk
      injection hk with hk
      omega
    · simp only [Obj.node.injEq] at ho
      rw [← ho] at hk
      have := hj k hk
      omega
  refine ⟨_, rfl, walkCore_step W (inv_insert_tame W.inv htame hment)
    (lowEq_ins ?_) (nameEq_ins ?_)
    (matchEq_ins (fun t ht => tameT_matchSafe (htame t ht)))
    (bizEq_ins (fun t ht => tameT_matchSafe (htame t ht))),
    hctr, rfl, rfl, ?_, ?_⟩
  · intro t ht
    simp only [List.mem_singleton] at ht
    subst ht
    exact ⟨c0, rfl, Nat.le_refl _⟩
  · intro t ht
    simp only [List.mem_singleton] at ht
    subst ht
    simp
  · exact List.mem_append_left _ (List.mem_singleton.mpr rfl)
  · intro p' o hp hmem
    rcases List.mem_append.mp hmem with hb | hd
    · simp only [List.mem_singleton, Triple.mk.injEq] at hb
      obtain ⟨-, h2, -⟩ := hb
      subst h2
      simp at hp
    · exact hpu p' o (fun hx => hp (List.mem_append_left _ hx)) hd

theorem walk3 {d : Product} {j : Node} {c0 : Nat} {base : List Triple} {S2 : St}
    (W : WalkCore j d c0 base S2) (hctr : S2.ctr = c0 + 2)
    (hprov : Triple.mk (Node.product c0) "prov:wasGeneratedBy" (Obj.node j) ∈ S2.store)
    (hpu : ∀ (p' : String) (o : Obj),
      p' ∉ ["a", "mu:uuid", "adms:identifier"] ++ ["prov:wasGeneratedBy"] →
      Triple.mk (Node.product c0) p' o ∉ S2.store) :
    ∃ S3 : St, ensureBaseProductInfo d (Node.product c0) S2 = S3 ∧
      WalkCore j d c0 base S3 ∧ S3.ctr = c0 + 2 ∧
      S3.downloads = S2.downloads ∧ S3.now = S2.now ∧
      Triple.mk (Node.product c0) "prov:wasGeneratedBy" (Obj.node j) ∈ S3.store ∧
      groupSat S3.store (Node.product c0) baseInfoPreds
        (baseInfoTriples d (Node.product c0)) ∧
      (∀ (p' : String) (o : Obj),
        p' ∉ ["a", "mu:uuid", "adms:identifier"] ++ ["prov:wasGeneratedBy"] →
        p' ∉ baseInfoPreds →
        Triple.mk (Node.product c0) p' o ∉ S3.store) := by
  have hment : ∀ t ∈ baseInfoTriples d (Node.product c0),
      ∀ (u : Node) (k : Nat), mentionsNode t u → idx u = some k → k < S2.ctr := by
    intro t ht u k hm hk
    rw [hctr]
    rcases baseInfoTriples_mentions d (Node.product c0) ht hm with hu | hu
    · rw [hu] at hk
      injection hk with hk
      omega
    · rw [hu] at hk
      cases hk
  refine ⟨_, rfl, walkCore_step W (inv_replace_tame W.inv baseInfoTriples_tame hment)
    (lowEq_rep rfl (Nat.le_refl _) ?_) (nameEq_rep (by decide) ?_)
    (matchEq_rep (by decide) (fun t ht => tameT_matchSafe (baseInfoTriples_tame t ht)))
    (bizEq_rep (by decide) (fun t ht => tameT_matchSafe (baseInfoTriples_tame t ht))),
    hctr, rfl, rfl, ?_, groupSat_establish, ?_⟩
  · intro t ht
    rw [baseInfoTriples_subj d (Node.product c0) t ht]
    exact ⟨c0, rfl, Nat.le_refl _⟩
  · exact fun t ht => no_name_of_preds (baseInfoTriples_preds d (Node.product c0) t ht)
      (by decide)
  · refine mem_rep_of hprov ?_
    rintro ⟨-, hx⟩
    exact absurd hx (show "prov:wasGeneratedBy" ∉ baseInfoPreds by decide)
  · intro p' o hp hpb hmem
    rcases mem_replaceGroup.mp hmem with hb | ⟨hin, -⟩
    · exact hpb (baseInfoTriples_preds d (Node.product c0) _ hb)
    · exact hpu p' o hp hin


theorem lowEq_own {c0 n : Nat} {db : List Triple} {owner u : Node} {rel ty : String}
    (howner : ∃ k, idx owner = some k ∧ c0 ≤ k) (hu : idx u = some n) (hn : c0 ≤ n) :
    LowEq c0 db (ownBlock owner rel ty u n ++ db) := by
  refine lowEq_ins ?_
  intro t ht
  rcases ownBlock_subjIn t ht with hs | hs <;> rw [hs]
  · exact howner
  · exact ⟨n, hu, hn⟩

theorem lowEq_grp {c0 : Nat} {db T : List Triple} {v : Node} {Q : List String} {kv : Nat}
    (hv : idx v = some kv) (hc : c0 ≤ kv) (hT : ∀ t ∈ T, t.s = v) :
    LowEq c0 db (replaceGroup v Q T db) := by
  refine lowEq_rep hv hc ?_
  intro t ht
  rw [hT t ht]
  exact ⟨kv, hv, hc⟩

theorem walk4 {d : Product} {j : Node} {c0 : Nat} {base : List Triple} {S3 : St}
    {cef : String}
    (W : WalkCore j d c0 base S3) (hctr : S3.ctr = c0 + 2)
    (hcef : convertLfwUnitToCEFACT
      d.pricing.consumerPrice.measurementUnitPrice.unitOfMeasurement = .ok cef)
    (hprov : Triple.mk (Node.product c0) "prov:wasGeneratedBy" (Obj.node j) ∈ S3.store)
    (hbase : groupSat S3.store (Node.product c0) baseInfoPreds
      (baseInfoTriples d (Node.product c0)))
    (hpu : ∀ (p' : String) (o : Obj),
      p' ∉ ["a", "mu:uuid", "adms:identifier"] ++ ["prov:wasGeneratedBy"] →
      p' ∉ baseInfoPreds →
      Triple.mk (Node.product c0) p' o ∉ S3.store) :
    ∃ S4 : St, ensureProductDefaultPricing d (Node.product c0) S3 = .ok S4 ∧
      WalkCore j d c0 base S4 ∧ S4.ctr = S3.ctr + 2 ∧
      S4.downloads = S3.downloads ∧ S4.now = S3.now ∧
      Triple.mk (Node.product c0) "prov:wasGeneratedBy" (Obj.node j) ∈ S4.store ∧
      groupSat S4.store (Node.product c0) baseInfoPreds
        (baseInfoTriples d (Node.product c0)) ∧
      Triple.mk (Node.product c0) "veeakker:singleUnitPrice"
        (Obj.node (Node.priceSpec S3.ctr)) ∈ S4.store ∧
      Triple.mk (Node.product c0) "veeakker:targetUnit"
        (Obj.node (Node.quantVal (S3.ctr + 1))) ∈ S4.store ∧
      groupSat S4.store (Node.priceSpec S3.ctr) specPreds
        (specT (Node.priceSpec S3.ctr) cef
          d.pricing.consumerPrice.measurementUnitPrice.money.amount) ∧
      groupSat S4.store (Node.quantVal (S3.ctr + 1)) targetPreds
        (targetT (Node.quantVal (S3.ctr + 1)) cef
          d.pricing.measurementUnitVsOrderUnitRatio) ∧
      (∀ (p' : String) (o : Obj),
        p' ∉ (["a", "mu:uuid", "adms:identifier"] ++ ["prov:wasGeneratedBy"]) ++
          ["veeakker:singleUnitPrice", "veeakker:targetUnit"] →
        p' ∉ baseInfoPreds →
        Triple.mk (Node.product c0) p' o ∉ S4.store) := by
  have h1 : ∀ o : Obj, Triple.mk (Node.product c0) "veeakker:singleUnitPrice" o
      ∉ S3.store := fun o => hpu _ o (by decide) (by decide)
  have h2 : ∀ o : Obj, Triple.mk (Node.product c0) "veeakker:targetUnit" o
      ∉ S3.store := fun o => hpu _ o (by decide) (by decide)
  have h2' : ∀ o : Obj, Triple.mk (Node.product c0) "veeakker:targetUnit" o
      ∉ (ownBlock (Node.product c0) "veeakker:singleUnitPrice"
        "gr:UnitPriceSpecification" (Node.priceSpec S3.ctr) S3.ctr ++ S3.store) := by
    intro o ho
    rcases List.mem_append.mp ho with hb | hd
    · simp only [ownBlock, List.mem_cons, List.not_mem_nil, or_false,
        Triple.mk.injEq] at hb
      rcases hb with ⟨-, hx, -⟩|⟨hx, -, -⟩|⟨hx, -, -⟩
      · exact absurd hx (by decide)
      · simp at hx
      · simp at hx
    · exact h2 o hd
  have hInvA : Inv
      { store := (ownBlock (Node.product c0) "veeakker:singleUnitPrice"
          "gr:UnitPriceSpecification" (Node.priceSpec S3.ctr) S3.ctr ++ S3.store),
        ctr := S3.ctr + 1, downloads := S3.downloads, now := S3.now } :=
    inv_insert_own W.inv (by decide) (by decide) (by decide) (by decide) (by decide)
      rfl
      (by
        intro k hk
        injection hk with hk
        omega)
      h1
  have hInvB : Inv
      { store := (ownBlock (Node.product c0) "veeakker:targetUnit"
          "gr:QuantitativeValue" (Node.quantVal (S3.ctr + 1)) (S3.ctr + 1)
          ++ (ownBlock (Node.product c0) "veeakker:singleUnitPrice"
            "gr:UnitPriceSpecification" (Node.priceSpec S3.ctr) S3.ctr ++ S3.store)),
        ctr := S3.ctr + 1 + 1, downloads := S3.downloads, now := S3.now } :=
    inv_insert_own hInvA (by decide) (by decide) (by decide) (by decide) (by decide)
      rfl
      (by
        intro k hk
        injection hk with hk
        show k < S3.ctr + 1
        omega)
      h2'
  have hInvC : Inv
      { store := (replaceGroup (Node.priceSpec S3.ctr) specPreds
          (specT (Node.priceSpec S3.ctr) cef
            d.pricing.consumerPrice.measurementUnitPrice.money.amount)
          (ownBlock (Node.product c0) "veeakker:targetUnit"
            "gr:QuantitativeValue" (Node.quantVal (S3.ctr + 1)) (S3.ctr + 1)
          ++ (ownBlock (Node.product c0) "veeakker:singleUnitPrice"
            "gr:UnitPriceSpecification" (Node.priceSpec S3.ctr) S3.ctr ++ S3.store))),
        ctr := S3.ctr + 1 + 1, downloads := S3.downloads, now := S3.now } :=
    inv_replace_tame hInvB specT_tame
      (by
        intro t ht v k hm hk
        rw [specT_mentions ht hm] at hk
        injection hk with hk
        show k < S3.ctr + 1 + 1
        omega)
  have hInvD : Inv
      { store := (replaceGroup (Node.quantVal (S3.ctr + 1)) targetPreds
          (targetT (Node.quantVal (S3.ctr + 1)) cef
            d.pricing.measurementUnitVsOrderUnitRatio)
          (replaceGroup (Node.priceSpec S3.ctr) specPreds
            (specT (Node.priceSpec S3.ctr) cef
              d.pricing.consumerPrice.measurementUnitPrice.money.amount)
            (ownBlock (Node.product c0) "veeakker:targetUnit"
              "gr:QuantitativeValue" (Node.quantVal (S3.ctr + 1)) (S3.ctr + 1)
            ++ (ownBlock (Node.product c0) "veeakker:singleUnitPrice"
              "gr:UnitPriceSpecification" (Node.priceSpec S3.ctr) S3.ctr ++ S3.store)))),
        ctr := S3.ctr + 1 + 1, downloads := S3.downloads, now := S3.now } :=
    inv_replace_tame hInvC targetT_tame
      (by
        intro t ht v k hm hk
        rw [targetT_mentions ht hm] at hk
        injection hk with hk
        show k < S3.ctr + 1 + 1
        omega)
  refine ⟨_, dp_fresh h1 h2 hcef, ?_, rfl, rfl, rfl, ?_, ?_, ?_, ?_, ?_, ?_, ?_⟩
  · refine walkCore_step W hInvD ?_ ?_ ?_ ?_
    · refine lowEq_trans ?_ (lowEq_grp rfl (by omega) targetT_subj)
      refine lowEq_trans ?_ (lowEq_grp rfl (by omega) specT_subj)
      refine lowEq_ins ?_
      intro t ht
      rcases List.mem_append.mp ht with hb | hb <;>
        rcases ownBlock_subjIn t hb with hs | hs <;> rw [hs]
      · exact ⟨c0, rfl, Nat.le_refl _⟩
      · exact ⟨S3.ctr + 1, rfl, by omega⟩
      · exact ⟨c0, rfl, Nat.le_refl _⟩
      · exact ⟨S3.ctr, rfl, by omega⟩
    · refine nameEq_trans ?_ (nameEq_rep (by decide)
        (fun t ht => no_name_of_preds (targetT_predsIn t ht) (by decide)))
      refine nameEq_trans ?_ (nameEq_rep (by decide)
        (fun t ht => no_name_of_preds (specT_predsIn t ht) (by decide)))
      refine nameEq_ins ?_
      intro t ht
      rcases List.mem_append.mp ht with hb | hb
      · exact no_name_of_preds (ownBlock_predsIn t hb) (by decide)
      · exact no_name_of_preds (ownBlock_predsIn t hb) (by decide)
    · refine matchEq_trans ?_ (matchEq_rep (by decide)
        (fun t ht => tameT_matchSafe (targetT_tame t ht)))
      refine matchEq_trans ?_ (matchEq_rep (by decide)
        (fun t ht => tameT_matchSafe (specT_tame t ht)))
      refine matchEq_ins ?_
      intro t ht
      rcases List.mem_append.mp ht with hb | hb
      · exact ownBlock_msafe (by decide) (by decide) (by decide) (by decide)
          (by decide) t hb
      · exact ownBlock_msafe (by decide) (by decide) (by decide) (by decide)
          (by decide) t hb
    · refine bizEq_trans ?_ (bizEq_rep (by decide)
        (fun t ht => tameT_matchSafe (targetT_tame t ht)))
      refine bizEq_trans ?_ (bizEq_rep (by decide)
        (fun t ht => tameT_matchSafe (specT_tame t ht)))
      refine bizEq_ins ?_
      intro t ht
      rcases List.mem_append.mp ht with hb | hb
      · exact ownBlock_msafe (by decide) (by decide) (by decide) (by decide)
          (by decide) t hb
      · exact ownBlock_msafe (by decide) (by decide) (by decide) (by decide)
          (by decide) t hb
  · refine mem_rep_of (mem_rep_of ?_ ?_) ?_
    · exact mem_ins hprov
    · rintro ⟨hx, -⟩
      simp at hx
    · rintro ⟨hx, -⟩
      simp at hx
  · refine groupSat_replace (noHit_of_subj targetT_subj (by simp))
      (noHit_of_subj (baseInfoTriples_subj d (Node.product c0)) (by simp)) ?_
    refine groupSat_replace (noHit_of_subj specT_subj (by simp))
      (noHit_of_subj (baseInfoTriples_subj d (Node.product c0)) (by simp)) ?_
    refine groupSat_insert ?_ hbase
    intro t ht
    rcases List.mem_append.mp ht with hb | hb
    · exact noHit_of_preds ownBlock_predsIn (by decide) t hb
    · exact noHit_of_preds ownBlock_predsIn (by decide) t hb
  · refine mem_rep_of (mem_rep_of ?_ ?_) ?_
    · exact List.mem_append_left _ (List.mem_append_right _ (by simp [ownBlock]))
    · rintro ⟨hx, -⟩
      simp at hx
    · rintro ⟨hx, -⟩
      simp at hx
  · refine mem_rep_of (mem_rep_of ?_ ?_) ?_
    · exact List.mem_append_left _ (List.mem_append_left _ (by simp [ownBlock]))
    · rintro ⟨hx, -⟩
      simp at hx
    · rintro ⟨hx, -⟩
      simp at hx
  · refine groupSat_replace (noHit_of_subj targetT_subj (by simp))
      (noHit_of_subj specT_subj (by simp)) ?_
    exact groupSat_establish
  · exact groupSat_establish
  · intro p' o hp hpb hmem
    rcases mem_replaceGroup.mp hmem with hb | ⟨h2m, -⟩
    · have := targetT_subj _ hb
      simp at this
    · rcases mem_replaceGroup.mp h2m with hb | ⟨h3m, -⟩
      · have := specT_subj _ hb
        simp at this
      · rcases List.mem_append.mp h3m with hb2 | h5m
        · rcases List.mem_append.mp hb2 with hb | hb <;>
            simp only [ownBlock, List.mem_cons, List.not_mem_nil, or_false,
              Triple.mk.injEq] at hb <;>
            rcases hb with ⟨-, hx, -⟩|⟨hx, -, -⟩|⟨hx, -, -⟩
          · subst hx
            simp at hp
          · simp at hx
          · simp at hx
          · subst hx
            simp at hp
          · simp at hx
          · simp at hx
        · exact hpu p' o (fun hx => hp (List.mem_append_left _ hx)) hpb h5m

theorem walk5 {d : Product} {j : Node} {c0 : Nat} {base : List Triple} {S4 : St}
    {cef : String} {a b : Nat}
    (W : WalkCore j d c0 base S4) (hctr : S4.ctr = c0 + 4) (ha : a < S4.ctr)
    (hcef : convertLfwUnitToCEFACT
      d.pricing.consumerPrice.measurementUnitPrice.unitOfMeasurement = .ok cef)
    (hprov : Triple.mk (Node.product c0) "prov:wasGeneratedBy" (Obj.node j) ∈ S4.store)
    (hbase : groupSat S4.store (Node.product c0) baseInfoPreds
      (baseInfoTriples d (Node.product c0)))
    (he1 : Triple.mk (Node.product c0) "veeakker:singleUnitPrice"
      (Obj.node (Node.priceSpec a)) ∈ S4.store)
    (he2 : Triple.mk (Node.product c0) "veeakker:targetUnit"
      (Obj.node (Node.quantVal b)) ∈ S4.store)
    (hg1 : groupSat S4.store (Node.priceSpec a) specPreds
      (specT (Node.priceSpec a) cef
        d.pricing.consumerPrice.measurementUnitPrice.money.amount))
    (hg2 : groupSat S4.store (Node.quantVal b) targetPreds
      (targetT (Node.quantVal b) cef d.pricing.measurementUnitVsOrderUnitRatio))
    (hpu : ∀ (p' : String) (o : Obj),
      p' ∉ (["a", "mu:uuid", "adms:identifier"] ++ ["prov:wasGeneratedBy"]) ++
        ["veeakker:singleUnitPrice", "veeakker:targetUnit"] →
      p' ∉ baseInfoPreds →
      Triple.mk (Node.product c0) p' o ∉ S4.store) :
    ∃ S5 : St, ensureProductOffers d (Node.product c0) S4 = .ok
      (⟨Node.offering S4.ctr, Node.typeAndQuantity (S4.ctr + 1),
        Node.priceSpec (S4.ctr + 2)⟩, S5) ∧
      WalkCore j d c0 base S5 ∧ S5.ctr = S4.ctr + 3 ∧
      S5.downloads = S4.downloads ∧ S5.now = S4.now ∧
      Triple.mk (Node.product c0) "prov:wasGeneratedBy" (Obj.node j) ∈ S5.store ∧
      groupSat S5.store (Node.product c0) baseInfoPreds
        (baseInfoTriples d (Node.product c0)) ∧
      Triple.mk (Node.product c0) "veeakker:singleUnitPrice"
        (Obj.node (Node.priceSpec a)) ∈ S5.store ∧
      Triple.mk (Node.product c0) "veeakker:targetUnit"
        (Obj.node (Node.quantVal b)) ∈ S5.store ∧
      groupSat S5.store (Node.priceSpec a) specPreds
        (specT (Node.priceSpec a) cef
          d.pricing.consumerPrice.measurementUnitPrice.money.amount) ∧
      groupSat S5.store (Node.quantVal b) targetPreds
        (targetT (Node.quantVal b) cef d.pricing.measurementUnitVsOrderUnitRatio) ∧
      Triple.mk (Node.product c0) "veeakker:offerings"
        (Obj.node (Node.offering S4.ctr)) ∈ S5.store ∧
      Triple.mk (Node.offering S4.ctr) "gr:includesObject"
        (Obj.node (Node.typeAndQuantity (S4.ctr + 1))) ∈ S5.store ∧
      Triple.mk (Node.offering S4.ctr) "gr:hasPriceSpecification"
        (Obj.node (Node.priceSpec (S4.ctr + 2))) ∈ S5.store ∧
      groupSat S5.store (Node.typeAndQuantity (S4.ctr + 1)) taqPreds
        (taqT (Node.typeAndQuantity (S4.ctr + 1))
          d.pricing.measurementUnitVsOrderUnitRatio cef) ∧
      groupSat S5.store (Node.priceSpec (S4.ctr + 2)) upsPreds
        (upsT (Node.priceSpec (S4.ctr + 2))
          d.pricing.consumerPrice.orderUnitPrice.money.amount) ∧
      (∀ (p' : String) (o : Obj),
        p' ∉ ((["a", "mu:uuid", "adms:identifier"] ++ ["prov:wasGeneratedBy"]) ++
          ["veeakker:singleUnitPrice", "veeakker:targetUnit"]) ++
          ["veeakker:offerings"] →
        p' ∉ baseInfoPreds →
        Triple.mk (Node.product c0) p' o ∉ S5.store) := by
  have h3 : ∀ o : Obj, Triple.mk (Node.product c0) "veeakker:offerings" o
      ∉ S4.store := fun o => hpu _ o (by decide) (by decide)
  have hfree : ∀ t ∈ S4.store, ¬ mentionsNode t (Node.offering S4.ctr) :=
    @Inv.freshFor S4 W.inv (Node.offering S4.ctr) S4.ctr rfl (Nat.le_refl _)
  have hnq : ∀ o : Obj, Triple.mk (Node.offering S4.ctr) "gr:includesObject" o
      ∉ (ownBlock (Node.product c0) "veeakker:offerings" "gr:Offering"
        (Node.offering S4.ctr) S4.ctr ++ S4.store) := by
    intro o ho
    rcases List.mem_append.mp ho with hb | hd
    · simp only [ownBlock, List.mem_cons, List.not_mem_nil, or_false,
        Triple.mk.injEq] at hb
      rcases hb with ⟨hx, -, -⟩|⟨-, hx, -⟩|⟨-, hx, -⟩
      · simp at hx
      · exact absurd hx (by decide)
      · exact absurd hx (by decide)
    · exact hfree _ hd (Or.inl rfl)
  have hnu : ∀ o : Obj, Triple.mk (Node.offering S4.ctr) "gr:hasPriceSpecification" o
      ∉ (ownBlock (Node.offering S4.ctr) "gr:includesObject" "gr:TypeAndQuantityNode"
          (Node.typeAndQuantity (S4.ctr + 1)) (S4.ctr + 1)
        ++ (ownBlock (Node.product c0) "veeakker:offerings" "gr:Offering"
          (Node.offering S4.ctr) S4.ctr ++ S4.store)) := by
    intro o ho
    rcases List.mem_append.mp ho with hb | hd
    · simp only [ownBlock, List.mem_cons, List.not_mem_nil, or_false,
        Triple.mk.injEq] at hb
      rcases hb with ⟨-, hx, -⟩|⟨hx, -, -⟩|⟨hx, -, -⟩
      · exact absurd hx (by decide)
      · simp at hx
      · simp at hx
    · rcases List.mem_append.mp hd with hb | hd2
      · simp only [ownBlock, List.mem_cons, List.not_mem_nil, or_false,
          Triple.mk.injEq] at hb
        rcases hb with ⟨hx, -, -⟩|⟨-, hx, -⟩|⟨-, hx, -⟩
        · simp at hx
        · exact absurd hx (by decide)
        · exact absurd hx (by decide)
      · exact hfree _ hd2 (Or.inl rfl)
  have hInvO : Inv
      { store := (ownBlock (Node.product c0) "veeakker:offerings" "gr:Offering"
          (Node.offering S4.ctr) S4.ctr ++ S4.store),
        ctr := S4.ctr + 1, downloads := S4.downloads, now := S4.now } :=
    inv_insert_own W.inv (by decide) (by decide) (by decide) (by decide) (by decide)
      rfl
      (by
        intro k hk
        injection hk with hk
        omega)
      h3
  have hInvQ : Inv
      { store := (ownBlock (Node.offering S4.ctr) "gr:includesObject"
          "gr:TypeAndQuantityNode" (Node.typeAndQuantity (S4.ctr + 1)) (S4.ctr + 1)
          ++ (ownBlock (Node.product c0) "veeakker:offerings" "gr:Offering"
            (Node.offering S4.ctr) S4.ctr ++ S4.store)),
        ctr := S4.ctr + 1 + 1, downloads := S4.downloads, now := S4.now } :=
    inv_insert_own hInvO (by decide) (by decide) (by decide) (by decide) (by decide)
      rfl
      (by
        intro k hk
        injection hk with hk
        show k < S4.ctr + 1
        omega)
      hnq
  have hInvU : Inv
      { store := (ownBlock (Node.offering S4.ctr) "gr:hasPriceSpecification"
          "gr:UnitPriceSpecification" (Node.priceSpec (S4.ctr + 2)) (S4.ctr + 2)
          ++ (ownBlock (Node.offering S4.ctr) "gr:includesObject"
            "gr:TypeAndQuantityNode" (Node.typeAndQuantity (S4.ctr + 1)) (S4.ctr + 1)
          ++ (ownBlock (Node.product c0) "veeakker:offerings" "gr:Offering"
            (Node.offering S4.ctr) S4.ctr ++ S4.store))),
        ctr := S4.ctr + 1 + 1 + 1, downloads := S4.downloads, now := S4.now } :=
    inv_insert_own hInvQ (by decide) (by decide) (by decide) (by decide) (by decide)
      rfl
      (by
        intro k hk
        injection hk with hk
        show k < S4.ctr + 1 + 1
        omega)
      hnu
  have hInvR : Inv
      { store := (replaceGroup (Node.priceSpec (S4.ctr + 2)) upsPreds
          (upsT (Node.priceSpec (S4.ctr + 2))
            d.pricing.consumerPrice.orderUnitPrice.money.amount)
          (ownBlock (Node.offering S4.ctr) "gr:hasPriceSpecification"
            "gr:UnitPriceSpecification" (Node.priceSpec (S4.ctr + 2)) (S4.ctr + 2)
          ++ (ownBlock (Node.offering S4.ctr) "gr:includesObject"
            "gr:TypeAndQuantityNode" (Node.typeAndQuantity (S4.ctr + 1)) (S4.ctr + 1)
          ++ (ownBlock (Node.product c0) "veeakker:offerings" "gr:Offering"
            (Node.offering S4.ctr) S4.ctr ++ S4.store)))),
        ctr := S4.ctr + 1 + 1 + 1, downloads := S4.downloads, now := S4.now } :=
    inv_replace_tame hInvU upsT_tame
      (by
        intro t ht v k hm hk
        rw [upsT_mentions ht hm] at hk
        injection hk with hk
        show k < S4.ctr + 1 + 1 + 1
        omega)
  have hInvS : Inv
      { store := (replaceGroup (Node.typeAndQuantity (S4.ctr + 1)) taqPreds
          (taqT (Node.typeAndQuantity (S4.ctr + 1))
            d.pricing.measurementUnitVsOrderUnitRatio cef)
          (replaceGroup (Node.priceSpec (S4.ctr + 2)) upsPreds
            (upsT (Node.priceSpec (S4.ctr + 2))
              d.pricing.consumerPrice.orderUnitPrice.money.amount)
            (ownBlock (Node.offering S4.ctr) "gr:hasPriceSpecification"
              "gr:UnitPriceSpecification" (Node.priceSpec (S4.ctr + 2)) (S4.ctr + 2)
            ++ (ownBlock (Node.offering S4.ctr) "gr:includesObject"
              "gr:TypeAndQuantityNode" (Node.typeAndQuantity (S4.ctr + 1)) (S4.ctr + 1)
            ++ (ownBlock (Node.product c0) "veeakker:offerings" "gr:Offering"
              (Node.offering S4.ctr) S4.ctr ++ S4.store))))),
        ctr := S4.ctr + 1 + 1 + 1, downloads := S4.downloads, now := S4.now } :=
    inv_replace_tame hInvR taqT_tame
      (by
        intro t ht v k hm hk
        rw [taqT_mentions ht hm] at hk
        injection hk with hk
        show k < S4.ctr + 1 + 1 + 1
        omega)
  refine ⟨_, offers_fresh h3 hfree hcef, ?_, rfl, rfl, rfl, ?_, ?_, ?_, ?_, ?_, ?_,
    ?_, ?_, ?_, ?_, ?_, ?_⟩
  · refine walkCore_step W hInvS ?_ ?_ ?_ ?_
    · refine lowEq_trans ?_ (lowEq_grp rfl (by omega) taqT_subj)
      refine lowEq_trans ?_ (lowEq_grp rfl (by omega) upsT_subj)
      refine lowEq_ins ?_
      intro t ht
      rcases List.mem_append.mp ht with hb2 | hb
      · rcases List.mem_append.mp hb2 with hb | hb <;>
          rcases ownBlock_subjIn t hb with hs | hs <;> rw [hs]
        · exact ⟨S4.ctr, rfl, by omega⟩
        · exact ⟨S4.ctr + 2, rfl, by omega⟩
        · exact ⟨S4.ctr, rfl, by omega⟩
        · exact ⟨S4.ctr + 1, rfl, by omega⟩
      · rcases ownBlock_subjIn t hb with hs | hs <;> rw [hs]
        · exact ⟨c0, rfl, Nat.le_refl _⟩
        · exact ⟨S4.ctr, rfl, by omega⟩
    · refine nameEq_trans ?_ (nameEq_rep (by decide)
        (fun t ht => no_name_of_preds (taqT_predsIn t ht) (by decide)))
      refine nameEq_trans ?_ (nameEq_rep (by decide)
        (fun t ht => no_name_of_preds (upsT_predsIn t ht) (by decide)))
      refine nameEq_ins ?_
      intro t ht
      rcases List.mem_append.mp ht with hb2 | hb
      · rcases List.mem_append.mp hb2 with hb | hb
        · exact no_name_of_preds (ownBlock_predsIn t hb) (by decide)
        · exact no_name_of_preds (ownBlock_predsIn t hb) (by decide)
      · exact no_name_of_preds (ownBlock_predsIn t hb) (by decide)
    · refine matchEq_trans ?_ (matchEq_rep (by decide)
        (fun t ht => tameT_matchSafe (taqT_tame t ht)))
      refine matchEq_trans ?_ (matchEq_rep (by decide)
        (fun t ht => tameT_matchSafe (upsT_tame t ht)))
      refine matchEq_ins ?_
      intro t ht
      rcases List.mem_append.mp ht with hb2 | hb
      · rcases List.mem_append.mp hb2 with hb | hb
        · exact ownBlock_msafe (by decide) (by decide) (by decide) (by decide)
            (by decide) t hb
        · exact ownBlock_msafe (by decide) (by decide) (by decide) (by decide)
            (by decide) t hb
      · exact ownBlock_msafe (by decide) (by decide) (by decide) (by decide)
          (by decide) t hb
    · refine bizEq_trans ?_ (bizEq_rep (by decide)
        (fun t ht => tameT_matchSafe (taqT_tame t ht)))
      refine bizEq_trans ?_ (bizEq_rep (by decide)
        (fun t ht => tameT_matchSafe (upsT_tame t ht)))
      refine bizEq_ins ?_
      intro t ht
      rcases List.mem_append.mp ht with hb2 | hb
      · rcases List.mem_append.mp hb2 with hb | hb
        · exact ownBlock_msafe (by decide) (by decide) (by decide) (by decide)
            (by decide) t hb
        · exact ownBlock_msafe (by decide) (by decide) (by decide) (by decide)
            (by decide) t hb
      · exact ownBlock_msafe (by decide) (by decide) (by decide) (by decide)
          (by decide) t hb
  · refine mem_rep_of (mem_rep_of (mem_ins hprov) ?_) ?_
    · rintro ⟨hx, -⟩
      simp at hx
    · rintro ⟨hx, -⟩
      simp at hx
  · refine groupSat_replace (noHit_of_subj taqT_subj (by simp))
      (noHit_of_subj (baseInfoTriples_subj d (Node.product c0)) (by simp)) ?_
    refine groupSat_replace (noHit_of_subj upsT_subj (by simp))
      (noHit_of_subj (baseInfoTriples_subj d (Node.product c0)) (by simp)) ?_
    refine groupSat_insert ?_ hbase
    intro t ht
    rcases List.mem_append.mp ht with hb2 | hb
    · rcases List.mem_append.mp hb2 with hb | hb
      · exact noHit_of_preds ownBlock_predsIn (by decide) t hb
      · exact noHit_of_preds ownBlock_predsIn (by decide) t hb
    · exact noHit_of_preds ownBlock_predsIn (by decide) t hb
  · refine mem_rep_of (mem_rep_of (mem_ins he1) ?_) ?_
    · rintro ⟨hx, -⟩
      simp at hx
    · rintro ⟨hx, -⟩
      simp at hx
  · refine mem_rep_of (mem_rep_of (mem_ins he2) ?_) ?_
    · rintro ⟨hx, -⟩
      simp at hx
    · rintro ⟨hx, -⟩
      simp at hx
  · refine groupSat_replace (noHit_of_subj taqT_subj (by simp))
      (noHit_of_subj specT_subj (by simp)) ?_
    refine groupSat_replace (noHit_of_subj upsT_subj ?_)
      (noHit_of_subj specT_subj ?_) ?_
    · intro he
      injection he with he
      omega
    · intro he
      injection he with he
      omega
    refine groupSat_insert ?_ hg1
    intro t ht
    rintro ⟨hs, -⟩
    rcases List.mem_append.mp ht with hb2 | hb
    · rcases List.mem_append.mp hb2 with hb | hb <;>
        rcases ownBlock_subjIn t hb with h | h <;> rw [h] at hs
      · simp at hs
      · injection hs with hs
        omega
      · simp at hs
      · simp at hs
    · rcases ownBlock_subjIn t hb with h | h <;> rw [h] at hs
      · simp at hs
      · simp at hs
  · refine groupSat_replace (noHit_of_subj taqT_subj (by simp))
      (noHit_of_subj targetT_subj (by simp)) ?_
    refine groupSat_replace (noHit_of_subj upsT_subj (by simp))
      (noHit_of_subj targetT_subj (by simp)) ?_
    refine groupSat_insert ?_ hg2
    intro t ht
    rintro ⟨hs, -⟩
    rcases List.mem_append.mp ht with hb2 | hb
    · rcases List.mem_append.mp hb2 with hb | hb <;>
        rcases ownBlock_subjIn t hb with h | h <;> rw [h] at hs
      · simp at hs
      · simp at hs
      · simp at hs
      · simp at hs
    · rcases ownBlock_subjIn t hb with h | h <;> rw [h] at hs
      · simp at hs
      · simp at hs
  · refine mem_rep_of (mem_rep_of ?_ ?_) ?_
    · exact List.mem_append_left _ (List.mem_append_right _ (by simp [ownBlock]))
    · rintro ⟨hx, -⟩
      simp at hx
    · rintro ⟨hx, -⟩
      simp at hx
  · refine mem_rep_of (mem_rep_of ?_ ?_) ?_
    · exact List.mem_append_left _ (List.mem_append_left _
        (List.mem_append_right _ (by simp [ownBlock])))
    · rintro ⟨hx, -⟩
      simp at hx
    · rintro ⟨hx, -⟩
      simp at hx
  · refine mem_rep_of (mem_rep_of ?_ ?_) ?_
    · exact List.mem_append_left _ (List.mem_append_left _
        (List.mem_append_left _ (by simp [ownBlock])))
    · rintro ⟨hx, -⟩
      simp at hx
    · rintro ⟨hx, -⟩
      simp at hx
  · exact groupSat_establish
  · refine groupSat_replace (noHit_of_subj taqT_subj (by simp))
      (noHit_of_subj upsT_subj (by simp)) ?_
    exact groupSat_establish
  · intro p' o hp hpb hmem
    rcases mem_replaceGroup.mp hmem with hb | ⟨h2m, -⟩
    · have := taqT_subj _ hb
      simp at this
    · rcases mem_replaceGroup.mp h2m with hb | ⟨h3m, -⟩
      · have := upsT_subj _ hb
        simp at this
      · rcases List.mem_append.mp h3m with hb2 | h5m
        · rcases List.mem_append.mp hb2 with hb3 | hb
          · rcases List.mem_append.mp hb3 with hb | hb <;>
              simp only [ownBlock, List.mem_cons, List.not_mem_nil, or_false,
                Triple.mk.injEq] at hb <;>
              rcases hb with ⟨hx, -, -⟩|⟨hx, -, -⟩|⟨hx, -, -⟩ <;> simp at hx
          · simp only [ownBlock, List.mem_cons, List.not_mem_nil, or_false,
              Triple.mk.injEq] at hb
            rcases hb with ⟨-, hx, -⟩|⟨hx, -, -⟩|⟨hx, -, -⟩
            · subst hx
              simp at hp
            · simp at hx
            · simp at hx
        · exact hpu p' o (fun hx => hp (List.mem_append_left _ hx)) hpb h5m

theorem walk6 {d : Product} {j : Node} {c0 : Nat} {base : List Triple} {S5 : St}
    {cef : String} {a b e f g : Nat}
    (W : WalkCore j d c0 base S5) (hctr : S5.ctr = c0 + 7)
    (hprov : Triple.mk (Node.product c0) "prov:wasGeneratedBy" (Obj.node j) ∈ S5.store)
    (hbase : groupSat S5.store (Node.product c0) baseInfoPreds
      (baseInfoTriples d (Node.product c0)))
    (he1 : Triple.mk (Node.product c0) "veeakker:singleUnitPrice"
      (Obj.node (Node.priceSpec a)) ∈ S5.store)
    (he2 : Triple.mk (Node.product c0) "veeakker:targetUnit"
      (Obj.node (Node.quantVal b)) ∈ S5.store)
    (hg1 : groupSat S5.store (Node.priceSpec a) specPreds
      (specT (Node.priceSpec a) cef
        d.pricing.consumerPrice.measurementUnitPrice.money.amount))
    (hg2 : groupSat S5.store (Node.quantVal b) targetPreds
      (targetT (Node.quantVal b) cef d.pricing.measurementUnitVsOrderUnitRatio))
    (he3 : Triple.mk (Node.product c0) "veeakker:offerings"
      (Obj.node (Node.offering e)) ∈ S5.store)
    (he4 : Triple.mk (Node.offering e) "gr:includesObject"
      (Obj.node (Node.typeAndQuantity f)) ∈ S5.store)
    (he5 : Triple.mk (Node.offering e) "gr:hasPriceSpecification"
      (Obj.node (Node.priceSpec g)) ∈ S5.store)
    (hgt : groupSat S5.store (Node.typeAndQuantity f) taqPreds
      (taqT (Node.typeAndQuantity f) d.pricing.measurementUnitVsOrderUnitRatio cef))
    (hgu : groupSat S5.store (Node.priceSpec g) upsPreds
      (upsT (Node.priceSpec g) d.pricing.consumerPrice.orderUnitPrice.money.amount))
    (hpu : ∀ (p' : String) (o : Obj),
      p' ∉ ((["a", "mu:uuid", "adms:identifier"] ++ ["prov:wasGeneratedBy"]) ++
        ["veeakker:singleUnitPrice", "veeakker:targetUnit"]) ++
        ["veeakker:offerings"] →
      p' ∉ baseInfoPreds →
      Triple.mk (Node.product c0) p' o ∉ S5.store) :
    ∃ S6 : St, ensureProductAllergens d (Node.product c0)
        (ensureProductIngredients d (Node.product c0) S5) = S6 ∧
      WalkCore j d c0 base S6 ∧ S6.ctr = S5.ctr ∧
      S6.downloads = S5.downloads ∧ S6.now = S5.now ∧
      Triple.mk (Node.product c0) "prov:wasGeneratedBy" (Obj.node j) ∈ S6.store ∧
      groupSat S6.store (Node.product c0) baseInfoPreds
        (baseInfoTriples d (Node.product c0)) ∧
      Triple.mk (Node.product c0) "veeakker:singleUnitPrice"
        (Obj.node (Node.priceSpec a)) ∈ S6.store ∧
      Triple.mk (Node.product c0) "veeakker:targetUnit"
        (Obj.node (Node.quantVal b)) ∈ S6.store ∧
      groupSat S6.store (Node.priceSpec a) specPreds
        (specT (Node.priceSpec a) cef
          d.pricing.consumerPrice.measurementUnitPrice.money.amount) ∧
      groupSat S6.store (Node.quantVal b) targetPreds
        (targetT (Node.quantVal b) cef d.pricing.measurementUnitVsOrderUnitRatio) ∧
      Triple.mk (Node.product c0) "veeakker:offerings"
        (Obj.node (Node.offering e)) ∈ S6.store ∧
      Triple.mk (Node.offering e) "gr:includesObject"
        (Obj.node (Node.typeAndQuantity f)) ∈ S6.store ∧
      Triple.mk (Node.offering e) "gr:hasPriceSpecification"
        (Obj.node (Node.priceSpec g)) ∈ S6.store ∧
      groupSat S6.store (Node.typeAndQuantity f) taqPreds
        (taqT (Node.typeAndQuantity f) d.pricing.measurementUnitVsOrderUnitRatio cef) ∧
      groupSat S6.store (Node.priceSpec g) upsPreds
        (upsT (Node.priceSpec g) d.pricing.consumerPrice.orderUnitPrice.money.amount) ∧
      groupSat S6.store (Node.product c0) ["food:ingredientListAsText"]
        (ingrT (Node.product c0) d.ingredients) ∧
      groupSat S6.store (Node.product c0) ["veeakker:allergensAsText"]
        (allergT (Node.product c0) d.allergens) ∧
      (∀ (p' : String) (o : Obj),
        p' ∉ (((["a", "mu:uuid", "adms:identifier"] ++ ["prov:wasGeneratedBy"]) ++
          ["veeakker:singleUnitPrice", "veeakker:targetUnit"]) ++
          ["veeakker:offerings"]) ++
          ["food:ingredientListAsText", "veeakker:allergensAsText"] →
        p' ∉ baseInfoPreds →
        Triple.mk (Node.product c0) p' o ∉ S6.store) := by
  refine ⟨{ S5 with store := (replaceGroup (Node.product c0)
      ["veeakker:allergensAsText"] (allergT (Node.product c0) d.allergens)
      (replaceGroup (Node.product c0) ["food:ingredientListAsText"]
        (ingrT (Node.product c0) d.ingredients) S5.store)) },
    ?_, ?_, ?_, ?_, ?_, ?_, ?_, ?_, ?_, ?_, ?_, ?_, ?_, ?_, ?_, ?_, ?_,
    ?_, ?_⟩
  · rw [ensureProductIngredients_eq, ensureProductAllergens_eq]
  · refine walkCore_step W ?_ ?_ ?_ ?_ ?_
    · refine inv_replace_tame (inv_replace_tame W.inv ingrT_tame ?_) allergT_tame ?_
      · intro t ht v k hm hk
        rw [ingrT_mentions ht hm] at hk
        injection hk with hk
        omega
      · intro t ht v k hm hk
        rw [allergT_mentions ht hm] at hk
        injection hk with hk
        show k < S5.ctr
        omega
    · refine lowEq_trans ?_ (lowEq_grp rfl (Nat.le_refl _) allergT_subj)
      exact lowEq_grp rfl (Nat.le_refl _) ingrT_subj
    · refine nameEq_trans ?_ (nameEq_rep (by decide)
        (fun t ht => no_name_of_preds (allergT_predsIn t ht) (by decide)))
      exact nameEq_rep (by decide)
        (fun t ht => no_name_of_preds (ingrT_predsIn t ht) (by decide))
    · refine matchEq_trans ?_ (matchEq_rep (by decide)
        (fun t ht => tameT_matchSafe (allergT_tame t ht)))
      exact matchEq_rep (by decide) (fun t ht => tameT_matchSafe (ingrT_tame t ht))
    · refine bizEq_trans ?_ (bizEq_rep (by decide)
        (fun t ht => tameT_matchSafe (allergT_tame t ht)))
      exact bizEq_rep (by decide) (fun t ht => tameT_matchSafe (ingrT_tame t ht))
  · rfl
  · rfl
  · rfl
  · refine mem_rep_of (mem_rep_of hprov ?_) ?_
    · rintro ⟨-, hx⟩
      exact absurd hx (show "prov:wasGeneratedBy" ∉ ["food:ingredientListAsText"]
        by decide)
    · rintro ⟨-, hx⟩
      exact absurd hx (show "prov:wasGeneratedBy" ∉ ["veeakker:allergensAsText"]
        by decide)
  · refine groupSat_replace (noHit_of_preds allergT_predsIn (by decide))
      (noHit_of_preds (baseInfoTriples_preds d (Node.product c0)) (by decide)) ?_
    exact groupSat_replace (noHit_of_preds ingrT_predsIn (by decide))
      (noHit_of_preds (baseInfoTriples_preds d (Node.product c0)) (by decide)) hbase
  · refine mem_rep_of (mem_rep_of he1 ?_) ?_
    · rintro ⟨-, hx⟩
      exact absurd hx (show "veeakker:singleUnitPrice" ∉ ["food:ingredientListAsText"]
        by decide)
    · rintro ⟨-, hx⟩
      exact absurd hx (show "veeakker:singleUnitPrice" ∉ ["veeakker:allergensAsText"]
        by decide)
  · refine mem_rep_of (mem_rep_of he2 ?_) ?_
    · rintro ⟨-, hx⟩
      exact absurd hx (show "veeakker:targetUnit" ∉ ["food:ingredientListAsText"]
        by decide)
    · rintro ⟨-, hx⟩
      exact absurd hx (show "veeakker:targetUnit" ∉ ["veeakker:allergensAsText"]
        by decide)
  · refine groupSat_replace (noHit_of_subj allergT_subj (by simp))
      (noHit_of_subj specT_subj (by simp)) ?_
    exact groupSat_replace (noHit_of_subj ingrT_subj (by simp))
      (noHit_of_subj specT_subj (by simp)) hg1
  · refine groupSat_replace (noHit_of_subj allergT_subj (by simp))
      (noHit_of_subj targetT_subj (by simp)) ?_
    exact groupSat_replace (noHit_of_subj ingrT_subj (by simp))
      (noHit_of_subj targetT_subj (by simp)) hg2
  · refine mem_rep_of (mem_rep_of he3 ?_) ?_
    · rintro ⟨-, hx⟩
      exact absurd hx (show "veeakker:offerings" ∉ ["food:ingredientListAsText"]
        by decide)
    · rintro ⟨-, hx⟩
      exact absurd hx (show "veeakker:offerings" ∉ ["veeakker:allergensAsText"]
        by decide)
  · refine mem_rep_of (mem_rep_of he4 ?_) ?_
    · rintro ⟨hx, -⟩
      simp at hx
    · rintro ⟨hx, -⟩
      simp at hx
  · refine mem_rep_of (mem_rep_of he5 ?_) ?_
    · rintro ⟨hx, -⟩
      simp at hx
    · rintro ⟨hx, -⟩
      simp at hx
  · refine groupSat_replace (noHit_of_subj allergT_subj (by simp))
      (noHit_of_subj taqT_subj (by simp)) ?_
    exact groupSat_replace (noHit_of_subj ingrT_subj (by simp))
      (noHit_of_subj taqT_subj (by simp)) hgt
  · refine groupSat_replace (noHit_of_subj allergT_subj (by simp))
      (noHit_of_subj upsT_subj (by simp)) ?_
    exact groupSat_replace (noHit_of_subj ingrT_subj (by simp))
      (noHit_of_subj upsT_subj (by simp)) hgu
  · refine groupSat_replace (noHit_of_preds allergT_predsIn (by decide))
      (noHit_of_preds ingrT_predsIn (by decide)) ?_
    exact groupSat_establish
  · exact groupSat_establish
  · intro p' o hp hpb hmem
    rcases mem_replaceGroup.mp hmem with hb | ⟨h2m, -⟩
    · have hpm := allergT_predsIn _ hb
      simp only [List.mem_singleton] at hpm
      rw [hpm] at hp
      simp at hp
    · rcases mem_replaceGroup.mp h2m with hb | ⟨h3m, -⟩
      · have hpm := ingrT_predsIn _ hb
        simp only [List.mem_singleton] at hpm
        rw [hpm] at hp
        simp at hp
      · exact hpu p' o (fun hx => hp (List.mem_append_left _ hx)) hpb h3m

theorem walk7 {d : Product} {j : Node} {c0 : Nat} {base : List Triple} {S6 : St}
    {cef : String} {a b e f g : Nat}
    (W : WalkCore j d c0 base S6) (hc0 : c0 < S6.ctr)
    (hprov : Triple.mk (Node.product c0) "prov:wasGeneratedBy" (Obj.node j) ∈ S6.store)
    (hbase : groupSat S6.store (Node.product c0) baseInfoPreds
      (baseInfoTriples d (Node.product c0)))
    (he1 : Triple.mk (Node.product c0) "veeakker:singleUnitPrice"
      (Obj.node (Node.priceSpec a)) ∈ S6.store)
    (he2 : Triple.mk (Node.product c0) "veeakker:targetUnit"
      (Obj.node (Node.quantVal b)) ∈ S6.store)
    (hg1 : groupSat S6.store (Node.priceSpec a) specPreds
      (specT (Node.priceSpec a) cef
        d.pricing.consumerPrice.measurementUnitPrice.money.amount))
    (hg2 : groupSat S6.store (Node.quantVal b) targetPreds
      (targetT (Node.quantVal b) cef d.pricing.measurementUnitVsOrderUnitRatio))
    (he3 : Triple.mk (Node.product c0) "veeakker:offerings"
      (Obj.node (Node.offering e)) ∈ S6.store)
    (he4 : Triple.mk (Node.offering e) "gr:includesObject"
      (Obj.node (Node.typeAndQuantity f)) ∈ S6.store)
    (he5 : Triple.mk (Node.offering e) "gr:hasPriceSpecification"
      (Obj.node (Node.priceSpec g)) ∈ S6.store)
    (hgt : groupSat S6.store (Node.typeAndQuantity f) taqPreds
      (taqT (Node.typeAndQuantity f) d.pricing.measurementUnitVsOrderUnitRatio cef))
    (hgu : groupSat S6.store (Node.priceSpec g) upsPreds
      (upsT (Node.priceSpec g) d.pricing.consumerPrice.orderUnitPrice.money.amount))
    (hgi : groupSat S6.store (Node.product c0) ["food:ingredientListAsText"]
      (ingrT (Node.product c0) d.ingredients))
    (hga : groupSat S6.store (Node.product c0) ["veeakker:allergensAsText"]
      (allergT (Node.product c0) d.allergens))
    (hpu : ∀ (p' : String) (o : Obj),
      p' ∉ (((["a", "mu:uuid", "adms:identifier"] ++ ["prov:wasGeneratedBy"]) ++
        ["veeakker:singleUnitPrice", "veeakker:targetUnit"]) ++
        ["veeakker:offerings"]) ++
        ["food:ingredientListAsText", "veeakker:allergensAsText"] →
      p' ∉ baseInfoPreds →
      Triple.mk (Node.product c0) p' o ∉ S6.store) :
    ∃ S7 : St, ensureProductPicture d (Node.product c0) S6 = S7 ∧
      WalkCore j d c0 base S7 ∧ S6.ctr ≤ S7.ctr ∧
      Triple.mk (Node.product c0) "prov:wasGeneratedBy" (Obj.node j) ∈ S7.store ∧
      groupSat S7.store (Node.product c0) baseInfoPreds
        (baseInfoTriples d (Node.product c0)) ∧
      Triple.mk (Node.product c0) "veeakker:singleUnitPrice"
        (Obj.node (Node.priceSpec a)) ∈ S7.store ∧
      Triple.mk (Node.product c0) "veeakker:targetUnit"
        (Obj.node (Node.quantVal b)) ∈ S7.store ∧
      groupSat S7.store (Node.priceSpec a) specPreds
        (specT (Node.priceSpec a) cef
          d.pricing.consumerPrice.measurementUnitPrice.money.amount) ∧
      groupSat S7.store (Node.quantVal b) targetPreds
        (targetT (Node.quantVal b) cef d.pricing.measurementUnitVsOrderUnitRatio) ∧
      Triple.mk (Node.product c0) "veeakker:offerings"
        (Obj.node (Node.offering e)) ∈ S7.store ∧
      Triple.mk (Node.offering e) "gr:includesObject"
        (Obj.node (Node.typeAndQuantity f)) ∈ S7.store ∧
      Triple.mk (Node.offering e) "gr:hasPriceSpecification"
        (Obj.node (Node.priceSpec g)) ∈ S7.store ∧
      groupSat S7.store (Node.typeAndQuantity f) taqPreds
        (taqT (Node.typeAndQuantity f) d.pricing.measurementUnitVsOrderUnitRatio cef) ∧
      groupSat S7.store (Node.priceSpec g) upsPreds
        (upsT (Node.priceSpec g) d.pricing.consumerPrice.orderUnitPrice.money.amount) ∧
      groupSat S7.store (Node.product c0) ["food:ingredientListAsText"]
        (ingrT (Node.product c0) d.ingredients) ∧
      groupSat S7.store (Node.product c0) ["veeakker:allergensAsText"]
        (allergT (Node.product c0) d.allergens) ∧
      PicSat d (Node.product c0) S7.store := by
  have hthumb : ∀ o : Obj, Triple.mk (Node.product c0) "veeakker:thumbnail" o
      ∉ S6.store := fun o => hpu _ o (by decide) (by decide)
  have hfreshEq := @ensureProductPicture_fresh d (Node.product c0) S6 hthumb
  by_cases himg : truthyOpt d.image = true
  · rw [if_pos himg] at hfreshEq
    have hmentP : ∀ t ∈ newPictureBlock (Node.product c0) (d.image.getD "")
        S6.ctr (S6.ctr + 1) S6.now, ∀ (u : Node) (k : Nat),
        mentionsNode t u → idx u = some k →
        k < ({ S6 with ctr := S6.ctr + 2 } : St).ctr := by
      intro t ht u k hm hk
      show k < S6.ctr + 2
      rcases newPictureBlock_mentions ht hm with hu | hu | hu | hu
      · rw [hu] at hk
        injection hk with hk
        omega
      · rw [hu] at hk
        injection hk with hk
        omega
      · rw [hu] at hk
        injection hk with hk
        omega
      · rw [hu] at hk
        cases hk
    refine ⟨_, hfreshEq, ?_, ?_, mem_ins hprov,
      groupSat_insert (noHit_of_preds newPictureBlock_predsIn (by decide)) hbase,
      mem_ins he1, mem_ins he2,
      groupSat_insert (noHit_of_preds newPictureBlock_predsIn (by decide)) hg1,
      groupSat_insert (noHit_of_preds newPictureBlock_predsIn (by decide)) hg2,
      mem_ins he3, mem_ins he4, mem_ins he5,
      groupSat_insert (noHit_of_preds newPictureBlock_predsIn (by decide)) hgt,
      groupSat_insert (noHit_of_preds newPictureBlock_predsIn (by decide)) hgu,
      groupSat_insert (noHit_of_preds newPictureBlock_predsIn (by decide)) hgi,
      groupSat_insert (noHit_of_preds newPictureBlock_predsIn (by decide)) hga,
      ?_⟩
    · refine walkCore_step W
        (inv_repack (inv_insert_tame (inv_ctr_le W.inv (by omega))
          newPictureBlock_tame hmentP)) ?_ ?_ ?_ ?_
      · refine lowEq_ins ?_
        intro t ht
        rcases newPictureBlock_subjIn t ht with hs | hs | hs <;> rw [hs]
        · exact ⟨c0, rfl, Nat.le_refl _⟩
        · exact ⟨S6.ctr, rfl, by omega⟩
        · exact ⟨S6.ctr, rfl, by omega⟩
      · exact nameEq_ins
          (fun t ht => no_name_of_preds (newPictureBlock_predsIn t ht) (by decide))
      · exact matchEq_ins (fun t ht => tameT_matchSafe (newPictureBlock_tame t ht))
      · exact bizEq_ins (fun t ht => tameT_matchSafe (newPictureBlock_tame t ht))
    · show S6.ctr ≤ S6.ctr + 2
      omega
    · unfold PicSat
      rw [if_pos himg]
      refine ⟨Node.file S6.ctr, ?_, ?_⟩
      · exact List.mem_append_left _ (by simp [newPictureBlock])
      · exact List.mem_append_left _ (by simp [newPictureBlock])
  · rw [if_neg himg] at hfreshEq
    refine ⟨S6, hfreshEq, W, Nat.le_refl _, hprov, hbase, he1, he2, hg1, hg2,
      he3, he4, he5, hgt, hgu, hgi, hga, ?_⟩
    unfold PicSat
    rw [if_neg himg]
    exact fun o => hthumb o

/-- Walking a fresh product through every reconciliation layer up to (not
including) the supplier link: the state right before `loadProductSupplier`
satisfies the whole pre-supplier body and the frame bundle. -/
theorem loadProduct_preSup {detail : Int → Product} {p0 : Product} {j : Node} {st : St}
    {cef : String}
    (hInv : Inv st)
    (hfind : findProductMeta st.store (toString (detail p0.id).id) = none)
    (hig' : ¬ supplierIgnored (detail p0.id).supplier = true)
    (hcef : convertLfwUnitToCEFACT
      (detail p0.id).pricing.consumerPrice.measurementUnitPrice.unitOfMeasurement
      = .ok cef)
    (hj : ∀ k, idx j = some k → k < st.ctr) :
    ∃ (S : St) (offN : Nat),
      loadProduct detail p0 ⟨true, some j⟩ st =
        (match (detail p0.id).supplier with
         | .info i => .ok (loadProductSupplier (Node.offering offN) i S)
         | .name _ => .ok S) ∧
      WalkCore j (detail p0.id) st.ctr st.store S ∧
      st.ctr ≤ offN ∧ offN < S.ctr ∧ st.ctr < S.ctr ∧
      ProdBodyAt j (detail p0.id) (Node.product st.ctr) (Node.offering offN)
        S.store := by
  obtain ⟨S1, eq1, W1, hc1, -, -, hp1⟩ := @walk1 (detail p0.id) j st hInv hfind
  obtain ⟨S2, eq2, W2, hc2, -, -, hprov2, hp2⟩ := walk2 W1 hc1 hj hp1
  obtain ⟨S3, eq3, W3, hc3, -, -, hprov3, hbase3, hp3⟩ := walk3 W2 hc2 hprov2 hp2
  obtain ⟨S4, eq4, W4, hc4, -, -, hprov4, hbase4, he1, he2, hg1, hg2, hp4⟩ :=
    walk4 W3 hc3 hcef hprov3 hbase3 hp3
  rw [hc3] at he1 he2 hg1 hg2
  have hc4' : S4.ctr = st.ctr + 4 := by omega
  obtain ⟨S5, eq5, W5, hc5, -, -, hprov5, hbase5, he1', he2', hg1', hg2', he3,
    he4, he5, hgt, hgu, hp5⟩ :=
    walk5 W4 hc4' (by omega) hcef hprov4 hbase4 he1 he2 hg1 hg2 hp4
  have hc5' : S5.ctr = st.ctr + 7 := by omega
  obtain ⟨S6, eq6, W6, hc6, -, -, hprov6, hbase6, he1'', he2'', hg1'', hg2'', he3',
    he4', he5', hgt', hgu', hgi, hga, hp6⟩ :=
    walk6 W5 hc5' hprov5 hbase5 he1' he2' hg1' hg2' he3 he4 he5 hgt hgu hp5
  obtain ⟨S7, eq7, W7, hle7, hprov7, hbase7, he1''', he2''', hg1''', hg2''', he3'',
    he4'', he5'', hgt'', hgu'', hgi', hga', hpic⟩ :=
    walk7 W6 (by omega) hprov6 hbase6 he1'' he2'' hg1'' hg2'' he3' he4' he5' hgt'
      hgu' hgi hga hp6
  refine ⟨S7, S4.ctr, ?_, W7, by omega, by omega, by omega,
    hprov7, hbase7,
    ⟨cef, hcef, ⟨st.ctr + 2, he1''', hg1'''⟩, ⟨st.ctr + 2 + 1, he2''', hg2'''⟩,
      ⟨S4.ctr, rfl, he3'', ⟨S4.ctr + 1, he4'', hgt''⟩, ⟨S4.ctr + 2, he5'', hgu''⟩⟩⟩,
    hgi', hga', hpic⟩
  simp only [loadProduct, if_true]
  rw [eq1]
  dsimp only
  rw [if_neg hig']
  rw [eq2, eq3, eq4]
  simp only [Except.bind, bind]
  rw [eq5]
  simp only [Except.bind, bind]
  rw [eq6, eq7]

/-- Loading a product whose identity is not yet in the store: the run
succeeds, creates exactly the one new identity match, keeps every name
triple and supplier match, and afterwards fully reflects the payload while
every previously reflected payload stays reflected. -/
theorem loadProduct_new {detail : Int → Product} {p0 : Product} {j : Node} {st st' : St}
    (hInv : Inv st)
    (hfind : findProductMeta st.store (toString (detail p0.id).id) = none)
    (hig : supplierIgnored (detail p0.id).supplier = false)
    (hj : ∀ k, idx j = some k → k < st.ctr)
    (hnshape : ∀ t ∈ st.store, t.p = "gr:name" → ∃ n, t.s = Node.supplier n)
    (hnameFun : ∀ (su : Node) (n1 n2 : String),
      Triple.mk su "gr:name" (Obj.str n1) ∈ st.store →
      Triple.mk su "gr:name" (Obj.str n2) ∈ st.store → n1 = n2)
    (hnameUniq : ∀ (su1 su2 : Node) (n : String),
      Triple.mk su1 "gr:name" (Obj.str n) ∈ st.store →
      Triple.mk su2 "gr:name" (Obj.str n) ∈ st.store → su1 = su2)
    (hcons : SupplierConsistent detail)
    (h : loadProduct detail p0 ⟨true, some j⟩ st = .ok st') :
    Inv st' ∧ st.ctr < st'.ctr ∧
    NameEq st.store st'.store ∧
    (∀ (s : String) (p i : Node), ProdMatch st'.store s p i →
      ProdMatch st.store s p i ∨ s = toString (detail p0.id).id) ∧
    BizEq st.store st'.store ∧
    ProdSat j (detail p0.id) st'.store ∧
    (∀ iq : Int, ProdSat j (detail iq) st.store → ProdSat j (detail iq) st'.store) := by
  have hig' : ¬ supplierIgnored (detail p0.id).supplier = true := by
    rw [hig]
    exact Bool.false_ne_true
  cases hcv : convertLfwUnitToCEFACT
      (detail p0.id).pricing.consumerPrice.measurementUnitPrice.unitOfMeasurement with
  | error m =>
    exfalso
    obtain ⟨S1, eq1, W1, hc1, -, -, hp1⟩ := @walk1 (detail p0.id) j st hInv hfind
    simp only [loadProduct, if_true] at h
    rw [eq1] at h
    dsimp only at h
    rw [if_neg hig'] at h
    rw [dp_conv_error hcv] at h
    simp only [Except.bind, bind] at h
    exact Except.noConfusion h
  | ok cef =>
    obtain ⟨S, offN, heq, W, hoffLo, hoffHi, hstlt, hbody⟩ :=
      loadProduct_preSup hInv hfind hig' hcv hj
    rw [heq] at h
    cases hsup : (detail p0.id).supplier with
    | name s =>
      rw [hsup] at h
      injection h with h
      subst h
      refine ⟨W.inv, hstlt, W.name, W.mchar, W.biz, ?_, ?_⟩
      · refine ⟨st.ctr, st.ctr + 1, W.mself, fun higf => ?_⟩
        refine bodyAt_to_body hbody ?_
        intro i2 hi2 su hsu
        rw [hsup] at hi2
        simp at hi2
      · intro iq hsatq
        exact prodSat_low W.low W.name (fun t ht u k hm hk => hInv.fresh t ht u hm k hk)
          hnshape hsatq
    | info i =>
      rw [hsup] at h
      injection h with h
      cases hfs : findSupplierByName S.store i.name with
      | none =>
        have hls : loadProductSupplier (Node.offering offN) i S = S := by
          unfold loadProductSupplier
          rw [hfs]
        rw [hls] at h
        subst h
        refine ⟨W.inv, hstlt, W.name, W.mchar, W.biz, ?_, ?_⟩
        · refine ⟨st.ctr, st.ctr + 1, W.mself, fun higf => ?_⟩
          refine bodyAt_to_body hbody ?_
          intro i2 hi2 su hsu
          rw [hsup] at hi2
          injection hi2 with hi2
          subst hi2
          exact absurd hsu (findSupplierByName_none hfs su)
        · intro iq hsatq
          exact prodSat_low W.low W.name
            (fun t ht u k hm hk => hInv.fresh t ht u hm k hk) hnshape hsatq
      | some su =>
        have hsuName : Triple.mk su "gr:name" (Obj.str i.name) ∈ S.store :=
          findSupplierByName_sound hfs
        obtain ⟨nsu, hsuEq⟩ : ∃ n, su = Node.supplier n := by
          have hsh := nshape_trans_eq W.name hnshape _ hsuName rfl
          exact hsh
        subst hsuEq
        have hls : loadProductSupplier (Node.offering offN) i S
            = { S with store := (replaceGroup (Node.supplier nsu) supPreds
                (supT (Node.supplier nsu) i (Node.offering offN)) S.store) } := by
          unfold loadProductSupplier
          rw [hfs]
          rfl
        rw [hls] at h
        subst h
        have hsuName0 : Triple.mk (Node.supplier nsu) "gr:name" (Obj.str i.name)
            ∈ st.store := (W.name _ rfl).mpr hsuName
        have hsuBound : ∀ k, idx (Node.supplier nsu) = some k → k < S.ctr :=
          fun k hk => W.inv.fresh _ hsuName _ (Or.inl rfl) k hk
        have hInv' : Inv { S with store := (replaceGroup (Node.supplier nsu) supPreds
            (supT (Node.supplier nsu) i (Node.offering offN)) S.store) } := by
          refine inv_replace_tame W.inv supT_tame ?_
          intro t ht v k hm hk
          rcases supT_mentions ht hm with hv | hv
          · rw [hv] at hk
            exact hsuBound k hk
          · rw [hv] at hk
            injection hk with hk
            omega
        have hNe : NameEq S.store (replaceGroup (Node.supplier nsu) supPreds
            (supT (Node.supplier nsu) i (Node.offering offN)) S.store) :=
          nameEq_rep (by decide) supT_no_name
        have hMe : MatchEq S.store (replaceGroup (Node.supplier nsu) supPreds
            (supT (Node.supplier nsu) i (Node.offering offN)) S.store) :=
          matchEq_rep (by decide) supT_msafe
        have hBe : BizEq S.store (replaceGroup (Node.supplier nsu) supPreds
            (supT (Node.supplier nsu) i (Node.offering offN)) S.store) :=
          bizEq_rep (by decide) supT_msafe
        have hsune : ∀ v : Node, (∃ nn, v = Node.product nn) ∨
            (∃ nn, v = Node.priceSpec nn) ∨ (∃ nn, v = Node.quantVal nn) ∨
            (∃ nn, v = Node.offering nn) ∨ (∃ nn, v = Node.typeAndQuantity nn) →
            Node.supplier nsu ≠ v := by
          rintro v (⟨nn, rfl⟩ | ⟨nn, rfl⟩ | ⟨nn, rfl⟩ | ⟨nn, rfl⟩ | ⟨nn, rfl⟩) <;> simp
        refine ⟨hInv', ?_, nameEq_trans W.name hNe, ?_, bizEq_trans W.biz hBe, ?_, ?_⟩
        · show st.ctr < S.ctr
          exact hstlt
        · intro s p i2 hm
          exact W.mchar s p i2 ((hMe s p i2).mp hm)
        · refine ⟨st.ctr, st.ctr + 1, (hMe _ _ _).mpr W.mself, fun higf => ?_⟩
          obtain ⟨hprovB, hbaseB, ⟨cefB, hcefB, ⟨ns, he1B, hg1B⟩, ⟨nt, he2B, hg2B⟩,
            ⟨no, hoffEq, he3B, ⟨nq, he4B, hgtB⟩, ⟨nu, he5B, hguB⟩⟩⟩,
            hgiB, hgaB, hpicB⟩ := hbody
          refine bodyAt_to_body ⟨?_, ?_, ⟨cefB, hcefB, ⟨ns, ?_, ?_⟩, ⟨nt, ?_, ?_⟩,
            ⟨no, hoffEq, ?_, ⟨nq, ?_, ?_⟩, ⟨nu, ?_, ?_⟩⟩⟩, ?_, ?_, ?_⟩ ?_
          · refine mem_rep_of hprovB ?_
            rintro ⟨hx, -⟩
            simp at hx
          · refine groupSat_replace (noHit_of_subj supT_subj (by simp))
              (noHit_of_subj (baseInfoTriples_subj _ _) (by simp)) hbaseB
          · refine mem_rep_of he1B ?_
            rintro ⟨hx, -⟩
            simp at hx
          · exact groupSat_replace (noHit_of_subj supT_subj (by simp))
              (noHit_of_subj specT_subj (by simp)) hg1B
          · refine mem_rep_of he2B ?_
            rintro ⟨hx, -⟩
            simp at hx
          · exact groupSat_replace (noHit_of_subj supT_subj (by simp))
              (noHit_of_subj targetT_subj (by simp)) hg2B
          · refine mem_rep_of he3B ?_
            rintro ⟨hx, -⟩
            simp at hx
          · refine mem_rep_of he4B ?_
            rintro ⟨hx, -⟩
            simp at hx
          · exact groupSat_replace (noHit_of_subj supT_subj (by simp))
              (noHit_of_subj taqT_subj (by simp)) hgtB
          · refine mem_rep_of he5B ?_
            rintro ⟨hx, -⟩
            simp at hx
          · exact groupSat_replace (noHit_of_subj supT_subj (by simp))
              (noHit_of_subj upsT_subj (by simp)) hguB
          · exact groupSat_replace (noHit_of_subj supT_subj (by simp))
              (noHit_of_subj ingrT_subj (by simp)) hgiB
          · exact groupSat_replace (noHit_of_subj supT_subj (by simp))
              (noHit_of_subj allergT_subj (by simp)) hgaB
          · unfold PicSat at hpicB ⊢
            by_cases himg : truthyOpt (detail p0.id).image = true
            · rw [if_pos himg] at hpicB ⊢
              obtain ⟨f, hf1, hf2⟩ := hpicB
              refine ⟨f, mem_rep_of hf1 ?_, mem_rep_of hf2 ?_⟩
              · rintro ⟨-, hx⟩
                exact absurd hx (show "veeakker:thumbnail" ∉ supPreds by decide)
              · rintro ⟨-, hx⟩
                exact absurd hx (show "dct:source" ∉ supPreds by decide)
            · rw [if_neg himg] at hpicB ⊢
              intro o ho
              rcases List.mem_append.mp ho with hb | hd
              · exact absurd (supT_predsIn _ hb)
                  (show "veeakker:thumbnail" ∉ ["schema:email", "dct:description",
                    "gr:offers"] by decide)
              · exact hpicB o (mem_deleteProps.mp hd).1
          · intro i2 hi2 su2 hsu2
            rw [hsup] at hi2
            injection hi2 with hi2
            subst hi2
            have hsu2S : Triple.mk su2 "gr:name" (Obj.str i.name) ∈ S.store :=
              (hNe _ rfl).mpr hsu2
            have hsu2st : Triple.mk su2 "gr:name" (Obj.str i.name) ∈ st.store :=
              (W.name _ rfl).mpr hsu2S
            have hsueq : su2 = Node.supplier nsu :=
              hnameUniq su2 (Node.supplier nsu) i.name hsu2st hsuName0
            subst hsueq
            exact groupSat_establish
        · intro iq hsatq
          have hsatqS : ProdSat j (detail iq) S.store :=
            prodSat_low W.low W.name (fun t ht u k hm hk => hInv.fresh t ht u hm k hk)
              hnshape hsatq
          refine prodSat_supReplace ⟨nsu, rfl⟩ ?_ hsatqS
          intro i'' hi'' hmem
          have hmem0 : Triple.mk (Node.supplier nsu) "gr:name" (Obj.str i''.name)
              ∈ st.store := (W.name _ rfl).mpr hmem
          have hnn : i''.name = i.name :=
            hnameFun (Node.supplier nsu) i''.name i.name hmem0 hsuName0
          exact hcons iq p0.id i'' i hi'' hsup hnn

/-! ### Derived name discipline of a well-formed store -/

theorem names_shape {R : List SupplierSummary} {st : St}
    (hInv : Inv st) (hnt : NameTame R st.store) :
    ∀ t ∈ st.store, t.p = "gr:name" → ∃ n, t.s = Node.supplier n := by
  intro t ht hp
  obtain ⟨row, hrow, ⟨iu, hbm⟩, -⟩ := hnt t ht hp
  exact (hInv.bizShape _ _ _ hbm).1

theorem names_fun {R : List SupplierSummary} {st : St}
    (hInv : Inv st) (hnt : NameTame R st.store)
    (hids : (R.map (fun r => toString r.id)).Nodup) :
    ∀ (su : Node) (n1 n2 : String),
      Triple.mk su "gr:name" (Obj.str n1) ∈ st.store →
      Triple.mk su "gr:name" (Obj.str n2) ∈ st.store → n1 = n2 := by
  intro su n1 n2 h1 h2
  obtain ⟨r1, hr1, ⟨iu1, hbm1⟩, ho1⟩ := hnt _ h1 rfl
  obtain ⟨r2, hr2, ⟨iu2, hbm2⟩, ho2⟩ := hnt _ h2 rfl
  simp only [Obj.str.injEq] at ho1 ho2
  have hiu : iu1 = iu2 := by
    have := hInv.funA "adms:identifier" (by decide) su (Obj.node iu1) (Obj.node iu2)
      hbm1.1 hbm2.1
    injection this
  subst hiu
  have hnot := hInv.notF iu1 (Obj.str (toString r1.id)) (Obj.str (toString r2.id))
    hbm1.2.2.2 hbm2.2.2.2
  injection hnot with hnot
  have hreq : r1 = r2 := List.inj_on_of_nodup_map hids hr1 hr2 hnot
  rw [ho1, ho2, hreq]

theorem names_uniq {R : List SupplierSummary} {st : St}
    (hInv : Inv st) (hnt : NameTame R st.store)
    (hnames : (R.map (fun r => r.name)).Nodup) :
    ∀ (su1 su2 : Node) (n : String),
      Triple.mk su1 "gr:name" (Obj.str n) ∈ st.store →
      Triple.mk su2 "gr:name" (Obj.str n) ∈ st.store → su1 = su2 := by
  intro su1 su2 n h1 h2
  obtain ⟨r1, hr1, ⟨iu1, hbm1⟩, ho1⟩ := hnt _ h1 rfl
  obtain ⟨r2, hr2, ⟨iu2, hbm2⟩, ho2⟩ := hnt _ h2 rfl
  simp only [Obj.str.injEq] at ho1 ho2
  have hne : r1.name = r2.name := by
    rw [← ho1, ← ho2]
  have hreq : r1 = r2 := List.inj_on_of_nodup_map hnames hr1 hr2 hne
  subst hreq
  exact (hInv.bizU _ _ _ _ _ hbm1 hbm2).1

/-! ### The induction bundle of a run -/

/-- After loading supplier roster `up.suppliers` and the products of `D`,
the store faithfully reflects them all, and every product identity match in
the store belongs to a loaded payload. -/
structure Reflects (up : Upstream) (j : Node) (D : List Product) (st : St) : Prop where
  inv : Inv st
  roster : RosterSat up.suppliers st.store
  nameTame : NameTame up.suppliers st.store
  sat : ∀ d ∈ D, ProdSat j d st.store
  origin : ∀ (s : String) (pu iu : Node), ProdMatch st.store s pu iu →
    ∃ d' ∈ D, toString d'.id = s

theorem reflects_transfer {up : Upstream} {j : Node} {D : List Product} {st st' : St}
    (hse : SetEq st.store st'.store) (hc : st.ctr = st'.ctr)
    (h : Reflects up j D st) : Reflects up j D st' :=
  ⟨inv_transfer2 hse hc h.inv,
   rosterSat_transfer hse h.roster,
   nameTame_transfer hse h.nameTame,
   fun d hd => prodSat_transfer hse (h.sat d hd),
   fun s pu iu hm => h.origin s pu iu (prodMatch_transfer (setEq_symm hse) hm)⟩

/-- One product load extends the reflected set by the product's detail
payload, whichever mode (already known, fresh, or ignored-supplier) it
takes. -/
theorem loadProduct_establish {up : Upstream} {j : Node} {D : List Product}
    {p0 : Product} {st st' : St}
    (hR : Reflects up j D st)
    (hD : ∀ x ∈ D, ∃ i : Int, x = up.detail i)
    (hnames : (up.suppliers.map (fun r => r.name)).Nodup)
    (hids : (up.suppliers.map (fun r => toString r.id)).Nodup)
    (hcons : SupplierConsistent up.detail)
    (hdet : DetailCoherent up.detail)
    (hj : ∀ k, idx j = some k → k < st.ctr)
    (h : loadProduct up.detail p0 ⟨true, some j⟩ st = .ok st') :
    Reflects up j (up.detail p0.id :: D) st' ∧ st.ctr ≤ st'.ctr ∧
    (∀ k, idx j = some k → k < st'.ctr) := by
  have hnshape := names_shape hR.inv hR.nameTame
  cases hfind : findProductMeta st.store (toString (up.detail p0.id).id) with
  | some pr =>
    have hsound := findProductMeta_sound hfind
    obtain ⟨d', hd'D, hid⟩ := hR.origin _ pr.1 pr.2 hsound
    obtain ⟨i', hi'⟩ := hD d' hd'D
    have hdeq : d' = up.detail p0.id := by
      rw [hi'] at hid ⊢
      exact hdet i' p0.id hid
    have hsat0 : ProdSat j (up.detail p0.id) st.store := hdeq ▸ hR.sat d' hd'D
    obtain ⟨stB, hok, hse, hctr, -, -⟩ :=
      loadProduct_stutter up.detail p0 j st hR.inv hsat0
    rw [h] at hok
    injection hok with hok
    subst hok
    have hse' : SetEq st.store st'.store := setEq_symm hse
    refine ⟨⟨inv_transfer2 hse' hctr.symm hR.inv,
      rosterSat_transfer hse' hR.roster,
      nameTame_transfer hse' hR.nameTame, ?_, ?_⟩, by omega, ?_⟩
    · intro d hd
      rcases List.mem_cons.mp hd with rfl | hd
      · exact prodSat_transfer hse' hsat0
      · exact prodSat_transfer hse' (hR.sat d hd)
    · intro s pu iu hm
      obtain ⟨d2, hd2, he2⟩ := hR.origin s pu iu (prodMatch_transfer hse hm)
      exact ⟨d2, List.mem_cons_of_mem _ hd2, he2⟩
    · intro k hk
      have := hj k hk
      omega
  | none =>
    by_cases hig : supplierIgnored (up.detail p0.id).supplier = true
    · obtain ⟨S1, eq1, W1, hc1, -, -, -⟩ := @walk1 (up.detail p0.id) j st hR.inv hfind
      have heq : loadProduct up.detail p0 ⟨true, some j⟩ st = .ok S1 := by
        simp only [loadProduct, if_true]
        rw [eq1]
        dsimp only
        rw [if_pos hig]
      rw [heq] at h
      injection h with h
      subst h
      refine ⟨⟨W1.inv,
        rosterSat_trans_eq W1.biz W1.name hR.roster,
        nameTame_trans_eq W1.biz W1.name hR.nameTame, ?_, ?_⟩, by omega, ?_⟩
      · intro d hd
        rcases List.mem_cons.mp hd with rfl | hd
        · exact ⟨st.ctr, st.ctr + 1, W1.mself,
            fun hfalse => by rw [hfalse] at hig; exact Bool.noConfusion hig⟩
        · obtain ⟨i', hi'⟩ := hD d hd
          rw [hi']
          refine prodSat_low W1.low W1.name
            (fun t ht u k hm hk => hR.inv.fresh t ht u hm k hk) hnshape ?_
          rw [← hi']
          exact hR.sat d hd
      · intro s pu iu hm
        rcases W1.mchar s pu iu hm with hold | hnew
        · obtain ⟨d2, hd2, he2⟩ := hR.origin s pu iu hold
          exact ⟨d2, List.mem_cons_of_mem _ hd2, he2⟩
        · exact ⟨up.detail p0.id, List.mem_cons_self _ _, hnew.symm⟩
      · intro k hk
        have := hj k hk
        omega
    · have hig0 : supplierIgnored (up.detail p0.id).supplier = false :=
        Bool.eq_false_iff.mpr hig
      obtain ⟨hInv', hlt, hname, hmchar, hbiz, hnew, hpres⟩ :=
        loadProduct_new hR.inv hfind hig0 hj hnshape
          (names_fun hR.inv hR.nameTame hids)
          (names_uniq hR.inv hR.nameTame hnames) hcons h
      refine ⟨⟨hInv',
        rosterSat_trans_eq hbiz hname hR.roster,
        nameTame_trans_eq hbiz hname hR.nameTame, ?_, ?_⟩, by omega, ?_⟩
      · intro d hd
        rcases List.mem_cons.mp hd with rfl | hd
        · exact hnew
        · obtain ⟨i', hi'⟩ := hD d hd
          rw [hi']
          refine hpres i' ?_
          rw [← hi']
          exact hR.sat d hd
      · intro s pu iu hm
        rcases hmchar s pu iu hm with hold | hs
        · obtain ⟨d2, hd2, he2⟩ := hR.origin s pu iu hold
          exact ⟨d2, List.mem_cons_of_mem _ hd2, he2⟩
        · exact ⟨up.detail p0.id, List.mem_cons_self _ _, hs.symm⟩
      · intro k hk
        have := hj k hk
        omega

/-! ### Page induction: establishment and replay -/

/-- The store already reflects every product of the page prefix the walk
will visit (up to and including the first `last` page). -/
def pagesSat (detail : Int → Product) (j : Node) : List Page → List Triple → Prop
  | [], _ => False
  | pg :: rest, db => (∀ p ∈ pg.content, ProdSat j (detail p.id) db) ∧
      (pg.last = true ∨ pagesSat detail j rest db)

theorem pagesSat_transfer {detail : Int → Product} {j : Node} {pages : List Page}
    {a b : List Triple} (hab : SetEq a b) (h : pagesSat detail j pages a) :
    pagesSat detail j pages b := by
  induction pages with
  | nil => exact h.elim
  | cons pg rest ih =>
    obtain ⟨h1, h2⟩ := h
    refine ⟨fun p hp => prodSat_transfer hab (h1 p hp), ?_⟩
    rcases h2 with h2 | h2
    · exact Or.inl h2
    · exact Or.inr (ih h2)

theorem loadProducts_establish {up : Upstream} {j : Node} {D : List Product}
    {ps : List Product} {st st' : St}
    (hR : Reflects up j D st)
    (hD : ∀ x ∈ D, ∃ i : Int, x = up.detail i)
    (hnames : (up.suppliers.map (fun r => r.name)).Nodup)
    (hids : (up.suppliers.map (fun r => toString r.id)).Nodup)
    (hcons : SupplierConsistent up.detail)
    (hdet : DetailCoherent up.detail)
    (hj : ∀ k, idx j = some k → k < st.ctr)
    (h : loadProducts up.detail j ps st = .ok st') :
    ∃ D' : List Product, Reflects up j D' st' ∧
      (∀ x ∈ D', ∃ i : Int, x = up.detail i) ∧
      (∀ x ∈ D, x ∈ D') ∧
      (∀ p ∈ ps, up.detail p.id ∈ D') ∧
      st.ctr ≤ st'.ctr ∧ (∀ k, idx j = some k → k < st'.ctr) := by
  induction ps generalizing D st with
  | nil =>
    unfold loadProducts at h
    injection h with h
    subst h
    exact ⟨D, hR, hD, fun x hx => hx, fun p hp => absurd hp (List.not_mem_nil p),
      Nat.le_refl _, hj⟩
  | cons p rest ih =>
    unfold loadProducts at h
    cases hstep : loadProduct up.detail p ⟨true, some j⟩ st with
    | error e =>
      rw [hstep] at h
      simp only [Except.bind, bind] at h
      exact Except.noConfusion h
    | ok st1 =>
      rw [hstep] at h
      simp only [Except.bind, bind] at h
      obtain ⟨hR1, hle1, hj1⟩ :=
        loadProduct_establish hR hD hnames hids hcons hdet hj hstep
      have hD1 : ∀ x ∈ up.detail p.id :: D, ∃ i : Int, x = up.detail i := by
        intro x hx
        rcases List.mem_cons.mp hx with rfl | hx
        · exact ⟨p.id, rfl⟩
        · exact hD x hx
      obtain ⟨D', hR', hD', hpres, hps, hle2, hj2⟩ := ih hR1 hD1 hj1 h
      refine ⟨D', hR', hD', ?_, ?_, by omega, hj2⟩
      · exact fun x hx => hpres x (List.mem_cons_of_mem _ hx)
      · intro q hq
        rcases List.mem_cons.mp hq with rfl | hq
        · exact hpres _ (List.mem_cons_self _ _)
        · exact hps q hq

theorem loadPages_establish {up : Upstream} {j : Node} {D : List Product}
    {pages : List Page} {st st' : St}
    (hR : Reflects up j D st)
    (hD : ∀ x ∈ D, ∃ i : Int, x = up.detail i)
    (hnames : (up.suppliers.map (fun r => r.name)).Nodup)
    (hids : (up.suppliers.map (fun r => toString r.id)).Nodup)
    (hcons : SupplierConsistent up.detail)
    (hdet : DetailCoherent up.detail)
    (hj : ∀ k, idx j = some k → k < st.ctr)
    (h : loadPages up.detail j pages st = .ok st') :
    ∃ D' : List Product, Reflects up j D' st' ∧
      (∀ x ∈ D', ∃ i : Int, x = up.detail i) ∧
      (∀ x ∈ D, x ∈ D') ∧
      pagesSat up.detail j pages st'.store ∧
      st.ctr ≤ st'.ctr := by
  induction pages generalizing D st with
  | nil =>
    unfold loadPages at h
    exact Except.noConfusion h
  | cons pg rest ih =>
    unfold loadPages at h
    cases hstep : loadProducts up.detail j pg.content st with
    | error e =>
      rw [hstep] at h
      simp only [Except.bind, bind] at h
      exact Except.noConfusion h
    | ok st1 =>
      rw [hstep] at h
      simp only [Except.bind, bind] at h
      obtain ⟨D1, hR1, hD1, hpres1, hsat1, hle1, hj1⟩ :=
        loadProducts_establish hR hD hnames hids hcons hdet hj hstep
      cases hlast : pg.last with
      | true =>
        rw [hlast] at h
        simp only [if_true] at h
        injection h with h
        subst h
        refine ⟨D1, hR1, hD1, hpres1, ⟨?_, Or.inl hlast⟩, hle1⟩
        intro p hp
        exact hR1.sat _ (hsat1 p hp)
      | false =>
        rw [hlast] at h
        simp only [Bool.false_eq_true, if_false] at h
        obtain ⟨D', hR', hD', hpres', hpsat', hle2⟩ := ih hR1 hD1 hj1 h
        refine ⟨D', hR', hD', fun x hx => hpres' x (hpres1 x hx),
          ⟨?_, Or.inr hpsat'⟩, by omega⟩
        intro p hp
        exact hR'.sat _ (hpres' _ (hsat1 p hp))

theorem loadProducts_replay {detail : Int → Product} {j : Node} {ps : List Product}
    {st : St} (hInv : Inv st)
    (hsat : ∀ p ∈ ps, ProdSat j (detail p.id) st.store) :
    ∃ st2, loadProducts detail j ps st = .ok st2 ∧ SetEq st2.store st.store ∧
      st2.ctr = st.ctr := by
  induction ps generalizing st with
  | nil => exact ⟨st, rfl, setEq_refl _, rfl⟩
  | cons p rest ih =>
    obtain ⟨st1, hok, hse, hctr, -, -⟩ := loadProduct_stutter detail p j st hInv
      (hsat p (List.mem_cons_self _ _))
    have hInv1 : Inv st1 := inv_transfer2 (setEq_symm hse) hctr.symm hInv
    have hsat1 : ∀ q ∈ rest, ProdSat j (detail q.id) st1.store :=
      fun q hq => prodSat_transfer (setEq_symm hse) (hsat q (List.mem_cons_of_mem _ hq))
    obtain ⟨st2, hok2, hse2, hctr2⟩ := ih hInv1 hsat1
    refine ⟨st2, ?_, setEq_trans hse2 hse, hctr2.trans hctr⟩
    unfold loadProducts
    rw [hok]
    simp only [Except.bind, bind]
    exact hok2

theorem loadPages_replay {detail : Int → Product} {j : Node} {pages : List Page}
    {st : St} (hInv : Inv st) (hps : pagesSat detail j pages st.store) :
    ∃ st2, loadPages detail j pages st = .ok st2 ∧ SetEq st2.store st.store ∧
      st2.ctr = st.ctr := by
  induction pages generalizing st with
  | nil => exact hps.elim
  | cons pg rest ih =>
    obtain ⟨h1, h2⟩ := hps
    obtain ⟨st1, hok1, hse1, hctr1⟩ := loadProducts_replay hInv h1
    have hInv1 := inv_transfer2 (setEq_symm hse1) hctr1.symm hInv
    cases hlast : pg.last with
    | true =>
      refine ⟨st1, ?_, hse1, hctr1⟩
      unfold loadPages
      rw [hok1]
      simp only [Except.bind, bind]
      rw [hlast]
      simp
    | false =>
      have hrest : pagesSat detail j rest st1.store := by
        rcases h2 with h2 | h2
        · rw [hlast] at h2
          exact Bool.noConfusion h2
        · exact pagesSat_transfer (setEq_symm hse1) h2
      obtain ⟨st2, hok2, hse2, hctr2⟩ := ih hInv1 hrest
      refine ⟨st2, ?_, setEq_trans hse2 hse1, hctr2.trans hctr1⟩
      unfold loadPages
      rw [hok1]
      simp only [Except.bind, bind]
      rw [hlast]
      simp only [Bool.false_eq_true, if_false]
      exact hok2

theorem inv_nil {c : Nat} {dl : List String} {nw : Nat} :
    Inv { store := [], ctr := c, downloads := dl, now := nw } := by
  refine ⟨?_, ?_, ?_, ?_, ?_, ?_, ?_, ?_⟩
  · intro t ht
    exact absurd ht (List.not_mem_nil t)
  · intro p hp u o1 o2 h1 h2
    exact absurd h1 (List.not_mem_nil _)
  · intro p1 hp1 p2 hp2 u1 u2 v h1 h2
    exact absurd h1 (List.not_mem_nil _)
  · intro iu v1 v2 h1 h2
    exact absurd h1 (List.not_mem_nil _)
  · intro idStr pu1 iu1 pu2 iu2 h1 h2
    exact absurd h1.1 (List.not_mem_nil _)
  · intro idStr su1 iu1 su2 iu2 h1 h2
    exact absurd h1.1 (List.not_mem_nil _)
  · intro idStr pu iu h
    exact absurd h.1 (List.not_mem_nil _)
  · intro idStr su iu h
    exact absurd h.1 (List.not_mem_nil _)

/-- C1: running the full harvest (suppliers, then all pages, each product
swapped for its external detail payload) twice in a row against identical
upstream data, starting from an empty store, makes the second run a pure
replay: it succeeds, the uuid counter does not move (so no duplicate
Offering, TypeAndQuantityNode, UnitPriceSpecification, QuantitativeValue or
Identifier node is minted), and the two post-run stores hold exactly the
same triples.  Upstream sanity is assumed: roster names and printed roster
ids are duplicate-free, equal supplier names carry equal supplier payloads,
detail payloads are keyed by their printed id, and the job URI predates the
counter. -/
theorem harvest_idempotent (up : Upstream) (jobUri : Node) (c0 : Nat)
    (dl0 : List String) (n0 : Nat) (s1 : St)
    (hnames : (up.suppliers.map (fun r => r.name)).Nodup)
    (hids : (up.suppliers.map (fun r => toString r.id)).Nodup)
    (hcons : SupplierConsistent up.detail)
    (hdet : DetailCoherent up.detail)
    (hj : ∀ k, idx jobUri = some k → k < c0)
    (h1 : harvestNoJob up jobUri
      { store := [], ctr := c0, downloads := dl0, now := n0 } = .ok s1) :
    ∃ s2 : St, harvestNoJob up jobUri s1 = .ok s2 ∧
      SetEq s2.store s1.store ∧ s2.ctr = s1.ctr := by
  have h1' : loadPages up.detail jobUri up.pages
      (loadSuppliers up.suppliers
        { store := [], ctr := c0, downloads := dl0, now := n0 }) = .ok s1 := h1
  obtain ⟨invL, rosterL, tameL, noPL, ctrL, -, -⟩ :=
    @loadSuppliers_establish up.suppliers
      { store := [], ctr := c0, downloads := dl0, now := n0 } inv_nil
      (fun s' pu iu hm => absurd hm.1 (List.not_mem_nil _))
      (fun t ht hp => absurd ht (List.not_mem_nil t))
  have hR0 : Reflects up jobUri [] (loadSuppliers up.suppliers
      { store := [], ctr := c0, downloads := dl0, now := n0 }) :=
    ⟨invL, rosterL, tameL,
     fun d hd => absurd hd (List.not_mem_nil d),
     fun s pu iu hm => absurd hm (noPL s pu iu)⟩
  have hjL : ∀ k, idx jobUri = some k →
      k < (loadSuppliers up.suppliers
        { store := [], ctr := c0, downloads := dl0, now := n0 }).ctr :=
    fun k hk => lt_of_lt_of_le (hj k hk) ctrL
  obtain ⟨D', hR1, -, -, hpsat1, -⟩ :=
    loadPages_establish hR0 (fun x hx => absurd hx (List.not_mem_nil x))
      hnames hids hcons hdet hjL h1'
  obtain ⟨hseL, hctrL2, -, -⟩ := loadSuppliers_stutter hR1.inv hR1.roster hR1.nameTame
  have hInv2 : Inv (loadSuppliers up.suppliers s1) :=
    inv_transfer2 (setEq_symm hseL) hctrL2.symm hR1.inv
  have hps2 : pagesSat up.detail jobUri up.pages
      (loadSuppliers up.suppliers s1).store :=
    pagesSat_transfer (setEq_symm hseL) hpsat1
  obtain ⟨s2, hok2, hse2, hctr2⟩ := loadPages_replay hInv2 hps2
  exact ⟨s2, hok2, setEq_trans hse2 hseL, hctr2.trans hctrL2⟩

def c1info : SupplierInfo := ⟨"S", "d", "e", ""⟩

def c1detail : Product :=
  ⟨1, "P", .info c1info, none, false, false,
   ⟨⟨⟨⟨2⟩, "kg"⟩, ⟨⟨3⟩, "kg"⟩⟩, 1⟩, none, none, none⟩

def c1up : Upstream :=
  ⟨[⟨1, "S"⟩], [⟨[c1detail], true⟩], fun _ => c1detail⟩

def c1s1 : St :=
  match harvestNoJob c1up (Node.ext "job")
      { store := [], ctr := 5, downloads := [], now := 0 } with
  | .ok s => s
  | .error e => e.2

theorem harvest_idempotent_witness :
    ∃ s2 : St, harvestNoJob c1up (Node.ext "job") c1s1 = .ok s2 ∧
      SetEq s2.store c1s1.store ∧ s2.ctr = c1s1.ctr :=
  harvest_idempotent c1up (Node.ext "job") 5 [] 0 c1s1
    (by simp [c1up]) (by simp [c1up])
    (fun i j a b ha hb hn => by
      injection ha with h1
      injection hb with h2
      rw [← h1, ← h2])
    (fun i j h => rfl)
    (fun k hk => nomatch hk)
    (by rfl)

end Veeakker
